import Mathlib

/-!
# Region.cc of the spatial index library: the axis-aligned region

A shallow embedding of `src/spatialindex/Region.cc`.

Conventions of the embedding

* A `double` is an exact rational number (`ℚ`): comparisons, `std::min`, `std::max` and
  `std::abs` are exact on doubles, and `+`, `-`, `*` are taken without rounding.  NaN and the
  two infinities are not values of the model.  `std::sqrt` is the real square root, so the
  functions that end in `std::sqrt` return a real number.
* The one place where the sums are rounded is `touchesRegion`: its test compares a bound
  with `r.low + epsilon` and with `r.low - epsilon`, and whether both comparisons can hold
  is decided by the rounding of the two sums alone.  There the sums are rounded to the
  nearest binary64 value, ties to even (`roundToDouble`).
* `uint32_t m_dimension` is a natural number; where the source truncates to 32 bits the
  model reduces modulo `2 ^ 32` explicitly.
* `double* m_pLow`, `double* m_pHigh` are lists; `m_pLow[i]` is `rd m_pLow i`.  The class
  keeps both arrays at `m_dimension` elements (`Region.Allocated`).
* A `throw` is an `Except.error`.  A `void` member function that writes to the receiver
  returns the receiver's state after the call, paired with the outcome when it can throw.
* A result of type `Option` is `none` where the source reads or writes outside an
  allocation or reads bytes it cannot interpret.
* A loop `for (i = 0; i < m_dimension; ++i)` is a recursion or a fold over
  `List.range m_dimension`.
* `Region` holds the three coordinate members.  `RegionObject` adds `m_vec_pEdge`, for the
  member functions that read or build the cached edges; the others never touch it.
* A parameter `NDEBUG` tells whether the build defines that macro, which removes the check
  of `initialize`.  A parameter passed by value is copied by the copy constructor before
  the body runs; a `Region` returned by value is taken without a copy.
-/

namespace SpatialIndex

/-! ## Exceptions and numeric limits -/

/-- The exception classes of `Tools` that Region.cc throws, and `std::out_of_range`, which
`std::vector::at` throws.  The specification calls `IllegalArgumentException`
"InvalidArgument". -/
inductive Exn where
  | IllegalArgumentException
  | NotSupportedException
  | IllegalStateException
  | IndexOutOfBoundsException
  | out_of_range
  deriving DecidableEq, Repr

/-- The largest finite double, `std::numeric_limits<double>::max()`. -/
def DBL_MAX : ℚ := (2 ^ 53 - 1) * 2 ^ 971

/-- The machine epsilon, `std::numeric_limits<double>::epsilon()`. -/
def DBL_EPSILON : ℚ := 1 / 2 ^ 52

/-- The smallest positive normal double, `std::numeric_limits<double>::min()`. -/
def DBL_MIN : ℚ := 1 / 2 ^ 1022

/-- Rounding a rational number to the nearest integer, a tie to the even one. -/
def roundHalfEven (q : ℚ) : ℤ :=
  if q - ⌊q⌋ < 1 / 2 then ⌊q⌋
  else if 1 / 2 < q - ⌊q⌋ then ⌊q⌋ + 1
  else if ⌊q⌋ % 2 = 0 then ⌊q⌋
  else ⌊q⌋ + 1

/-- The exponent of the unit in the last place of the binary64 format at `x`: 52 binary
places below the leading bit of `x`, and that of the subnormal numbers, `-1074`, for
`|x| < DBL_MIN`. -/
def ulpExponent (x : ℚ) : ℤ := max (Int.log 2 |x|) (-1022) - 52

/-- The result the double arithmetic of IEEE 754 gives for an operation whose exact result
is `x`: the multiple of the unit in the last place nearest to `x`, a tie to the one with an
even significand.  An exact result beyond `DBL_MAX` rounds to an infinity in the source and
is outside the model; the sum of a finite double and `DBL_EPSILON` never is. -/
def roundToDouble (x : ℚ) : ℚ := roundHalfEven (x / 2 ^ ulpExponent x) * 2 ^ ulpExponent x

/-- Reading `p[i]` from an array of doubles. -/
def rd (p : List ℚ) (i : Nat) : ℚ := p.getD i 0

/-- The storage `new double[n]` returns; its contents are indeterminate in C++ and every
path of the model writes a cell before reading it. -/
def newDoubles (n : Nat) : List ℚ := List.replicate n 0

/-! ## Data model -/

/-- The data members `m_dimension`, `m_pLow`, `m_pHigh` of `class Region`. -/
structure Region where
  m_dimension : Nat
  m_pLow : List ℚ
  m_pHigh : List ℚ
  deriving DecidableEq, Repr

/-- Modelled from the spec: class `Point` is declared outside Region.cc; the specification
gives it a dimension count and an ordered sequence of that many doubles. -/
structure Point where
  m_dimension : Nat
  m_pCoords : List ℚ
  deriving DecidableEq, Repr

/-- Modelled from the spec: `Point::getCoordinate`, the per-dimension coordinate access of
the point collaborator. -/
def Point.getCoordinate (p : Point) (i : Nat) : ℚ := rd p.m_pCoords i

namespace Region

/-- Both coordinate arrays hold `m_dimension` doubles, as every constructor and
`makeDimension` allocate them. -/
def Allocated (r : Region) : Prop :=
  r.m_pLow.length = r.m_dimension ∧ r.m_pHigh.length = r.m_dimension

instance (r : Region) : Decidable r.Allocated := by
  unfold Allocated; infer_instance

/-- The soft invariant of the data model: `low[i] <= high[i]` on every axis. -/
def LowLeHigh (r : Region) : Prop :=
  ∀ i, i < r.m_dimension → rd r.m_pLow i ≤ rd r.m_pHigh i

instance (r : Region) : Decidable r.LowLeHigh := by
  unfold LowLeHigh; infer_instance

/-- The infinite sentinel: every low is `+DBL_MAX` and every high is `-DBL_MAX`. -/
def IsInfinite (r : Region) : Prop :=
  ∀ i, i < r.m_dimension → rd r.m_pLow i = DBL_MAX ∧ rd r.m_pHigh i = -DBL_MAX

instance (r : Region) : Decidable r.IsInfinite := by
  unfold IsInfinite; infer_instance

/-! ## Predicates -/

/-- The loop of `Region::intersectsRegion` (lines 311-315). -/
def intersectsRegion.loop (self r : Region) : List Nat → Bool
  | [] => true
  | i :: rest =>
    if rd self.m_pLow i > rd r.m_pHigh i ∨ rd self.m_pHigh i < rd r.m_pLow i then false
    else intersectsRegion.loop self r rest

/-- `bool Region::intersectsRegion(const Region& r) const`. -/
def intersectsRegion (self r : Region) : Except Exn Bool :=
  if self.m_dimension ≠ r.m_dimension then .error .IllegalArgumentException
  else .ok (intersectsRegion.loop self r (List.range self.m_dimension))

/-- The loop of `Region::containsRegion` (lines 325-329). -/
def containsRegion.loop (self r : Region) : List Nat → Bool
  | [] => true
  | i :: rest =>
    if rd self.m_pLow i > rd r.m_pLow i ∨ rd self.m_pHigh i < rd r.m_pHigh i then false
    else containsRegion.loop self r rest

/-- `bool Region::containsRegion(const Region& r) const`. -/
def containsRegion (self r : Region) : Except Exn Bool :=
  if self.m_dimension ≠ r.m_dimension then .error .IllegalArgumentException
  else .ok (containsRegion.loop self r (List.range self.m_dimension))

/-- `bool Region::touchesRegion(const Region& r) const`, its loop (lines 339-347).  The
sums `r.m_pLow[i] + epsilon`, `r.m_pLow[i] - epsilon` and those of the highs are doubles:
each is rounded before it is compared. -/
def touchesRegion.loop (self r : Region) : List Nat → Bool
  | [] => true
  | i :: rest =>
    if (rd self.m_pLow i ≥ roundToDouble (rd r.m_pLow i + DBL_EPSILON) ∧
          rd self.m_pLow i ≤ roundToDouble (rd r.m_pLow i - DBL_EPSILON)) ∨
        (rd self.m_pHigh i ≥ roundToDouble (rd r.m_pHigh i + DBL_EPSILON) ∧
          rd self.m_pHigh i ≤ roundToDouble (rd r.m_pHigh i - DBL_EPSILON)) then false
    else touchesRegion.loop self r rest

/-- `bool Region::touchesRegion(const Region& r) const`. -/
def touchesRegion (self r : Region) : Except Exn Bool :=
  if self.m_dimension ≠ r.m_dimension then .error .IllegalArgumentException
  else .ok (touchesRegion.loop self r (List.range self.m_dimension))

/-- The loop of `Region::containsPoint` (lines 386-390). -/
def containsPoint.loop (self : Region) (p : Point) : List Nat → Bool
  | [] => true
  | i :: rest =>
    if rd self.m_pLow i > p.getCoordinate i ∨ rd self.m_pHigh i < p.getCoordinate i then false
    else containsPoint.loop self p rest

/-- `bool Region::containsPoint(const Point& p) const`. -/
def containsPoint (self : Region) (p : Point) : Except Exn Bool :=
  if self.m_dimension ≠ p.m_dimension then .error .IllegalArgumentException
  else .ok (containsPoint.loop self p (List.range self.m_dimension))

/-- The loop of `Region::touchesPoint` (lines 400-409). -/
def touchesPoint.loop (self : Region) (p : Point) : List Nat → Bool
  | [] => false
  | i :: rest =>
    if (rd self.m_pLow i ≥ p.getCoordinate i - DBL_EPSILON ∧
          rd self.m_pLow i ≤ p.getCoordinate i + DBL_EPSILON) ∨
        (rd self.m_pHigh i ≥ p.getCoordinate i - DBL_EPSILON ∧
          rd self.m_pHigh i ≤ p.getCoordinate i + DBL_EPSILON) then true
    else touchesPoint.loop self p rest

/-- `bool Region::touchesPoint(const Point& p) const`. -/
def touchesPoint (self : Region) (p : Point) : Except Exn Bool :=
  if self.m_dimension ≠ p.m_dimension then .error .IllegalArgumentException
  else .ok (touchesPoint.loop self p (List.range self.m_dimension))

/-! ## Distances -/

/-- The value of the local `x` at the end of one iteration of the loops of
`getMinimumDistance(const Region&)` (lines 362-371) and of
`getMinimumDistanceSq(const Region&)` (lines 821-830), whose bodies are the same text. -/
def gapRegion (self r : Region) (i : Nat) : ℚ :=
  if rd r.m_pHigh i < rd self.m_pLow i then |rd r.m_pHigh i - rd self.m_pLow i|
  else if rd self.m_pHigh i < rd r.m_pLow i then |rd r.m_pLow i - rd self.m_pHigh i|
  else 0

/-- `double Region::getMinimumDistance(const Region& r) const`: `ret += x * x` on every
axis from `ret = 0.0`, then `std::sqrt(ret)`. -/
noncomputable def getMinimumDistance (self r : Region) : Except Exn ℝ :=
  if self.m_dimension ≠ r.m_dimension then .error .IllegalArgumentException
  else .ok (Real.sqrt (((List.range self.m_dimension).foldl
    (fun ret i => ret + gapRegion self r i * gapRegion self r i) 0 : ℚ) : ℝ))

/-- `double Region::getMinimumDistanceSq(const Region& r) const`. -/
def getMinimumDistanceSq (self r : Region) : Except Exn ℚ :=
  if self.m_dimension ≠ r.m_dimension then .error .IllegalArgumentException
  else .ok ((List.range self.m_dimension).foldl
    (fun ret i => ret + gapRegion self r i * gapRegion self r i) 0)

/-- One iteration of the loops of `getMinimumDistance(const Point&)` (lines 423-430) and of
`getMinimumDistanceSq(const Point&)` (lines 849-856); `std::pow(x, 2.0)` is `x ^ 2`. -/
def stepPoint (self : Region) (p : Point) (ret : ℚ) (i : Nat) : ℚ :=
  if p.getCoordinate i < rd self.m_pLow i then ret + (rd self.m_pLow i - p.getCoordinate i) ^ 2
  else if p.getCoordinate i > rd self.m_pHigh i then
    ret + (p.getCoordinate i - rd self.m_pHigh i) ^ 2
  else ret

/-- `double Region::getMinimumDistance(const Point& p) const`. -/
noncomputable def getMinimumDistance_Point (self : Region) (p : Point) : Except Exn ℝ :=
  if self.m_dimension ≠ p.m_dimension then .error .IllegalArgumentException
  else .ok (Real.sqrt (((List.range self.m_dimension).foldl (stepPoint self p) 0 : ℚ) : ℝ))

/-- `double Region::getMinimumDistanceSq(const Point& p) const`. -/
def getMinimumDistanceSq_Point (self : Region) (p : Point) : Except Exn ℚ :=
  if self.m_dimension ≠ p.m_dimension then .error .IllegalArgumentException
  else .ok ((List.range self.m_dimension).foldl (stepPoint self p) 0)

/-- The local `diff` of `getMaximumDistanceSq` (lines 874-878). -/
def getMaximumDistanceSq.diff (self r : Region) (i : Nat) : ℚ :=
  max |rd self.m_pLow i - rd r.m_pHigh i| |rd self.m_pHigh i - rd r.m_pLow i|

/-- `double Region::getMaximumDistanceSq(const Region& r) const`. -/
def getMaximumDistanceSq (self r : Region) : Except Exn ℚ :=
  if self.m_dimension ≠ r.m_dimension then .error .IllegalArgumentException
  else .ok ((List.range self.m_dimension).foldl
    (fun ret i => ret + getMaximumDistanceSq.diff self r i * getMaximumDistanceSq.diff self r i)
    0)

/-- The loop of `Region::getIntersectingArea` (lines 472-479): `ret` is multiplied by the
overlap `f2 - f1` of every axis, and a disjoint axis returns `0.0` at once. -/
def getIntersectingArea.loop (self r : Region) : List Nat → ℚ → ℚ
  | [], ret => ret
  | cDim :: rest, ret =>
    if rd self.m_pLow cDim > rd r.m_pHigh cDim ∨ rd self.m_pHigh cDim < rd r.m_pLow cDim then 0
    else
      getIntersectingArea.loop self r rest
        (ret * (min (rd self.m_pHigh cDim) (rd r.m_pHigh cDim)
          - max (rd self.m_pLow cDim) (rd r.m_pLow cDim)))

/-- `double Region::getIntersectingArea(const Region& r) const`. -/
def getIntersectingArea (self r : Region) : Except Exn ℚ :=
  if self.m_dimension ≠ r.m_dimension then .error .IllegalArgumentException
  else .ok (getIntersectingArea.loop self r (List.range self.m_dimension) 1)

/-! ## Dimension management, assignment and comparison -/

/-- The state `Region::Region()` leaves: dimension 0 and two null arrays. -/
def default : Region := ⟨0, [], []⟩

/-- `void Region::makeDimension(uint32_t dimension)`: both arrays are released and
allocated anew when the dimension changes, and left alone when it does not. -/
def makeDimension (self : Region) (dimension : Nat) : Region :=
  if self.m_dimension ≠ dimension then
    { m_dimension := dimension, m_pLow := newDoubles dimension, m_pHigh := newDoubles dimension }
  else self

/-- `void Region::makeInfinite(uint32_t dimension)`. -/
def makeInfinite (self : Region) (dimension : Nat) : Region :=
  (List.range (self.makeDimension dimension).m_dimension).foldl
    (fun s cIndex =>
      { s with m_pLow := s.m_pLow.set cIndex DBL_MAX, m_pHigh := s.m_pHigh.set cIndex (-DBL_MAX) })
    (self.makeDimension dimension)

/-- The effect of `memcpy(dst, src, n * sizeof(double))` on the array `dst`. -/
def memcpyDoubles (dst src : List ℚ) (n : Nat) : List ℚ :=
  src.take n ++ dst.drop n

/-- `Region& Region::operator=(const Region& r)` for `r` another object than the
receiver; the state of the receiver after the assignment. -/
def operator_assign (self r : Region) : Region :=
  let s := self.makeDimension r.m_dimension
  { s with
    m_pLow := memcpyDoubles s.m_pLow r.m_pLow s.m_dimension
    m_pHigh := memcpyDoubles s.m_pHigh r.m_pHigh s.m_dimension }

/-- The loop of `Region::operator==` (lines 153-162). -/
def operator_eq.loop (self r : Region) : List Nat → Bool
  | [] => true
  | i :: rest =>
    if rd self.m_pLow i < rd r.m_pLow i - DBL_EPSILON ∨
        rd self.m_pLow i > rd r.m_pLow i + DBL_EPSILON ∨
        rd self.m_pHigh i < rd r.m_pHigh i - DBL_EPSILON ∨
        rd self.m_pHigh i > rd r.m_pHigh i + DBL_EPSILON then false
    else operator_eq.loop self r rest

/-- `bool Region::operator==(const Region& r) const`. -/
def operator_eq (self r : Region) : Except Exn Bool :=
  if self.m_dimension ≠ r.m_dimension then .error .IllegalArgumentException
  else .ok (operator_eq.loop self r (List.range self.m_dimension))

/-! ## Combination -/

/-- `void Region::combineRegion(const Region& r)` for `r` another object than the
receiver: the outcome and the state of the receiver after the call. -/
def combineRegion (self r : Region) : Except Exn Unit × Region :=
  if self.m_dimension ≠ r.m_dimension then (.error .IllegalArgumentException, self)
  else
    (.ok (),
      (List.range self.m_dimension).foldl
        (fun s cDim =>
          { s with
            m_pLow := s.m_pLow.set cDim (min (rd s.m_pLow cDim) (rd r.m_pLow cDim))
            m_pHigh := s.m_pHigh.set cDim (max (rd s.m_pHigh cDim) (rd r.m_pHigh cDim)) })
        self)

/-- `void Region::combinePoint(const Point& p)`: the outcome and the state of the receiver
after the call. -/
def combinePoint (self : Region) (p : Point) : Except Exn Unit × Region :=
  if self.m_dimension ≠ p.m_dimension then (.error .IllegalArgumentException, self)
  else
    (.ok (),
      (List.range self.m_dimension).foldl
        (fun s cDim =>
          { s with
            m_pLow := s.m_pLow.set cDim (min (rd s.m_pLow cDim) (rd p.m_pCoords cDim))
            m_pHigh := s.m_pHigh.set cDim (max (rd s.m_pHigh cDim) (rd p.m_pCoords cDim)) })
        self)

/-- `void Region::getCombinedRegion(Region& out, const Region& in) const` for `out`
another object than `in` and the receiver: the outcome and the state of `out` after the
call. -/
def getCombinedRegion (self out in_ : Region) : Except Exn Unit × Region :=
  if self.m_dimension ≠ in_.m_dimension then (.error .IllegalArgumentException, out)
  else combineRegion (operator_assign out self) in_

/-- The first loop of `Region::getIntersectingRegion` (lines 448-451): whether some axis
is disjoint. -/
def getIntersectingRegion.disjoint (self r : Region) : List Nat → Bool
  | [] => false
  | cDim :: rest =>
    if rd self.m_pLow cDim > rd r.m_pHigh cDim ∨ rd self.m_pHigh cDim < rd r.m_pLow cDim then true
    else getIntersectingRegion.disjoint self r rest

/-- `Region Region::getIntersectingRegion(const Region& r) const`; the local `ret` is
returned without a call of the copy constructor. -/
def getIntersectingRegion (self r : Region) : Except Exn Region :=
  if self.m_dimension ≠ r.m_dimension then .error .IllegalArgumentException
  else
    let ret := Region.default.makeInfinite self.m_dimension
    if getIntersectingRegion.disjoint self r (List.range self.m_dimension) then .ok ret
    else
      .ok ((List.range self.m_dimension).foldl
        (fun ret cDim =>
          { ret with
            m_pLow := ret.m_pLow.set cDim (max (rd self.m_pLow cDim) (rd r.m_pLow cDim))
            m_pHigh := ret.m_pHigh.set cDim (min (rd self.m_pHigh cDim) (rd r.m_pHigh cDim)) })
        ret)

end Region

/-! ## Serialization -/

/-- A byte of a buffer.  The object representation of a double is not interpreted: the
eight bytes that hold the double `x` are kept as `dbl x 0`, ..., `dbl x 7`, which is what
`memcpy` moves and what reading a double back needs. -/
inductive Byte where
  | int (b : Nat)
  | dbl (x : ℚ) (k : Nat)
  | indeterminate
  deriving DecidableEq, Repr

/-- The bytes of a `uint32_t` in the byte order of a little-endian host. -/
def uint32Bytes (n : Nat) : List Byte :=
  [.int (n % 256), .int (n / 256 % 256), .int (n / 65536 % 256), .int (n / 16777216 % 256)]

/-- The value `memcpy(&dimension, ptr, sizeof(uint32_t))` leaves in `dimension`; there is
none when `ptr` does not point to four integer bytes. -/
def readUint32 : List Byte → Option Nat
  | .int b0 :: .int b1 :: .int b2 :: .int b3 :: _ =>
    some (b0 + 256 * b1 + 65536 * b2 + 16777216 * b3)
  | _ => none

/-- The eight bytes of the object representation of a double. -/
def doubleBytes (x : ℚ) : List Byte := (List.range 8).map (Byte.dbl x)

/-- The `n * sizeof(double)` bytes `memcpy` reads from the array `p`. -/
def doublesBytes (p : List ℚ) (n : Nat) : List Byte := (p.take n).flatMap doubleBytes

/-- The double held by the eight bytes at `ptr`; there is none when they are not the eight
bytes of one double. -/
def readDouble : List Byte → Option ℚ
  | .dbl x k :: rest => if (Byte.dbl x k :: rest).take 8 = doubleBytes x then some x else none
  | _ => none

/-- The `n` doubles held by the `n * sizeof(double)` bytes at `ptr`. -/
def readDoubles (ptr : List Byte) : Nat → Option (List ℚ)
  | 0 => some []
  | n + 1 =>
    match readDouble ptr, readDoubles (ptr.drop 8) n with
    | some x, some xs => some (x :: xs)
    | _, _ => none

/-- The effect of `memcpy(buf + off, src, src.length)` on the allocation `buf`; a copy that
runs past the end of the allocation has no defined effect. -/
def memcpyBytes (buf : List Byte) (off : Nat) (src : List Byte) : Option (List Byte) :=
  if off + src.length ≤ buf.length then
    some (buf.take off ++ src ++ buf.drop (off + src.length))
  else none

namespace Region

/-- `uint32_t Region::getByteArraySize()`: `sizeof(uint32_t) + 2 * m_dimension *
sizeof(double)`, where `2 * m_dimension` is a 32-bit product and the sum is returned as a
`uint32_t`. -/
def getByteArraySize (self : Region) : Nat :=
  (4 + (2 * self.m_dimension % 2 ^ 32) * 8) % 2 ^ 32

/-- `void Region::storeToByteArray(byte** data, uint32_t& len)`: the buffer `*data` and
`len`; there is none when a `memcpy` runs past the `len` bytes allocated. -/
def storeToByteArray (self : Region) : Option (List Byte × Nat) :=
  let len := self.getByteArraySize
  match memcpyBytes (List.replicate len Byte.indeterminate) 0 (uint32Bytes self.m_dimension) with
  | none => none
  | some data1 =>
    match memcpyBytes data1 4 (doublesBytes self.m_pLow self.m_dimension) with
    | none => none
    | some data2 =>
      match memcpyBytes data2 (4 + self.m_dimension * 8)
          (doublesBytes self.m_pHigh self.m_dimension) with
      | none => none
      | some data3 => some (data3, len)

/-- `void Region::loadFromByteArray(const byte* ptr)`: the state of the receiver after the
call; there is none when the bytes at `ptr` are not a dimension followed by that many
doubles twice. -/
def loadFromByteArray (self : Region) (ptr : List Byte) : Option Region :=
  match readUint32 ptr with
  | none => none
  | some dimension =>
    let s := self.makeDimension dimension
    match readDoubles (ptr.drop 4) s.m_dimension,
        readDoubles ((ptr.drop 4).drop (s.m_dimension * 8)) s.m_dimension with
    | some low, some high =>
      some { s with
        m_pLow := memcpyDoubles s.m_pLow low s.m_dimension
        m_pHigh := memcpyDoubles s.m_pHigh high s.m_dimension }
    | _, _ => none

end Region

/-! ## Construction, edges and the edge cache -/

namespace Region

/-- The state `Region::Region(uint32_t d)` leaves: `initialize(d)` allocates both arrays. -/
def ofDimension (d : Nat) : Region := ⟨d, newDoubles d, newDoubles d⟩

/-- The loop of `Region::initialize(const double*, const double*, uint32_t)` that is compiled
when `NDEBUG` is not defined (lines 74-86): whether it throws. -/
def initialize_.throws (pLow pHigh : List ℚ) : List Nat → Bool
  | [] => false
  | cDim :: rest =>
    if rd pLow cDim > rd pHigh cDim ∧ ¬ (rd pLow cDim = DBL_MAX ∨ rd pHigh cDim = -DBL_MAX) then
      true
    else initialize_.throws pLow pHigh rest

/-- `void Region::initialize(const double* pLow, const double* pHigh, uint32_t dimension)`
(the name is a keyword of Lean, hence the underscore); `NDEBUG` tells whether the macro of
that name is defined in the build. -/
def initialize_ (NDEBUG : Bool) (pLow pHigh : List ℚ) (dimension : Nat) : Except Exn Region :=
  if NDEBUG = false ∧ initialize_.throws pLow pHigh (List.range dimension) = true then
    .error .IllegalArgumentException
  else
    .ok { m_dimension := dimension
          m_pLow := memcpyDoubles (newDoubles dimension) pLow dimension
          m_pHigh := memcpyDoubles (newDoubles dimension) pHigh dimension }

/-- `void Region::getEdge(int edgeId, Region& edge) const`: the outcome and the state of
`edge` after the call; the four assignments are in the order of the source. -/
def getEdge (self : Region) (edgeId : Int) (edge : Region) : Except Exn Unit × Region :=
  if self.m_dimension ≠ 2 then (.error .NotSupportedException, edge)
  else if edgeId = 0 then
    (.ok (),
      { edge with
        m_pLow := (edge.m_pLow.set 1 (rd self.m_pLow 1)).set 0 (rd self.m_pLow 0)
        m_pHigh := (edge.m_pHigh.set 1 (rd self.m_pLow 1)).set 0 (rd self.m_pHigh 0) })
  else if edgeId = 1 then
    (.ok (),
      { edge with
        m_pLow := (edge.m_pLow.set 1 (rd self.m_pLow 1)).set 0 (rd self.m_pHigh 0)
        m_pHigh := (edge.m_pHigh.set 1 (rd self.m_pHigh 1)).set 0 (rd self.m_pHigh 0) })
  else if edgeId = 2 then
    (.ok (),
      { edge with
        m_pLow := (edge.m_pLow.set 1 (rd self.m_pHigh 1)).set 0 (rd self.m_pLow 0)
        m_pHigh := (edge.m_pHigh.set 1 (rd self.m_pHigh 1)).set 0 (rd self.m_pHigh 0) })
  else
    (.ok (),
      { edge with
        m_pLow := (edge.m_pLow.set 1 (rd self.m_pLow 1)).set 0 (rd self.m_pLow 0)
        m_pHigh := (edge.m_pHigh.set 1 (rd self.m_pHigh 1)).set 0 (rd self.m_pLow 0) })

/-- The loop `for (int i = 0; i < 4; i++) { Region* pR = new Region(2); getEdge(i, *pR);
m_vec_pEdge.push_back(pR); }` of the copy constructor (lines 60-64) and of `getMBR`
(lines 270-274), run over the remaining values of `i`: the outcome and the vector. -/
def pushEdges (self : Region) : List Int → List Region → Except Exn Unit × List Region
  | [], vec => (.ok (), vec)
  | i :: rest, vec =>
    match getEdge self i (ofDimension 2) with
    | (.error e, _) => (.error e, vec)
    | (.ok _, pR) => pushEdges self rest (vec ++ [pR])

end Region

/-- An object of `class Region`: the three coordinate members and `m_vec_pEdge`.  A pointee
of `m_vec_pEdge` is made by `new Region(2)`, its own `m_vec_pEdge` stays empty, and it is
held by its coordinate members. -/
structure RegionObject extends Region where
  m_vec_pEdge : List Region
  deriving DecidableEq, Repr

namespace RegionObject

/-- `Region::Region(const Region& r)`, the copy constructor: the new object, whose
`m_vec_pEdge` starts empty. -/
def copy (NDEBUG : Bool) (r : Region) : Except Exn RegionObject :=
  match Region.initialize_ NDEBUG r.m_pLow r.m_pHigh r.m_dimension with
  | .error e => .error e
  | .ok this =>
    if ([] : List Region).isEmpty then
      match Region.pushEdges this [0, 1, 2, 3] [] with
      | (.error e, _) => .error e
      | (.ok _, vec) => .ok { toRegion := this, m_vec_pEdge := vec }
    else .ok { toRegion := this, m_vec_pEdge := [] }

/-- `Region* Region::clone()`: `new Region(*this)`. -/
def clone (NDEBUG : Bool) (self : RegionObject) : Except Exn RegionObject :=
  copy NDEBUG self.toRegion

/-- `void Region::getMBR(Region& out) const` for `out` another object than the receiver,
of which only the coordinate members are read: the outcome and the state of `out` after
the call. -/
def getMBR (self : Region) (out : RegionObject) : Except Exn Unit × RegionObject :=
  let out1 : RegionObject := { out with toRegion := Region.operator_assign out.toRegion self }
  let res := Region.pushEdges out1.toRegion [0, 1, 2, 3] []
  (res.1, { out1 with m_vec_pEdge := res.2 })

/-- `Region::combineRegion` on an object: it writes `m_pLow` and `m_pHigh` and leaves
`m_vec_pEdge` as it is. -/
def combineRegion (self : RegionObject) (r : Region) : Except Exn Unit × RegionObject :=
  ((Region.combineRegion self.toRegion r).1,
    { self with toRegion := (Region.combineRegion self.toRegion r).2 })

/-- `Region::combinePoint` on an object; `m_vec_pEdge` is left as it is. -/
def combinePoint (self : RegionObject) (p : Point) : Except Exn Unit × RegionObject :=
  ((Region.combinePoint self.toRegion p).1,
    { self with toRegion := (Region.combinePoint self.toRegion p).2 })

/-- `Region::makeInfinite` on an object; `m_vec_pEdge` is left as it is. -/
def makeInfinite (self : RegionObject) (dimension : Nat) : RegionObject :=
  { self with toRegion := Region.makeInfinite self.toRegion dimension }

/-- `Region::operator=` on an object; `m_vec_pEdge` is left as it is. -/
def operator_assign (self : RegionObject) (r : Region) : RegionObject :=
  { self with toRegion := Region.operator_assign self.toRegion r }

end RegionObject

/-! ## Points and shapes -/

/-- Modelled from the spec: `Point::Point(const double* pCoords, uint32_t dimension)`,
declared outside Region.cc: the point of the first `dimension` doubles at `pCoords`; there
is none when `pCoords` holds fewer. -/
def Point.ofCoords (pCoords : List ℚ) (dimension : Nat) : Option Point :=
  if dimension ≤ pCoords.length then some ⟨dimension, pCoords.take dimension⟩ else none

/-- Modelled from the spec: `Point::getDistanceSq(const Point& p)`, declared outside
Region.cc: the squared distance between two points, the squared differences of their
coordinates summed over the axes; a dimension mismatch fails as in every binary operation. -/
def Point.getDistanceSq (self p : Point) : Except Exn ℚ :=
  if self.m_dimension ≠ p.m_dimension then .error .IllegalArgumentException
  else
    .ok ((List.range self.m_dimension).foldl
      (fun ret i => ret + (self.getCoordinate i - p.getCoordinate i) ^ 2) 0)

/-- The object behind a `const IShape&`: a `Region`, a `Point`, or an object of another
class, of which the model keeps the region its `getMBR` writes. -/
inductive IShape where
  | region (r : Region)
  | point (p : Point)
  | other (mbr : Region)
  deriving DecidableEq, Repr

/-- The virtual call `s->getMBR(out)`: `Region::getMBR` for a region; for a point, modelled
from the spec, the degenerate region at the point; for another class the region kept. -/
def IShape.getMBR (s : IShape) (out : RegionObject) : Except Exn Unit × RegionObject :=
  match s with
  | .region r => RegionObject.getMBR r out
  | .point p =>
    (.ok (),
      { out with
        toRegion := Region.operator_assign out.toRegion ⟨p.m_dimension, p.m_pCoords, p.m_pCoords⟩ })
  | .other mbr => (.ok (), { out with toRegion := Region.operator_assign out.toRegion mbr })

/-! ## The Hausdorff-distance bounds -/

namespace Region

/-- `double Region::getMinimumDistanceSq(const IShape& s) const`. -/
def getMinimumDistanceSq_Shape (self : Region) (s : IShape) : Except Exn ℚ :=
  match s with
  | .region pr => getMinimumDistanceSq self pr
  | .point ppt => getMinimumDistanceSq_Point self ppt
  | .other _ => .error .IllegalStateException

/-- `double Region::getMHausDistLB(const IShape& s) const`. -/
noncomputable def getMHausDistLB (self : Region) (s : IShape) : Except Exn ℝ :=
  if self.m_dimension ≠ 2 then .error .NotSupportedException
  else
    match getMinimumDistanceSq_Shape self s with
    | .error e => .error e
    | .ok d => .ok (Real.sqrt (d : ℝ))

/-- The loop of the batch `getMHausDistLB` (lines 690-693). -/
def getMHausDistLB_batch.loop (self : Region) : List Region → ℚ → Except Exn ℚ
  | [], min => .ok min
  | c :: rest, min =>
    match getMinimumDistanceSq self c with
    | .error e => .error e
    | .ok d => getMHausDistLB_batch.loop self rest (Min.min min d)

/-- `double Region::getMHausDistLB(const std::vector<const Region*> vec_pMBR, double max)
const`. -/
noncomputable def getMHausDistLB_batch (self : Region) (vec_pMBR : List Region) (_max : ℚ) :
    Except Exn ℝ :=
  if self.m_dimension ≠ 2 then .error .NotSupportedException
  else
    match getMHausDistLB_batch.loop self vec_pMBR DBL_MAX with
    | .error e => .error e
    | .ok min => .ok (Real.sqrt (min : ℝ))

/-- The inner loop of `getHausDistUB(const Region&)` (lines 726-729) from edge `j` on:
`this->getEdge(j, edge2)` and the running `min`; the state of `edge2` and `min` after it. -/
def getHausDistUB.inner (self edge1 : Region) : List Int → Region → ℚ → Except Exn (Region × ℚ)
  | [], edge2, min => .ok (edge2, min)
  | j :: rest, edge2, min =>
    match getEdge self j edge2 with
    | (.error e, _) => .error e
    | (.ok _, edge2) =>
      match getMaximumDistanceSq edge1 edge2 with
      | .error e => .error e
      | .ok d => getHausDistUB.inner self edge1 rest edge2 (Min.min min d)

/-- The outer loop of `getHausDistUB(const Region&)` (lines 723-731) from edge `i` on. -/
def getHausDistUB.outer (self : Region) : List Int → Region → Region → ℚ → Except Exn ℚ
  | [], _, _, max => .ok max
  | i :: rest, edge1, edge2, max =>
    match getEdge self i edge1 with
    | (.error e, _) => .error e
    | (.ok _, edge1) =>
      match getHausDistUB.inner self edge1 [0, 1, 2, 3] edge2 DBL_MAX with
      | .error e => .error e
      | .ok (edge2, min) => getHausDistUB.outer self rest edge1 edge2 (Max.max max min)

/-- `double Region::getHausDistUB(const Region& s) const`.  The source reads no member of
`s`: both edges are taken from the receiver. -/
noncomputable def getHausDistUB (self : Region) (_s : Region) : Except Exn ℝ :=
  match getHausDistUB.outer self [0, 1, 2, 3] (ofDimension 2) (ofDimension 2) DBL_MIN with
  | .error e => .error e
  | .ok max => .ok (Real.sqrt (max : ℝ))

/-- `double Region::getHausDistUB(const Point& s) const`; there is none when `m_pLow` or
`m_pHigh` holds fewer than the two doubles the corner points are built from. -/
noncomputable def getHausDistUB_Point (self : Region) (s : Point) : Option (Except Exn ℝ) :=
  match Point.ofCoords self.m_pLow 2, Point.ofCoords self.m_pHigh 2 with
  | some sw, some ne =>
    let se : Point := ⟨2, [rd self.m_pHigh 0, rd self.m_pLow 1]⟩
    let nw : Point := ⟨2, [rd self.m_pLow 0, rd self.m_pHigh 1]⟩
    match s.getDistanceSq sw with
    | .error e => some (.error e)
    | .ok dSq =>
      match s.getDistanceSq ne with
      | .error e => some (.error e)
      | .ok d2 =>
        match s.getDistanceSq se with
        | .error e => some (.error e)
        | .ok d3 =>
          match s.getDistanceSq nw with
          | .error e => some (.error e)
          | .ok d4 => some (.ok (Real.sqrt ((max (max (max dSq d2) d3) d4 : ℚ) : ℝ)))
  | _, _ => none

/-- `double Region::getHausDistUB(const IShape& s) const`. -/
noncomputable def getHausDistUB_Shape (self : Region) (s : IShape) : Option (Except Exn ℝ) :=
  match s with
  | .region pr => some (getHausDistUB self pr)
  | .point ppt => getHausDistUB_Point self ppt
  | .other _ => some (.error .IllegalStateException)

/-- The innermost loop of `getHausDistUB(const std::vector<const IShape*>)` (lines 777-780)
from edge `k` of `r` on: the state of `edge2` and `min` after it. -/
def getHausDistUB_batch.kLoop (r edge1 : Region) :
    List Int → Region → ℚ → Except Exn (Region × ℚ)
  | [], edge2, min => .ok (edge2, min)
  | k :: rest, edge2, min =>
    match getEdge r k edge2 with
    | (.error e, _) => .error e
    | (.ok _, edge2) =>
      match getMaximumDistanceSq edge1 edge2 with
      | .error e => .error e
      | .ok d => getHausDistUB_batch.kLoop r edge1 rest edge2 (Min.min min d)

/-- The loop over the shapes of `getHausDistUB(const std::vector<const IShape*>)`
(lines 775-781): the state of `r`, `edge2` and `min` after it. -/
def getHausDistUB_batch.jLoop (edge1 : Region) :
    List IShape → RegionObject → Region → ℚ → Except Exn (RegionObject × Region × ℚ)
  | [], r, edge2, min => .ok (r, edge2, min)
  | s :: rest, r, edge2, min =>
    match s.getMBR r with
    | (.error e, _) => .error e
    | (.ok _, r) =>
      match getHausDistUB_batch.kLoop r.toRegion edge1 [0, 1, 2, 3] edge2 min with
      | .error e => .error e
      | .ok (edge2, min) => getHausDistUB_batch.jLoop edge1 rest r edge2 min

/-- The outer loop of `getHausDistUB(const std::vector<const IShape*>)` (lines 772-784)
from edge `i` on. -/
def getHausDistUB_batch.iLoop (self : Region) (vec_pShape : List IShape) :
    List Int → Region → Region → RegionObject → ℚ → Except Exn ℚ
  | [], _, _, _, max => .ok max
  | i :: rest, edge1, edge2, r, max =>
    match getEdge self i edge1 with
    | (.error e, _) => .error e
    | (.ok _, edge1) =>
      match getHausDistUB_batch.jLoop edge1 vec_pShape r edge2 DBL_MAX with
      | .error e => .error e
      | .ok (r, edge2, min) =>
        getHausDistUB_batch.iLoop self vec_pShape rest edge1 edge2 r (Max.max max min)

/-- `double Region::getHausDistUB(const std::vector<const IShape*> vec_pShape) const`. -/
noncomputable def getHausDistUB_batch (self : Region) (vec_pShape : List IShape) :
    Except Exn ℝ :=
  if self.m_dimension ≠ 2 then .error .NotSupportedException
  else
    match getHausDistUB_batch.iLoop self vec_pShape [0, 1, 2, 3] (ofDimension 2) (ofDimension 2)
        ⟨ofDimension 2, []⟩ DBL_MIN with
    | .error e => .error e
    | .ok max => .ok (Real.sqrt (max : ℝ))

end Region

namespace RegionObject

/-- The loop of `getHausDistLB(Region r)` (lines 622-627) from edge `i` on; there is none
when `m_vec_pEdge[i]` is read past the end of the vector. -/
def getHausDistLB.loop (m_vec_pEdge : List Region) (r : Region) :
    List Nat → ℚ → Option (Except Exn ℚ)
  | [], max => some (.ok max)
  | i :: rest, max =>
    match m_vec_pEdge[i]? with
    | none => none
    | some edge =>
      match Region.getMinimumDistanceSq edge r with
      | .error e => some (.error e)
      | .ok d => getHausDistLB.loop m_vec_pEdge r rest (Max.max max d)

/-- `double Region::getHausDistLB(Region r) const`.  The parameter is passed by value, so
the copy constructor runs on the argument before the body. -/
noncomputable def getHausDistLB (NDEBUG : Bool) (self : RegionObject) (r : Region) :
    Option (Except Exn ℝ) :=
  match copy NDEBUG r with
  | .error e => some (.error e)
  | .ok r =>
    if self.m_dimension ≠ 2 then some (.error .NotSupportedException)
    else
      match getHausDistLB.loop self.m_vec_pEdge r.toRegion [0, 1, 2, 3] DBL_MIN with
      | none => none
      | some (.error e) => some (.error e)
      | some (.ok max) => some (.ok (Real.sqrt (max : ℝ)))

/-- The inner loop of the batch `getHausDistLB` (lines 649-654) for the edge
`m_vec_pEdge.at(i)`, which is `none` when `at` throws: the outcome, with the `min` it ends
with, and `counter`. -/
def getHausDistLB_batch.inner (edge : Option Region) (max : ℚ) :
    List Region → ℚ → Int → Except Exn ℚ × Int
  | [], min, counter => (.ok min, counter)
  | c :: rest, min, counter =>
    match edge with
    | none => (.error .out_of_range, counter)
    | some e =>
      match Region.getMinimumDistanceSq e c with
      | .error ex => (.error ex, counter)
      | .ok d =>
        if Min.min min d < max then (.ok (Min.min min d), counter + 1)
        else getHausDistLB_batch.inner edge max rest (Min.min min d) (counter + 1)

/-- The outer loop of the batch `getHausDistLB` (lines 645-657) from edge `i` on. -/
def getHausDistLB_batch.outer (self : RegionObject) (vec_pMBR : List Region) :
    List Nat → ℚ → Int → Except Exn ℚ × Int
  | [], max, counter => (.ok max, counter)
  | i :: rest, max, counter =>
    match getHausDistLB_batch.inner self.m_vec_pEdge[i]? max vec_pMBR DBL_MAX counter with
    | (.error e, counter) => (.error e, counter)
    | (.ok min, counter) =>
      getHausDistLB_batch.outer self vec_pMBR rest (Max.max max min) counter

/-- `double Region::getHausDistLB(const std::vector<const Region*> vec_pMBR, double max,
int& counter) const`: the outcome and `counter` after the call.  The increment of the
`int` is taken without overflow. -/
noncomputable def getHausDistLB_batch (self : RegionObject) (vec_pMBR : List Region) (max : ℚ)
    (counter : Int) : Except Exn ℝ × Int :=
  match getHausDistLB_batch.outer self vec_pMBR [0, 1, 2, 3] (max * max) counter with
  | (.error e, counter) => (.error e, counter)
  | (.ok max, counter) => (.ok (Real.sqrt (max : ℝ)), counter)

end RegionObject

/-! ## The bound of the specification, for comparison -/

namespace Region

/-- Edge `i` of `A` as `getEdge` writes it into a fresh `Region(2)`. -/
def edgeOf (A : Region) (i : Int) : Region := (getEdge A i (ofDimension 2)).2

/-- The words of the specification for the upper bound against a region: for the edge `e`
of the receiver, the minimum over the four edges `f` of the other region `S` of
`e.getMaximumDistanceSq(f)`. -/
def getHausDistUB_spec.minOver (e S : Region) : Except Exn ℚ :=
  match getMaximumDistanceSq e (edgeOf S 0), getMaximumDistanceSq e (edgeOf S 1),
      getMaximumDistanceSq e (edgeOf S 2), getMaximumDistanceSq e (edgeOf S 3) with
  | .ok d0, .ok d1, .ok d2, .ok d3 => .ok (min (min (min d0 d1) d2) d3)
  | _, _, _, _ => .error .IllegalArgumentException

/-- The words of the specification for the upper bound against a region: the maximum over
the four edges `e` of `A` of the minimum over the four edges `f` of `S` of
`e.getMaximumDistanceSq(f)`; the bound is its square root. -/
def getHausDistUB_spec.maxMin (A S : Region) : Except Exn ℚ :=
  match getHausDistUB_spec.minOver (edgeOf A 0) S, getHausDistUB_spec.minOver (edgeOf A 1) S,
      getHausDistUB_spec.minOver (edgeOf A 2) S, getHausDistUB_spec.minOver (edgeOf A 3) S with
  | .ok m0, .ok m1, .ok m2, .ok m3 => .ok (max (max (max m0 m1) m2) m3)
  | _, _, _, _ => .error .IllegalArgumentException

end Region

/-- The inner loop of the batch `getHausDistLB` without its `break`: the scan of all the
candidates for the edge `e`, from the running minimum `min`. -/
def RegionObject.getHausDistLB_noBreak.inner (e : Region) : List Region → ℚ → Except Exn ℚ
  | [], min => .ok min
  | c :: rest, min =>
    match Region.getMinimumDistanceSq e c with
    | .error x => .error x
    | .ok d => RegionObject.getHausDistLB_noBreak.inner e rest (Min.min min d)

/-- The words of the specification for `counter`: `n` is the number of edge-candidate
comparisons the scan of the candidates `C` for the edge `e` performs, when it starts from
the running minimum `min` and exits early once the running minimum drops below `max`.  No
running minimum after fewer than `n` candidates (and at least one) is below `max`, and `n`
is the length of `C` unless the running minimum after `n` candidates is below `max`. -/
def RegionObject.IsComparisonCount_spec (e : Region) (max min : ℚ) (C : List Region)
    (n : Nat) : Prop :=
  n ≤ C.length ∧
  (∀ (j : Nat) (v : ℚ), 1 ≤ j → j < n →
    RegionObject.getHausDistLB_noBreak.inner e (C.take j) min = .ok v → ¬ v < max) ∧
  (n = C.length ∨
    1 ≤ n ∧ ∃ v : ℚ, RegionObject.getHausDistLB_noBreak.inner e (C.take n) min = .ok v ∧ v < max)

/-! ## Lemmas -/

theorem rd_set (l : List ℚ) (c i : Nat) (v : ℚ) :
    rd (l.set c v) i = if i = c ∧ c < l.length then v else rd l i := by
  unfold rd
  simp only [List.getD_eq_getElem?_getD, List.getElem?_set]
  by_cases h : c = i
  · subst h
    by_cases h2 : c < l.length
    · simp [h2]
    · simp [h2, List.getElem?_eq_none (not_lt.mp h2)]
  · have : ¬ i = c := fun e => h e.symm
    simp [h, this]

theorem rd_ext (a b : List ℚ) (hl : a.length = b.length)
    (h : ∀ i, i < a.length → rd a i = rd b i) : a = b := by
  apply List.ext_getElem hl
  intro i h1 h2
  have := h i h1
  simpa [rd, List.getD_eq_getElem?_getD, List.getElem?_eq_getElem h1,
    List.getElem?_eq_getElem h2] using this

theorem doubleBytes_length (x : ℚ) : (doubleBytes x).length = 8 := by
  simp [doubleBytes]

theorem flatMap_doubleBytes_length (p : List ℚ) : (p.flatMap doubleBytes).length = p.length * 8 := by
  induction p with
  | nil => rfl
  | cons x xs ih =>
    rw [List.flatMap_cons, List.length_append, ih, doubleBytes_length, List.length_cons]
    ring

theorem doublesBytes_length (p : List ℚ) (n : Nat) (h : p.length = n) :
    (doublesBytes p n).length = n * 8 := by
  unfold doublesBytes
  rw [flatMap_doubleBytes_length, List.length_take, h, min_self]

theorem readDouble_doubleBytes (x : ℚ) (rest : List Byte) :
    readDouble (doubleBytes x ++ rest) = some x := by
  have h : doubleBytes x ++ rest =
      Byte.dbl x 0 :: ([.dbl x 1, .dbl x 2, .dbl x 3, .dbl x 4, .dbl x 5, .dbl x 6, .dbl x 7]
        ++ rest) := rfl
  rw [h, readDouble, ← h, List.take_left' (doubleBytes_length x), if_pos rfl]

theorem readDoubles_flatMap (p : List ℚ) (rest : List Byte) :
    readDoubles (p.flatMap doubleBytes ++ rest) p.length = some p := by
  induction p with
  | nil => rfl
  | cons x xs ih =>
    rw [List.flatMap_cons, List.length_cons, readDoubles, List.append_assoc,
      readDouble_doubleBytes, List.drop_left' (doubleBytes_length x), ih]

theorem drop_flatMap_doubleBytes (p : List ℚ) (rest : List Byte) :
    (p.flatMap doubleBytes ++ rest).drop (p.length * 8) = rest :=
  List.drop_left' (flatMap_doubleBytes_length p)

theorem readUint32_uint32Bytes (n : Nat) (rest : List Byte) (h : n < 2 ^ 32) :
    readUint32 (uint32Bytes n ++ rest) = some n := by
  simp only [uint32Bytes, List.cons_append, List.nil_append, readUint32, Option.some.injEq]
  omega

theorem memcpyBytes_mid (pre mid post src : List Byte) (h : mid.length = src.length) :
    memcpyBytes (pre ++ mid ++ post) pre.length src = some (pre ++ src ++ post) := by
  unfold memcpyBytes
  rw [if_pos (by simp only [List.length_append]; omega)]
  congr 2
  · rw [List.append_assoc, List.take_left' rfl]
  · rw [← h, ← List.length_append, List.drop_left' rfl]

namespace Region

/-- A loop that rewrites cell `c` of both arrays from its old value, for `c` from 0 to
`n - 1`, keeps the dimension and the lengths and changes exactly the cells below `n`. -/
theorem foldl_set (f g : Nat → ℚ → ℚ) (s : Region) (n : Nat) :
    ((List.range n).foldl
        (fun (s : Region) c =>
          { s with m_pLow := s.m_pLow.set c (f c (rd s.m_pLow c))
                   m_pHigh := s.m_pHigh.set c (g c (rd s.m_pHigh c)) }) s).m_dimension
        = s.m_dimension ∧
    ((List.range n).foldl
        (fun (s : Region) c =>
          { s with m_pLow := s.m_pLow.set c (f c (rd s.m_pLow c))
                   m_pHigh := s.m_pHigh.set c (g c (rd s.m_pHigh c)) }) s).m_pLow.length
        = s.m_pLow.length ∧
    ((List.range n).foldl
        (fun (s : Region) c =>
          { s with m_pLow := s.m_pLow.set c (f c (rd s.m_pLow c))
                   m_pHigh := s.m_pHigh.set c (g c (rd s.m_pHigh c)) }) s).m_pHigh.length
        = s.m_pHigh.length ∧
    (∀ i, rd ((List.range n).foldl
        (fun (s : Region) c =>
          { s with m_pLow := s.m_pLow.set c (f c (rd s.m_pLow c))
                   m_pHigh := s.m_pHigh.set c (g c (rd s.m_pHigh c)) }) s).m_pLow i
        = if i < n ∧ i < s.m_pLow.length then f i (rd s.m_pLow i) else rd s.m_pLow i) ∧
    (∀ i, rd ((List.range n).foldl
        (fun (s : Region) c =>
          { s with m_pLow := s.m_pLow.set c (f c (rd s.m_pLow c))
                   m_pHigh := s.m_pHigh.set c (g c (rd s.m_pHigh c)) }) s).m_pHigh i
        = if i < n ∧ i < s.m_pHigh.length then g i (rd s.m_pHigh i) else rd s.m_pHigh i) := by
  induction n with
  | zero => simp
  | succ n ih =>
    obtain ⟨h1, h2, h3, h4, h5⟩ := ih
    rw [List.range_succ, List.foldl_append]
    simp only [List.foldl_cons, List.foldl_nil, List.length_set]
    refine ⟨h1, h2, h3, fun i => ?_, fun i => ?_⟩
    · rw [rd_set, h2, h4, h4]
      by_cases hi : i = n
      · subst hi
        by_cases hl : i < s.m_pLow.length
        · simp [hl]
        · simp [hl]
      · have : i < n + 1 ↔ i < n := by omega
        simp [hi, this]
    · rw [rd_set, h3, h5, h5]
      by_cases hi : i = n
      · subst hi
        by_cases hl : i < s.m_pHigh.length
        · simp [hl]
        · simp [hl]
      · have : i < n + 1 ↔ i < n := by omega
        simp [hi, this]

theorem operator_eq_loop_self (R : Region) (l : List Nat) : operator_eq.loop R R l = true := by
  have he : (0 : ℚ) < DBL_EPSILON := by norm_num [DBL_EPSILON]
  induction l with
  | nil => rfl
  | cons i rest ih =>
    rw [operator_eq.loop, if_neg, ih]
    intro h
    rcases h with h | h | h | h <;> linarith

theorem makeDimension_spec (R : Region) (d : Nat) (hR : R.Allocated) :
    (R.makeDimension d).m_dimension = d ∧ (R.makeDimension d).Allocated := by
  unfold makeDimension
  split_ifs with h
  · exact ⟨rfl, by simp [newDoubles], by simp [newDoubles]⟩
  · exact ⟨not_not.mp h, hR⟩

theorem memcpyDoubles_full (dst src : List ℚ) (n : Nat) (hd : dst.length = n)
    (hs : src.length = n) : memcpyDoubles dst src n = src := by
  unfold memcpyDoubles
  rw [List.take_of_length_le (le_of_eq hs), List.drop_of_length_le (le_of_eq hd),
    List.append_nil]

/-- The buffer `storeToByteArray` builds when the 32-bit length does not wrap. -/
theorem storeToByteArray_spec (R : Region) (hR : R.Allocated)
    (hD : 4 + 16 * R.m_dimension < 2 ^ 32) :
    storeToByteArray R = some (uint32Bytes R.m_dimension ++ doublesBytes R.m_pLow R.m_dimension
      ++ doublesBytes R.m_pHigh R.m_dimension, 4 + 16 * R.m_dimension) := by
  have hlen : R.getByteArraySize = 4 + R.m_dimension * 8 + R.m_dimension * 8 := by
    unfold getByteArraySize
    norm_num at hD ⊢
    omega
  have hl := doublesBytes_length R.m_pLow R.m_dimension hR.1
  have hh := doublesBytes_length R.m_pHigh R.m_dimension hR.2
  have e1 : List.replicate R.getByteArraySize Byte.indeterminate
      = [] ++ List.replicate 4 Byte.indeterminate
        ++ (List.replicate (R.m_dimension * 8) Byte.indeterminate
          ++ List.replicate (R.m_dimension * 8) Byte.indeterminate) := by
    rw [hlen, List.replicate_add, List.replicate_add, List.nil_append, List.append_assoc]
  have s1 := memcpyBytes_mid [] (List.replicate 4 Byte.indeterminate)
    (List.replicate (R.m_dimension * 8) Byte.indeterminate
      ++ List.replicate (R.m_dimension * 8) Byte.indeterminate)
    (uint32Bytes R.m_dimension) rfl
  have s2 := memcpyBytes_mid (uint32Bytes R.m_dimension)
    (List.replicate (R.m_dimension * 8) Byte.indeterminate)
    (List.replicate (R.m_dimension * 8) Byte.indeterminate)
    (doublesBytes R.m_pLow R.m_dimension) (by rw [hl, List.length_replicate])
  have s3 := memcpyBytes_mid (uint32Bytes R.m_dimension ++ doublesBytes R.m_pLow R.m_dimension)
    (List.replicate (R.m_dimension * 8) Byte.indeterminate) []
    (doublesBytes R.m_pHigh R.m_dimension) (by rw [hh, List.length_replicate])
  rw [List.length_append, hl] at s3
  simp only [List.length_nil, List.append_nil] at s1 s3
  rw [← List.append_assoc] at s1
  have hu : (uint32Bytes R.m_dimension).length = 4 := rfl
  rw [hu] at s2 s3
  unfold storeToByteArray
  simp only
  rw [e1, ← List.append_assoc, s1]
  simp only [List.nil_append]
  rw [← List.append_assoc, s2]
  simp only
  rw [s3, hlen]
  have e : 4 + R.m_dimension * 8 + R.m_dimension * 8 = 4 + 16 * R.m_dimension := by omega
  rw [e]

theorem memcpyBytes_length (buf src d : List Byte) (off : Nat)
    (h : memcpyBytes buf off src = some d) : d.length = buf.length := by
  unfold memcpyBytes at h
  split_ifs at h with hc
  cases h
  simp only [List.length_append, List.length_take, List.length_drop]
  omega

/-- When the 32-bit length is less than what the dimension and the lows need, a copy of
`storeToByteArray` runs past the allocation. -/
theorem storeToByteArray_none (R : Region) (hR : R.Allocated)
    (h : R.getByteArraySize < 4 + R.m_dimension * 8) : storeToByteArray R = none := by
  unfold storeToByteArray
  simp only
  cases h1 : memcpyBytes (List.replicate R.getByteArraySize Byte.indeterminate) 0
      (uint32Bytes R.m_dimension) with
  | none => rfl
  | some data1 =>
    have hl1 := memcpyBytes_length _ _ _ _ h1
    rw [List.length_replicate] at hl1
    have h2 : memcpyBytes data1 4 (doublesBytes R.m_pLow R.m_dimension) = none := by
      unfold memcpyBytes
      rw [if_neg]
      rw [doublesBytes_length _ _ hR.1, hl1]
      omega
    simp only [h2]

/-- What `loadFromByteArray` reads from the layout [dimension][lows][highs]. -/
theorem loadFromByteArray_spec (R recv : Region) (hR : R.Allocated) (hrecv : recv.Allocated)
    (hD : R.m_dimension < 2 ^ 32) :
    loadFromByteArray recv (uint32Bytes R.m_dimension ++ doublesBytes R.m_pLow R.m_dimension
      ++ doublesBytes R.m_pHigh R.m_dimension) = some R := by
  obtain ⟨hd, hal⟩ := makeDimension_spec recv R.m_dimension hrecv
  have hu : (uint32Bytes R.m_dimension).length = 4 := rfl
  have hlow : doublesBytes R.m_pLow R.m_dimension = R.m_pLow.flatMap doubleBytes := by
    unfold doublesBytes; rw [List.take_of_length_le (le_of_eq hR.1)]
  have hhigh : doublesBytes R.m_pHigh R.m_dimension = R.m_pHigh.flatMap doubleBytes := by
    unfold doublesBytes; rw [List.take_of_length_le (le_of_eq hR.2)]
  unfold loadFromByteArray
  rw [List.append_assoc, readUint32_uint32Bytes _ _ hD]
  simp only [hd]
  rw [List.drop_left' hu, hlow, hhigh]
  have r1 := readDoubles_flatMap R.m_pLow (R.m_pHigh.flatMap doubleBytes)
  have r2 := readDoubles_flatMap R.m_pHigh []
  have d1 := drop_flatMap_doubleBytes R.m_pLow (R.m_pHigh.flatMap doubleBytes)
  rw [hR.1] at r1 d1
  rw [hR.2, List.append_nil] at r2
  rw [r1, d1, r2]
  simp only
  rw [memcpyDoubles_full _ _ _ (hal.1.trans hd) hR.1,
    memcpyDoubles_full _ _ _ (hal.2.trans hd) hR.2]

/-- The state `combineRegion` leaves in an allocated receiver, cell by cell. -/
theorem combineRegion_spec (A B : Region) (hdim : A.m_dimension = B.m_dimension)
    (hA : A.Allocated) :
    (combineRegion A B).1 = .ok () ∧
    (combineRegion A B).2.m_dimension = A.m_dimension ∧
    (combineRegion A B).2.m_pLow.length = A.m_dimension ∧
    (combineRegion A B).2.m_pHigh.length = A.m_dimension ∧
    (∀ i, i < A.m_dimension →
      rd (combineRegion A B).2.m_pLow i = min (rd A.m_pLow i) (rd B.m_pLow i)) ∧
    (∀ i, i < A.m_dimension →
      rd (combineRegion A B).2.m_pHigh i = max (rd A.m_pHigh i) (rd B.m_pHigh i)) := by
  obtain ⟨h1, h2, h3, h4, h5⟩ :=
    foldl_set (fun c x => min x (rd B.m_pLow c)) (fun c x => max x (rd B.m_pHigh c)) A
      A.m_dimension
  simp only [combineRegion, hdim, ne_eq, not_true_eq_false, if_false]
  rw [← hdim]
  refine ⟨trivial, h1, h2.trans hA.1, h3.trans hA.2, fun i hi => ?_, fun i hi => ?_⟩
  · rw [h4, if_pos ⟨hi, hA.1.symm ▸ hi⟩]
  · rw [h5, if_pos ⟨hi, hA.2.symm ▸ hi⟩]

/-- The state `makeInfinite` leaves in an allocated receiver. -/
theorem makeInfinite_spec (R : Region) (d : Nat) (hR : R.Allocated) :
    (R.makeInfinite d).m_dimension = d ∧ (R.makeInfinite d).Allocated ∧
    ∀ i, i < d → rd (R.makeInfinite d).m_pLow i = DBL_MAX ∧
      rd (R.makeInfinite d).m_pHigh i = -DBL_MAX := by
  have hd : (R.makeDimension d).m_dimension = d := by
    unfold makeDimension; split_ifs with h
    · rfl
    · exact not_not.mp h
  have hal : (R.makeDimension d).Allocated := by
    unfold makeDimension; split_ifs with h
    · exact ⟨by simp [newDoubles], by simp [newDoubles]⟩
    · exact hR
  obtain ⟨h1, h2, h3, h4, h5⟩ :=
    foldl_set (fun _ _ => DBL_MAX) (fun _ _ => -DBL_MAX) (R.makeDimension d)
      (R.makeDimension d).m_dimension
  unfold makeInfinite
  refine ⟨h1.trans hd, ⟨?_, ?_⟩, fun i hi => ⟨?_, ?_⟩⟩
  · rw [h2, h1]; exact hal.1
  · rw [h3, h1]; exact hal.2
  · rw [h4, if_pos ⟨hd.symm ▸ hi, by rw [hal.1, hd]; exact hi⟩]
  · rw [h5, if_pos ⟨hd.symm ▸ hi, by rw [hal.2, hd]; exact hi⟩]

theorem foldl_add_congr (f g : Nat → ℚ) (l : List Nat) (a : ℚ) (h : ∀ i ∈ l, f i = g i) :
    l.foldl (fun ret i => ret + f i * f i) a = l.foldl (fun ret i => ret + g i * g i) a := by
  induction l generalizing a with
  | nil => rfl
  | cons i rest ih =>
    simp only [List.foldl_cons]
    rw [h i (List.mem_cons_self _ _)]
    exact ih _ (fun j hj => h j (List.mem_cons_of_mem _ hj))

theorem foldl_add_sq_nonneg (f : Nat → ℚ) (l : List Nat) (a : ℚ) (ha : 0 ≤ a) :
    0 ≤ l.foldl (fun ret i => ret + f i * f i) a := by
  induction l generalizing a with
  | nil => exact ha
  | cons i rest ih =>
    simp only [List.foldl_cons]
    exact ih _ (add_nonneg ha (mul_self_nonneg _))

theorem foldl_add_sq_zero (f : Nat → ℚ) (l : List Nat) (h : ∀ i ∈ l, f i = 0) :
    l.foldl (fun ret i => ret + f i * f i) 0 = 0 := by
  induction l with
  | nil => rfl
  | cons i rest ih =>
    simp only [List.foldl_cons]
    rw [h i (List.mem_cons_self _ _)]
    simp only [mul_zero, add_zero]
    exact ih (fun j hj => h j (List.mem_cons_of_mem _ hj))

/-- On an axis where both operands have `low <= high` the gap is the same either way. -/
theorem gapRegion_comm (A B : Region) (i : Nat) (hA : rd A.m_pLow i ≤ rd A.m_pHigh i)
    (hB : rd B.m_pLow i ≤ rd B.m_pHigh i) : gapRegion A B i = gapRegion B A i := by
  unfold gapRegion
  by_cases h1 : rd B.m_pHigh i < rd A.m_pLow i
  · have h2 : ¬ rd A.m_pHigh i < rd B.m_pLow i := by
      intro h; linarith
    rw [if_pos h1, if_neg h2, if_pos h1, abs_sub_comm]
  · by_cases h2 : rd A.m_pHigh i < rd B.m_pLow i
    · rw [if_neg h1, if_pos h2, if_pos h2, abs_sub_comm]
    · rw [if_neg h1, if_neg h2, if_neg h2, if_neg h1]

/-- An axis on which the two ranges meet contributes no gap. -/
theorem gapRegion_eq_zero (A B : Region) (i : Nat) (h1 : rd A.m_pLow i ≤ rd B.m_pHigh i)
    (h2 : rd B.m_pLow i ≤ rd A.m_pHigh i) : gapRegion A B i = 0 := by
  unfold gapRegion
  rw [if_neg (not_lt.mpr h1), if_neg (not_lt.mpr h2)]

theorem getIntersectingArea_loop_of_intersects (self r : Region) (l : List Nat) (ret : ℚ)
    (h : intersectsRegion.loop self r l = true) :
    getIntersectingArea.loop self r l ret =
      ret * (l.map (fun i => min (rd self.m_pHigh i) (rd r.m_pHigh i)
        - max (rd self.m_pLow i) (rd r.m_pLow i))).prod := by
  induction l generalizing ret with
  | nil => simp [getIntersectingArea.loop]
  | cons i rest ih =>
    simp only [intersectsRegion.loop] at h
    split_ifs at h with hc
    simp only [getIntersectingArea.loop, if_neg hc, List.map_cons, List.prod_cons]
    rw [ih _ h, mul_assoc]

theorem getIntersectingArea_loop_of_not_intersects (self r : Region) (l : List Nat) (ret : ℚ)
    (h : intersectsRegion.loop self r l = false) :
    getIntersectingArea.loop self r l ret = 0 := by
  induction l generalizing ret with
  | nil => simp [intersectsRegion.loop] at h
  | cons i rest ih =>
    simp only [intersectsRegion.loop] at h
    split_ifs at h with hc
    · simp only [getIntersectingArea.loop, if_pos hc]
    · simp only [getIntersectingArea.loop, if_neg hc]
      exact ih _ h

theorem intersectsRegion_loop_eq_true (self r : Region) (l : List Nat) :
    intersectsRegion.loop self r l = true ↔
      ∀ i ∈ l, rd self.m_pLow i ≤ rd r.m_pHigh i ∧ rd r.m_pLow i ≤ rd self.m_pHigh i := by
  induction l with
  | nil => simp [intersectsRegion.loop]
  | cons i rest ih =>
    simp only [intersectsRegion.loop, List.mem_cons, forall_eq_or_imp]
    split_ifs with h
    · constructor
      · intro hf; exact absurd hf (by simp)
      · rintro ⟨⟨h1, h2⟩, -⟩
        rcases h with h | h
        · exact absurd h1 (not_le.mpr h)
        · exact absurd h2 (not_le.mpr h)
    · rw [ih]
      have h' := not_or.mp h
      exact ⟨fun hr => ⟨⟨not_lt.mp h'.1, not_lt.mp h'.2⟩, hr⟩, fun hr => hr.2⟩

theorem containsRegion_loop_eq_true (self r : Region) (l : List Nat) :
    containsRegion.loop self r l = true ↔
      ∀ i ∈ l, rd self.m_pLow i ≤ rd r.m_pLow i ∧ rd r.m_pHigh i ≤ rd self.m_pHigh i := by
  induction l with
  | nil => simp [containsRegion.loop]
  | cons i rest ih =>
    simp only [containsRegion.loop, List.mem_cons, forall_eq_or_imp]
    split_ifs with h
    · constructor
      · intro hf; exact absurd hf (by simp)
      · rintro ⟨⟨h1, h2⟩, -⟩
        rcases h with h | h
        · exact absurd h1 (not_le.mpr h)
        · exact absurd h2 (not_le.mpr h)
    · rw [ih]
      have h' := not_or.mp h
      exact ⟨fun hr => ⟨⟨not_lt.mp h'.1, not_lt.mp h'.2⟩, hr⟩, fun hr => hr.2⟩

end Region

/-! ## Claims -/

namespace Region

/-- C1: for all regions A and B of equal dimension, `intersectsRegion` is symmetric:
A.intersectsRegion(B) and B.intersectsRegion(A) return the same boolean. -/
theorem intersectsRegion_symm (A B : Region) (hdim : A.m_dimension = B.m_dimension) :
    intersectsRegion A B = intersectsRegion B A ∧
      ∃ b : Bool, intersectsRegion A B = .ok b := by
  have key : intersectsRegion.loop A B (List.range A.m_dimension)
      = intersectsRegion.loop B A (List.range B.m_dimension) := by
    rw [Bool.eq_iff_iff, intersectsRegion_loop_eq_true, intersectsRegion_loop_eq_true, hdim]
    exact ⟨fun h i hi => ⟨(h i hi).2, (h i hi).1⟩, fun h i hi => ⟨(h i hi).2, (h i hi).1⟩⟩
  simp only [intersectsRegion, hdim, ne_eq, not_true_eq_false, if_false]
  rw [← hdim, key, hdim]
  exact ⟨rfl, _, rfl⟩

/-- C1, the scenario of the specification: A = low(0,0) high(10,10) and
B = low(5,5) high(15,15) intersect, asked either way. -/
theorem intersectsRegion_symm_witness :
    intersectsRegion ⟨2, [0, 0], [10, 10]⟩ ⟨2, [5, 5], [15, 15]⟩ = .ok true ∧
    intersectsRegion ⟨2, [5, 5], [15, 15]⟩ ⟨2, [0, 0], [10, 10]⟩ = .ok true ∧
    intersectsRegion ⟨2, [0, 0], [10, 10]⟩ ⟨2, [5, 5], [15, 15]⟩
      = intersectsRegion ⟨2, [5, 5], [15, 15]⟩ ⟨2, [0, 0], [10, 10]⟩ :=
  ⟨by rfl, by rfl,
    (intersectsRegion_symm ⟨2, [0, 0], [10, 10]⟩ ⟨2, [5, 5], [15, 15]⟩ rfl).1⟩

/-- C2, as stated, fails: A = low(0) high(1) and B = low(DBL_MAX) high(-3), a pair
`initialize` accepts in every build because B's low is `DBL_MAX`, have
A.getMinimumDistance(B) = 3 while B.getMinimumDistance(A) is another value. -/
theorem getMinimumDistance_not_symm :
    (⟨1, [0], [1]⟩ : Region).m_dimension = (⟨1, [DBL_MAX], [-3]⟩ : Region).m_dimension ∧
    (⟨1, [0], [1]⟩ : Region).Allocated ∧ (⟨1, [DBL_MAX], [-3]⟩ : Region).Allocated ∧
    getMinimumDistance ⟨1, [0], [1]⟩ ⟨1, [DBL_MAX], [-3]⟩ = .ok 3 ∧
    getMinimumDistance ⟨1, [DBL_MAX], [-3]⟩ ⟨1, [0], [1]⟩
      ≠ getMinimumDistance ⟨1, [0], [1]⟩ ⟨1, [DBL_MAX], [-3]⟩ := by
  have h3 : Real.sqrt 9 = 3 := by
    rw [show (9 : ℝ) = 3 ^ 2 by norm_num]; exact Real.sqrt_sq (by norm_num)
  have hAB : getMinimumDistance ⟨1, [0], [1]⟩ ⟨1, [DBL_MAX], [-3]⟩ = .ok 3 := by
    norm_num [getMinimumDistance, gapRegion, rd, DBL_MAX, List.range, List.range.loop, h3]
  refine ⟨rfl, ⟨rfl, rfl⟩, ⟨rfl, rfl⟩, hAB, ?_⟩
  rw [hAB]
  have hx : (0 : ℝ) ≤ (2 ^ 53 - 1) * 2 ^ 971 - 1 := by norm_num
  have hs : Real.sqrt (((2 ^ 53 - 1) * 2 ^ 971 - 1) * ((2 ^ 53 - 1) * 2 ^ 971 - 1))
      = (2 ^ 53 - 1) * 2 ^ 971 - 1 := Real.sqrt_mul_self hx
  have hgap : gapRegion ⟨1, [DBL_MAX], [-3]⟩ ⟨1, [0], [1]⟩ 0 = (2 ^ 53 - 1) * 2 ^ 971 - 1 := by
    norm_num [gapRegion, rd, DBL_MAX]
  simp only [getMinimumDistance, ne_eq, not_true_eq_false, if_false, List.range, List.range.loop,
    List.foldl_cons, List.foldl_nil, hgap, zero_add]
  push_cast
  rw [hs]
  intro h
  have h' := Except.ok.inj h
  norm_num at h'

/-- C2 (amended): for all regions A and B of equal dimension that both have
low[i] <= high[i] on every axis, the region form of `getMinimumDistance` returns the same
distance either way. -/
theorem getMinimumDistance_symm (A B : Region) (hdim : A.m_dimension = B.m_dimension)
    (hA : A.LowLeHigh) (hB : B.LowLeHigh) :
    getMinimumDistance A B = getMinimumDistance B A ∧
      ∃ d : ℝ, getMinimumDistance A B = .ok d := by
  have key : (List.range A.m_dimension).foldl
        (fun ret i => ret + gapRegion A B i * gapRegion A B i) 0
      = (List.range B.m_dimension).foldl
        (fun ret i => ret + gapRegion B A i * gapRegion B A i) 0 := by
    rw [← hdim]
    apply foldl_add_congr
    intro i hi
    have hi' : i < A.m_dimension := List.mem_range.mp hi
    exact gapRegion_comm A B i (hA i hi') (hB i (hdim ▸ hi'))
  simp only [getMinimumDistance, hdim, ne_eq, not_true_eq_false, if_false]
  rw [← hdim, key, hdim]
  exact ⟨rfl, _, rfl⟩

/-- C2, the scenario of the specification: A = low(0,0) high(1,1) and
B = low(5,0) high(6,1) are at distance 4.0 either way. -/
theorem getMinimumDistance_symm_witness :
    getMinimumDistance ⟨2, [0, 0], [1, 1]⟩ ⟨2, [5, 0], [6, 1]⟩ = .ok 4 ∧
    getMinimumDistance ⟨2, [5, 0], [6, 1]⟩ ⟨2, [0, 0], [1, 1]⟩ = .ok 4 ∧
    getMinimumDistance ⟨2, [0, 0], [1, 1]⟩ ⟨2, [5, 0], [6, 1]⟩
      = getMinimumDistance ⟨2, [5, 0], [6, 1]⟩ ⟨2, [0, 0], [1, 1]⟩ := by
  have h4 : Real.sqrt 16 = 4 := by
    rw [show (16 : ℝ) = 4 ^ 2 by norm_num]; exact Real.sqrt_sq (by norm_num)
  refine ⟨?_, ?_, (getMinimumDistance_symm ⟨2, [0, 0], [1, 1]⟩ ⟨2, [5, 0], [6, 1]⟩ rfl
    (by decide) (by decide)).1⟩
  · norm_num [getMinimumDistance, gapRegion, rd, List.range, List.range.loop, h4]
  · norm_num [getMinimumDistance, gapRegion, rd, List.range, List.range.loop, h4]

/-- C3, as stated, fails: A = low(0) high(10) contains B = low(DBL_MAX) high(5), neither
being the infinite sentinel, and A does not intersect B. -/
theorem containsRegion_not_intersectsRegion :
    (⟨1, [0], [10]⟩ : Region).m_dimension = (⟨1, [DBL_MAX], [5]⟩ : Region).m_dimension ∧
    (⟨1, [0], [10]⟩ : Region).Allocated ∧ (⟨1, [DBL_MAX], [5]⟩ : Region).Allocated ∧
    ¬ (⟨1, [0], [10]⟩ : Region).IsInfinite ∧ ¬ (⟨1, [DBL_MAX], [5]⟩ : Region).IsInfinite ∧
    containsRegion ⟨1, [0], [10]⟩ ⟨1, [DBL_MAX], [5]⟩ = .ok true ∧
    intersectsRegion ⟨1, [0], [10]⟩ ⟨1, [DBL_MAX], [5]⟩ = .ok false := by
  refine ⟨rfl, ⟨rfl, rfl⟩, ⟨rfl, rfl⟩, ?_, ?_, ?_, ?_⟩
  · intro h
    have := (h 0 (by decide)).1
    norm_num [rd, DBL_MAX] at this
  · intro h
    have := (h 0 (by decide)).2
    norm_num [rd, DBL_MAX] at this
  · norm_num [containsRegion, containsRegion.loop, rd, DBL_MAX, List.range, List.range.loop]
  · norm_num [intersectsRegion, intersectsRegion.loop, rd, DBL_MAX, List.range,
      List.range.loop]

/-- C3 (amended): for all regions A and B of equal dimension where B has
low[i] <= high[i] on every axis, if A.containsRegion(B) is true then A.intersectsRegion(B)
is true. -/
theorem containsRegion_imp_intersectsRegion (A B : Region)
    (hdim : A.m_dimension = B.m_dimension) (hB : B.LowLeHigh)
    (h : containsRegion A B = .ok true) : intersectsRegion A B = .ok true := by
  simp only [containsRegion, hdim, ne_eq, not_true_eq_false, if_false, Except.ok.injEq] at h
  simp only [intersectsRegion, hdim, ne_eq, not_true_eq_false, if_false, Except.ok.injEq]
  rw [← hdim] at h ⊢
  rw [containsRegion_loop_eq_true] at h
  rw [intersectsRegion_loop_eq_true]
  intro i hi
  have hi' : i < B.m_dimension := hdim ▸ List.mem_range.mp hi
  exact ⟨(h i hi).1.trans (hB i hi'), (hB i hi').trans (h i hi).2⟩

/-- C3 at A = low(0,0) high(10,10) and B = low(2,3) high(4,5). -/
theorem containsRegion_imp_intersectsRegion_witness :
    (⟨2, [2, 3], [4, 5]⟩ : Region).LowLeHigh ∧
    containsRegion ⟨2, [0, 0], [10, 10]⟩ ⟨2, [2, 3], [4, 5]⟩ = .ok true ∧
    intersectsRegion ⟨2, [0, 0], [10, 10]⟩ ⟨2, [2, 3], [4, 5]⟩ = .ok true :=
  ⟨by decide, by rfl,
    containsRegion_imp_intersectsRegion ⟨2, [0, 0], [10, 10]⟩ ⟨2, [2, 3], [4, 5]⟩ rfl
      (by decide) (by rfl)⟩

/-- C4: `combineRegion` with a copy of the receiver's own coordinates succeeds and leaves
the receiver with the same dimension, the same low[i] and the same high[i] for every i. -/
theorem combineRegion_self (A : Region) :
    (combineRegion A A).1 = .ok () ∧
    (combineRegion A A).2.m_dimension = A.m_dimension ∧
    (∀ i, rd (combineRegion A A).2.m_pLow i = rd A.m_pLow i) ∧
    (∀ i, rd (combineRegion A A).2.m_pHigh i = rd A.m_pHigh i) ∧
    (combineRegion A A).2 = A := by
  obtain ⟨h1, h2, h3, h4, h5⟩ :=
    foldl_set (fun c x => min x (rd A.m_pLow c)) (fun c x => max x (rd A.m_pHigh c)) A
      A.m_dimension
  have hlow : ∀ i, rd (combineRegion A A).2.m_pLow i = rd A.m_pLow i := by
    intro i
    simp only [combineRegion, ne_eq, not_true_eq_false, if_false]
    rw [h4]; split_ifs <;> simp
  have hhigh : ∀ i, rd (combineRegion A A).2.m_pHigh i = rd A.m_pHigh i := by
    intro i
    simp only [combineRegion, ne_eq, not_true_eq_false, if_false]
    rw [h5]; split_ifs <;> simp
  have hd : (combineRegion A A).2.m_dimension = A.m_dimension := by
    simp only [combineRegion, ne_eq, not_true_eq_false, if_false]; exact h1
  have hl1 : (combineRegion A A).2.m_pLow.length = A.m_pLow.length := by
    simp only [combineRegion, ne_eq, not_true_eq_false, if_false]; exact h2
  have hl2 : (combineRegion A A).2.m_pHigh.length = A.m_pHigh.length := by
    simp only [combineRegion, ne_eq, not_true_eq_false, if_false]; exact h3
  refine ⟨by simp [combineRegion], hd, hlow, hhigh, ?_⟩
  have e1 := rd_ext _ _ hl1 (fun i _ => hlow i)
  have e2 := rd_ext _ _ hl2 (fun i _ => hhigh i)
  cases hc : (combineRegion A A).2 with
  | mk d lo hi =>
    rw [hc] at hd e1 e2
    cases A
    simp only at hd e1 e2
    rw [hd, e1, e2]

/-- C5: for all regions A and B of equal dimension, the region C that A.combineRegion(B)
leaves in the receiver satisfies C.containsRegion(A before the call) and
C.containsRegion(B). -/
theorem combineRegion_contains (A B : Region) (hdim : A.m_dimension = B.m_dimension)
    (hA : A.Allocated) :
    (combineRegion A B).1 = .ok () ∧
    containsRegion (combineRegion A B).2 A = .ok true ∧
    containsRegion (combineRegion A B).2 B = .ok true := by
  obtain ⟨h0, h1, -, -, h4, h5⟩ := combineRegion_spec A B hdim hA
  refine ⟨h0, ?_, ?_⟩
  · simp only [containsRegion, h1, ne_eq, not_true_eq_false, if_false, Except.ok.injEq]
    rw [containsRegion_loop_eq_true]
    intro i hi
    have hi' := List.mem_range.mp hi
    rw [h4 i hi', h5 i hi']
    exact ⟨min_le_left _ _, le_max_left _ _⟩
  · simp only [containsRegion, h1, hdim, ne_eq, not_true_eq_false, if_false, Except.ok.injEq]
    rw [containsRegion_loop_eq_true]
    intro i hi
    have hi' : i < A.m_dimension := hdim ▸ List.mem_range.mp hi
    rw [h4 i hi', h5 i hi']
    exact ⟨min_le_right _ _, le_max_right _ _⟩

/-- C5 at A = low(0,0) high(10,10) and B = low(5,-2) high(15,3): the receiver becomes
low(0,-2) high(15,10). -/
theorem combineRegion_contains_witness :
    (combineRegion ⟨2, [0, 0], [10, 10]⟩ ⟨2, [5, -2], [15, 3]⟩).2 = ⟨2, [0, -2], [15, 10]⟩ ∧
    containsRegion (combineRegion ⟨2, [0, 0], [10, 10]⟩ ⟨2, [5, -2], [15, 3]⟩).2
      ⟨2, [0, 0], [10, 10]⟩ = .ok true ∧
    containsRegion (combineRegion ⟨2, [0, 0], [10, 10]⟩ ⟨2, [5, -2], [15, 3]⟩).2
      ⟨2, [5, -2], [15, 3]⟩ = .ok true :=
  ⟨by rfl,
    (combineRegion_contains ⟨2, [0, 0], [10, 10]⟩ ⟨2, [5, -2], [15, 3]⟩ rfl ⟨rfl, rfl⟩).2⟩

/-- C6: for all regions A and B of equal dimension, A.getMinimumDistance(B) returns a
distance d >= 0, the square root of a sum of squares that is itself >= 0, and d = 0
whenever A.intersectsRegion(B) is true. -/
theorem getMinimumDistance_nonneg (A B : Region) (hdim : A.m_dimension = B.m_dimension) :
    ∃ (d : ℝ) (q : ℚ), getMinimumDistance A B = .ok d ∧ getMinimumDistanceSq A B = .ok q ∧
      d = Real.sqrt q ∧ 0 ≤ q ∧ 0 ≤ d ∧ (intersectsRegion A B = .ok true → d = 0) := by
  refine ⟨Real.sqrt (((List.range A.m_dimension).foldl
      (fun ret i => ret + gapRegion A B i * gapRegion A B i) 0 : ℚ) : ℝ),
    (List.range A.m_dimension).foldl (fun ret i => ret + gapRegion A B i * gapRegion A B i) 0,
    by simp only [getMinimumDistance, hdim, ne_eq, not_true_eq_false, if_false],
    by simp only [getMinimumDistanceSq, hdim, ne_eq, not_true_eq_false, if_false], rfl,
    foldl_add_sq_nonneg _ _ _ le_rfl, Real.sqrt_nonneg _, ?_⟩
  intro h
  simp only [intersectsRegion, hdim, ne_eq, not_true_eq_false, if_false, Except.ok.injEq] at h
  rw [← hdim, intersectsRegion_loop_eq_true] at h
  rw [foldl_add_sq_zero _ _ (fun i hi => gapRegion_eq_zero A B i (h i hi).1 (h i hi).2)]
  simp

/-- C6, the scenario of the specification: A = low(0,0) high(10,10) and
B = low(5,5) high(15,15) intersect and are at distance 0.0. -/
theorem getMinimumDistance_nonneg_witness :
    intersectsRegion ⟨2, [0, 0], [10, 10]⟩ ⟨2, [5, 5], [15, 15]⟩ = .ok true ∧
    getMinimumDistance ⟨2, [0, 0], [10, 10]⟩ ⟨2, [5, 5], [15, 15]⟩ = .ok 0 := by
  obtain ⟨d, q, h1, -, -, -, -, h6⟩ :=
    getMinimumDistance_nonneg ⟨2, [0, 0], [10, 10]⟩ ⟨2, [5, 5], [15, 15]⟩ rfl
  have hi : intersectsRegion ⟨2, [0, 0], [10, 10]⟩ ⟨2, [5, 5], [15, 15]⟩ = .ok true := by rfl
  exact ⟨hi, by rw [h1, h6 hi]⟩

/-- C7: for all regions A and B of equal dimension D, A.getIntersectingArea(B) is 0 if
A.intersectsRegion(B) is false, and otherwise the product over i < D of
min(A.high[i], B.high[i]) - max(A.low[i], B.low[i]). -/
theorem getIntersectingArea_eq (A B : Region) (hdim : A.m_dimension = B.m_dimension) :
    (intersectsRegion A B = .ok false → getIntersectingArea A B = .ok 0) ∧
    (intersectsRegion A B = .ok true →
      getIntersectingArea A B = .ok (((List.range A.m_dimension).map
        (fun i => min (rd A.m_pHigh i) (rd B.m_pHigh i) - max (rd A.m_pLow i) (rd B.m_pLow i))).prod)) ∧
    (intersectsRegion A B = .ok false ∨ intersectsRegion A B = .ok true) := by
  simp only [intersectsRegion, getIntersectingArea, hdim, ne_eq, not_true_eq_false, if_false,
    Except.ok.injEq]
  rw [← hdim]
  refine ⟨fun h => getIntersectingArea_loop_of_not_intersects A B _ 1 h, fun h => ?_, ?_⟩
  · rw [getIntersectingArea_loop_of_intersects A B _ 1 h, one_mul]
  · cases intersectsRegion.loop A B (List.range A.m_dimension) <;> simp

/-- C7, the scenario of the specification: A = low(0,0) high(10,10) and
B = low(5,5) high(15,15) intersect and the intersecting area is 25.0; and
A = low(0,0) high(1,1), B = low(5,0) high(6,1) do not intersect and the area is 0. -/
theorem getIntersectingArea_eq_witness :
    getIntersectingArea ⟨2, [0, 0], [10, 10]⟩ ⟨2, [5, 5], [15, 15]⟩ = .ok 25 ∧
    getIntersectingArea ⟨2, [0, 0], [1, 1]⟩ ⟨2, [5, 0], [6, 1]⟩ = .ok 0 := by
  constructor
  · rw [(getIntersectingArea_eq ⟨2, [0, 0], [10, 10]⟩ ⟨2, [5, 5], [15, 15]⟩ rfl).2.1 (by rfl)]
    norm_num [rd, List.range, List.range.loop]
  · exact (getIntersectingArea_eq ⟨2, [0, 0], [1, 1]⟩ ⟨2, [5, 0], [6, 1]⟩ rfl).1 (by rfl)

/-- C8, as stated, fails: for the allocated region of dimension 2^28 the 32-bit length
`getByteArraySize` returns is 4, not 4 + 16 * 2^28, and the copies of `storeToByteArray`
run past the 4 bytes it allocates. -/
theorem storeToByteArray_length_wraps :
    (⟨2 ^ 28, newDoubles (2 ^ 28), newDoubles (2 ^ 28)⟩ : Region).Allocated ∧
    getByteArraySize ⟨2 ^ 28, newDoubles (2 ^ 28), newDoubles (2 ^ 28)⟩ = 4 ∧
    4 + 16 * (⟨2 ^ 28, newDoubles (2 ^ 28), newDoubles (2 ^ 28)⟩ : Region).m_dimension
      = 4294967300 ∧
    storeToByteArray ⟨2 ^ 28, newDoubles (2 ^ 28), newDoubles (2 ^ 28)⟩ = none := by
  have hal : (⟨2 ^ 28, newDoubles (2 ^ 28), newDoubles (2 ^ 28)⟩ : Region).Allocated :=
    ⟨List.length_replicate _ _, List.length_replicate _ _⟩
  have hsz : getByteArraySize ⟨2 ^ 28, newDoubles (2 ^ 28), newDoubles (2 ^ 28)⟩ = 4 := by
    simp only [getByteArraySize]; norm_num
  refine ⟨hal, hsz, by norm_num, storeToByteArray_none _ hal ?_⟩
  rw [hsz]; norm_num

/-- C8 (amended): for every allocated region R of dimension D with 4 + 16*D < 2^32,
`storeToByteArray` produces exactly 4 + 16*D bytes laid out as [dimension][D lows]
[D highs], and `loadFromByteArray` of those bytes into any allocated receiver leaves the
receiver with dimension D, low[i] = R.low[i] and high[i] = R.high[i] for every i, so that it
compares equal to R under `operator==`. -/
theorem store_load_roundtrip (R recv : Region) (hR : R.Allocated) (hrecv : recv.Allocated)
    (hD : 4 + 16 * R.m_dimension < 2 ^ 32) :
    ∃ (data : List Byte) (R' : Region),
      storeToByteArray R = some (data, 4 + 16 * R.m_dimension) ∧
      data.length = 4 + 16 * R.m_dimension ∧
      data = uint32Bytes R.m_dimension ++ doublesBytes R.m_pLow R.m_dimension
        ++ doublesBytes R.m_pHigh R.m_dimension ∧
      loadFromByteArray recv data = some R' ∧
      R'.m_dimension = R.m_dimension ∧
      (∀ i, rd R'.m_pLow i = rd R.m_pLow i) ∧ (∀ i, rd R'.m_pHigh i = rd R.m_pHigh i) ∧
      operator_eq R' R = .ok true := by
  refine ⟨_, R, storeToByteArray_spec R hR hD, ?_, rfl,
    loadFromByteArray_spec R recv hR hrecv (by omega), rfl, fun _ => rfl, fun _ => rfl, ?_⟩
  · rw [List.length_append, List.length_append, doublesBytes_length _ _ hR.1,
      doublesBytes_length _ _ hR.2]
    simp only [uint32Bytes, List.length_cons, List.length_nil]
    omega
  · simp only [operator_eq, ne_eq, not_true_eq_false, if_false, operator_eq_loop_self]

/-- C8 at R = low(1,2) high(3,4) stored and loaded into a receiver that held a
3-dimensional region: 36 bytes, and the receiver becomes R. -/
theorem store_load_roundtrip_witness :
    ∃ data : List Byte, storeToByteArray ⟨2, [1, 2], [3, 4]⟩ = some (data, 36) ∧
      data.length = 36 ∧
      loadFromByteArray ⟨3, [7, 7, 7], [8, 8, 8]⟩ data = some ⟨2, [1, 2], [3, 4]⟩ := by
  obtain ⟨data, R', h1, h2, h3, h4, -, -, -, -⟩ :=
    store_load_roundtrip ⟨2, [1, 2], [3, 4]⟩ ⟨3, [7, 7, 7], [8, 8, 8]⟩ ⟨rfl, rfl⟩ ⟨rfl, rfl⟩
      (by norm_num)
  refine ⟨data, h1, h2, ?_⟩
  rw [h3]
  exact loadFromByteArray_spec ⟨2, [1, 2], [3, 4]⟩ ⟨3, [7, 7, 7], [8, 8, 8]⟩ ⟨rfl, rfl⟩
    ⟨rfl, rfl⟩ (by norm_num)

/-- C9: for every dimension d, every allocated receiver R and every allocated region A of
dimension d whose coordinates all lie between -DBL_MAX and +DBL_MAX, `makeInfinite(d)` on
R followed by `combineRegion(A)` succeeds and leaves the receiver with dimension d and with
low[i] = A.low[i] and high[i] = A.high[i] for every i. -/
theorem makeInfinite_combineRegion (d : Nat) (R A : Region) (hR : R.Allocated)
    (hA : A.Allocated) (hd : A.m_dimension = d)
    (hlow : ∀ i, i < d → -DBL_MAX ≤ rd A.m_pLow i ∧ rd A.m_pLow i ≤ DBL_MAX)
    (hhigh : ∀ i, i < d → -DBL_MAX ≤ rd A.m_pHigh i ∧ rd A.m_pHigh i ≤ DBL_MAX) :
    (combineRegion (R.makeInfinite d) A).1 = .ok () ∧
    (combineRegion (R.makeInfinite d) A).2.m_dimension = d ∧
    (∀ i, i < d → rd (combineRegion (R.makeInfinite d) A).2.m_pLow i = rd A.m_pLow i) ∧
    (∀ i, i < d → rd (combineRegion (R.makeInfinite d) A).2.m_pHigh i = rd A.m_pHigh i) ∧
    (combineRegion (R.makeInfinite d) A).2 = A := by
  obtain ⟨m1, m2, m3⟩ := makeInfinite_spec R d hR
  obtain ⟨c0, c1, c2, c3, c4, c5⟩ := combineRegion_spec (R.makeInfinite d) A (m1.trans hd.symm) m2
  rw [m1] at c1 c2 c3 c4 c5
  have hl : ∀ i, i < d → rd (combineRegion (R.makeInfinite d) A).2.m_pLow i = rd A.m_pLow i := by
    intro i hi
    rw [c4 i hi, (m3 i hi).1]
    exact min_eq_right (hlow i hi).2
  have hh : ∀ i, i < d → rd (combineRegion (R.makeInfinite d) A).2.m_pHigh i = rd A.m_pHigh i := by
    intro i hi
    rw [c5 i hi, (m3 i hi).2]
    exact max_eq_right (hhigh i hi).1
  refine ⟨c0, c1, hl, hh, ?_⟩
  have e1 := rd_ext _ _ (c2.trans (hA.1.trans hd).symm) (fun i hi => hl i (c2 ▸ hi))
  have e2 := rd_ext _ _ (c3.trans (hA.2.trans hd).symm) (fun i hi => hh i (c3 ▸ hi))
  cases hc : (combineRegion (R.makeInfinite d) A).2 with
  | mk d' lo hi =>
    rw [hc] at c1 e1 e2
    cases A
    simp only at c1 e1 e2 hd
    rw [c1, e1, e2, hd]

/-- C9, the scenario of the specification: `makeInfinite(2)` on a receiver that held a
3-dimensional region, then `combineRegion(A)` with A = low(1,1) high(3,3), leaves A. -/
theorem makeInfinite_combineRegion_witness :
    (combineRegion (makeInfinite ⟨3, [7, 8, 9], [7, 8, 9]⟩ 2) ⟨2, [1, 1], [3, 3]⟩).2
      = ⟨2, [1, 1], [3, 3]⟩ :=
  (makeInfinite_combineRegion 2 ⟨3, [7, 8, 9], [7, 8, 9]⟩ ⟨2, [1, 1], [3, 3]⟩ ⟨rfl, rfl⟩
    ⟨rfl, rfl⟩ rfl
    (by intro i hi; interval_cases i <;> norm_num [rd, DBL_MAX])
    (by intro i hi; interval_cases i <;> norm_num [rd, DBL_MAX])).2.2.2.2

/-- C10: each of intersectsRegion, containsRegion, touchesRegion, containsPoint,
touchesPoint, getMinimumDistance, getMinimumDistanceSq, getMaximumDistanceSq,
getIntersectingRegion, getIntersectingArea, combineRegion, combinePoint and
getCombinedRegion fails with IllegalArgumentException (the InvalidArgument of the
specification) if and only if the receiver's dimension differs from the operand's; and
when combineRegion or combinePoint fails this way the receiver's dimension, low and high
are unchanged. -/
theorem dimension_mismatch (A B out : Region) (p : Point) :
    (intersectsRegion A B = .error .IllegalArgumentException ↔ A.m_dimension ≠ B.m_dimension) ∧
    (containsRegion A B = .error .IllegalArgumentException ↔ A.m_dimension ≠ B.m_dimension) ∧
    (touchesRegion A B = .error .IllegalArgumentException ↔ A.m_dimension ≠ B.m_dimension) ∧
    (containsPoint A p = .error .IllegalArgumentException ↔ A.m_dimension ≠ p.m_dimension) ∧
    (touchesPoint A p = .error .IllegalArgumentException ↔ A.m_dimension ≠ p.m_dimension) ∧
    (getMinimumDistance A B = .error .IllegalArgumentException
      ↔ A.m_dimension ≠ B.m_dimension) ∧
    (getMinimumDistance_Point A p = .error .IllegalArgumentException
      ↔ A.m_dimension ≠ p.m_dimension) ∧
    (getMinimumDistanceSq A B = .error .IllegalArgumentException
      ↔ A.m_dimension ≠ B.m_dimension) ∧
    (getMinimumDistanceSq_Point A p = .error .IllegalArgumentException
      ↔ A.m_dimension ≠ p.m_dimension) ∧
    (getMaximumDistanceSq A B = .error .IllegalArgumentException
      ↔ A.m_dimension ≠ B.m_dimension) ∧
    (getIntersectingRegion A B = .error .IllegalArgumentException
      ↔ A.m_dimension ≠ B.m_dimension) ∧
    (getIntersectingArea A B = .error .IllegalArgumentException
      ↔ A.m_dimension ≠ B.m_dimension) ∧
    ((combineRegion A B).1 = .error .IllegalArgumentException
      ↔ A.m_dimension ≠ B.m_dimension) ∧
    ((combinePoint A p).1 = .error .IllegalArgumentException
      ↔ A.m_dimension ≠ p.m_dimension) ∧
    ((getCombinedRegion A out B).1 = .error .IllegalArgumentException
      ↔ A.m_dimension ≠ B.m_dimension) ∧
    (A.m_dimension ≠ B.m_dimension → (combineRegion A B).2 = A) ∧
    (A.m_dimension ≠ p.m_dimension → (combinePoint A p).2 = A) := by
  refine ⟨?_, ?_, ?_, ?_, ?_, ?_, ?_, ?_, ?_, ?_, ?_, ?_, ?_, ?_, ?_, ?_, ?_⟩
  · unfold intersectsRegion; split_ifs with h <;> simp [h]
  · unfold containsRegion; split_ifs with h <;> simp [h]
  · unfold touchesRegion; split_ifs with h <;> simp [h]
  · unfold containsPoint; split_ifs with h <;> simp [h]
  · unfold touchesPoint; split_ifs with h <;> simp [h]
  · unfold getMinimumDistance; split_ifs with h <;> simp [h]
  · unfold getMinimumDistance_Point; split_ifs with h <;> simp [h]
  · unfold getMinimumDistanceSq; split_ifs with h <;> simp [h]
  · unfold getMinimumDistanceSq_Point; split_ifs with h <;> simp [h]
  · unfold getMaximumDistanceSq; split_ifs with h <;> simp [h]
  · unfold getIntersectingRegion; split_ifs with h <;> simp [h]
  · unfold getIntersectingArea; split_ifs with h <;> simp [h]
  · unfold combineRegion; split_ifs with h <;> simp [h]
  · unfold combinePoint; split_ifs with h <;> simp [h]
  · unfold getCombinedRegion; split_ifs with h
    · simp [h]
    · have hd : (operator_assign out A).m_dimension = B.m_dimension := by
        have h' : A.m_dimension = B.m_dimension := not_not.mp h
        simp only [operator_assign, makeDimension]
        split_ifs with h2
        · exact h'
        · exact (not_not.mp h2).trans h'
      simp [combineRegion, hd, h]
  · intro h; simp [combineRegion, h]
  · intro h; simp [combinePoint, h]

/-- C10 at a 2-dimensional receiver and 3-dimensional operands: every operation fails with
IllegalArgumentException and the receiver of combineRegion and combinePoint is unchanged. -/
theorem dimension_mismatch_witness :
    intersectsRegion ⟨2, [0, 0], [1, 1]⟩ ⟨3, [0, 0, 0], [1, 1, 1]⟩
      = .error .IllegalArgumentException ∧
    (combineRegion ⟨2, [0, 0], [1, 1]⟩ ⟨3, [0, 0, 0], [1, 1, 1]⟩).1
      = .error .IllegalArgumentException ∧
    (combineRegion ⟨2, [0, 0], [1, 1]⟩ ⟨3, [0, 0, 0], [1, 1, 1]⟩).2 = ⟨2, [0, 0], [1, 1]⟩ ∧
    (combinePoint ⟨2, [0, 0], [1, 1]⟩ ⟨3, [5, 5, 5]⟩).1 = .error .IllegalArgumentException ∧
    (combinePoint ⟨2, [0, 0], [1, 1]⟩ ⟨3, [5, 5, 5]⟩).2 = ⟨2, [0, 0], [1, 1]⟩ ∧
    (combineRegion ⟨2, [0, 0], [1, 1]⟩ ⟨2, [5, 5], [6, 6]⟩).1 = .ok () :=
  have h := dimension_mismatch ⟨2, [0, 0], [1, 1]⟩ ⟨3, [0, 0, 0], [1, 1, 1]⟩ Region.default
    ⟨3, [5, 5, 5]⟩
  ⟨h.1.mpr (by decide), h.2.2.2.2.2.2.2.2.2.2.2.2.1.mpr (by decide),
    h.2.2.2.2.2.2.2.2.2.2.2.2.2.2.2.1 (by decide),
    h.2.2.2.2.2.2.2.2.2.2.2.2.2.1.mpr (by decide),
    h.2.2.2.2.2.2.2.2.2.2.2.2.2.2.2.2 (by decide), by rfl⟩

/-! ## Lemmas for the distance and Hausdorff claims -/

theorem foldl_add_eq_sum (g : Nat → ℚ) (l : List Nat) (a : ℚ) :
    l.foldl (fun ret i => ret + g i) a = a + (l.map g).sum := by
  induction l generalizing a with
  | nil => simp
  | cons i rest ih =>
    simp only [List.foldl_cons, List.map_cons, List.sum_cons]
    rw [ih]; ring

theorem rd_map_range (f : Nat → ℚ) (n i : Nat) (h : i < n) :
    rd ((List.range n).map f) i = f i := by
  simp [rd, List.getD_eq_getElem?_getD, h]

theorem containsPoint_loop_eq_true (self : Region) (p : Point) (l : List Nat) :
    containsPoint.loop self p l = true ↔
      ∀ i ∈ l, rd self.m_pLow i ≤ p.getCoordinate i ∧ p.getCoordinate i ≤ rd self.m_pHigh i := by
  induction l with
  | nil => simp [containsPoint.loop]
  | cons i rest ih =>
    simp only [containsPoint.loop, List.mem_cons, forall_eq_or_imp]
    split_ifs with h
    · constructor
      · intro hf; exact absurd hf (by simp)
      · rintro ⟨⟨h1, h2⟩, -⟩
        rcases h with h | h
        · exact absurd h1 (not_le.mpr h)
        · exact absurd h2 (not_le.mpr h)
    · rw [ih]
      have h' := not_or.mp h
      exact ⟨fun hr => ⟨⟨not_lt.mp h'.1, not_lt.mp h'.2⟩, hr⟩, fun hr => hr.2⟩

/-- What `containsPoint` returning true says, axis by axis. -/
theorem containsPoint_eq_true (A : Region) (p : Point) (h : containsPoint A p = .ok true) :
    A.m_dimension = p.m_dimension ∧ ∀ i, i < A.m_dimension →
      rd A.m_pLow i ≤ p.getCoordinate i ∧ p.getCoordinate i ≤ rd A.m_pHigh i := by
  unfold containsPoint at h
  split_ifs at h with hd
  simp only [Except.ok.injEq] at h
  rw [containsPoint_loop_eq_true] at h
  exact ⟨not_not.mp hd, fun i hi => h i (List.mem_range.mpr hi)⟩

/-- The point of dimension `n` whose coordinate `i` is `f i` lies in `A` when every `f i`
lies in the range of axis `i`. -/
theorem containsPoint_map_range (A : Region) (f : Nat → ℚ)
    (h : ∀ i, i < A.m_dimension → rd A.m_pLow i ≤ f i ∧ f i ≤ rd A.m_pHigh i) :
    containsPoint A ⟨A.m_dimension, (List.range A.m_dimension).map f⟩ = .ok true := by
  simp only [containsPoint, ne_eq, not_true_eq_false, if_false, Except.ok.injEq]
  rw [containsPoint_loop_eq_true]
  intro i hi
  have hi' := List.mem_range.mp hi
  simp only [Point.getCoordinate]
  rw [rd_map_range f _ _ hi']
  exact h i hi'

/-- On one axis the gap is at most the distance of any two coordinates taken in the two
ranges. -/
theorem gapRegion_sq_le (A B : Region) (i : Nat) (p q : ℚ) (hp1 : rd A.m_pLow i ≤ p)
    (hp2 : p ≤ rd A.m_pHigh i) (hq1 : rd B.m_pLow i ≤ q) (hq2 : q ≤ rd B.m_pHigh i) :
    gapRegion A B i * gapRegion A B i ≤ (p - q) ^ 2 := by
  unfold gapRegion
  split_ifs with h1 h2
  · rw [abs_of_neg (by linarith)]
    nlinarith
  · rw [abs_of_pos (by linarith)]
    nlinarith
  · nlinarith [sq_nonneg (p - q)]

/-- The coordinate of the nearest point of `A` to `B` on axis `i`. -/
theorem gapRegion_attained (A B : Region) (i : Nat) (hA : rd A.m_pLow i ≤ rd A.m_pHigh i)
    (hB : rd B.m_pLow i ≤ rd B.m_pHigh i) :
    ∃ p q : ℚ, rd A.m_pLow i ≤ p ∧ p ≤ rd A.m_pHigh i ∧ rd B.m_pLow i ≤ q ∧ q ≤ rd B.m_pHigh i ∧
      gapRegion A B i * gapRegion A B i = (p - q) ^ 2 := by
  unfold gapRegion
  by_cases h1 : rd B.m_pHigh i < rd A.m_pLow i
  · refine ⟨rd A.m_pLow i, rd B.m_pHigh i, le_rfl, hA, hB, le_rfl, ?_⟩
    rw [if_pos h1, abs_mul_abs_self]; ring
  · by_cases h2 : rd A.m_pHigh i < rd B.m_pLow i
    · refine ⟨rd A.m_pHigh i, rd B.m_pLow i, hA, le_rfl, le_rfl, hB, ?_⟩
      rw [if_neg h1, if_pos h2, abs_mul_abs_self]; ring
    · refine ⟨max (rd A.m_pLow i) (rd B.m_pLow i), max (rd A.m_pLow i) (rd B.m_pLow i),
        le_max_left _ _, max_le hA (not_lt.mp h2), le_max_right _ _,
        max_le (not_lt.mp h1) hB, ?_⟩
      rw [if_neg h1, if_neg h2]; ring

/-- C16: for all regions A and B of equal dimension D with low[i] <= high[i] on every
axis, (1) A.getMinimumDistanceSq(B) is at most the sum over i of (p[i]-q[i])^2 for every
point p with A.containsPoint(p) and every point q with B.containsPoint(q), (2) some such
pair attains equality, and A.getMinimumDistance(B) is the square root of that value. -/
theorem getMinimumDistanceSq_is_min (A B : Region) (hdim : A.m_dimension = B.m_dimension)
    (hA : A.LowLeHigh) (hB : B.LowLeHigh) :
    ∃ m : ℚ, getMinimumDistanceSq A B = .ok m ∧
      getMinimumDistance A B = .ok (Real.sqrt (m : ℝ)) ∧
      (∀ p q : Point, containsPoint A p = .ok true → containsPoint B q = .ok true →
        m ≤ ((List.range A.m_dimension).map
          (fun i => (p.getCoordinate i - q.getCoordinate i) ^ 2)).sum) ∧
      (∃ p q : Point, containsPoint A p = .ok true ∧ containsPoint B q = .ok true ∧
        m = ((List.range A.m_dimension).map
          (fun i => (p.getCoordinate i - q.getCoordinate i) ^ 2)).sum) := by
  refine ⟨(List.range A.m_dimension).foldl
      (fun ret i => ret + gapRegion A B i * gapRegion A B i) 0,
    by simp only [getMinimumDistanceSq, hdim, ne_eq, not_true_eq_false, if_false],
    by simp only [getMinimumDistance, hdim, ne_eq, not_true_eq_false, if_false], ?_, ?_⟩
  · intro p q hp hq
    obtain ⟨-, hp'⟩ := containsPoint_eq_true A p hp
    obtain ⟨-, hq'⟩ := containsPoint_eq_true B q hq
    rw [foldl_add_eq_sum, zero_add]
    apply List.sum_le_sum
    intro i hi
    have hi' := List.mem_range.mp hi
    exact gapRegion_sq_le A B i _ _ (hp' i hi').1 (hp' i hi').2 (hq' i (hdim ▸ hi')).1
      (hq' i (hdim ▸ hi')).2
  · have hex : ∀ i, ∃ p q : ℚ, i < A.m_dimension →
        (rd A.m_pLow i ≤ p ∧ p ≤ rd A.m_pHigh i ∧ rd B.m_pLow i ≤ q ∧ q ≤ rd B.m_pHigh i ∧
          gapRegion A B i * gapRegion A B i = (p - q) ^ 2) := by
      intro i
      by_cases hi : i < A.m_dimension
      · obtain ⟨p, q, h⟩ := gapRegion_attained A B i (hA i hi) (hB i (hdim ▸ hi))
        exact ⟨p, q, fun _ => h⟩
      · exact ⟨0, 0, fun h => absurd h hi⟩
    choose pf qf hpq using hex
    refine ⟨⟨A.m_dimension, (List.range A.m_dimension).map pf⟩,
      ⟨B.m_dimension, (List.range B.m_dimension).map qf⟩,
      containsPoint_map_range A pf (fun i hi => ⟨(hpq i hi).1, (hpq i hi).2.1⟩),
      containsPoint_map_range B qf
        (fun i hi => ⟨(hpq i (hdim ▸ hi)).2.2.1, (hpq i (hdim ▸ hi)).2.2.2.1⟩), ?_⟩
    rw [foldl_add_eq_sum, zero_add]
    congr 1
    apply List.map_congr_left
    intro i hi
    have hi' := List.mem_range.mp hi
    simp only [Point.getCoordinate]
    rw [rd_map_range pf _ _ hi', rd_map_range qf _ _ (hdim ▸ hi')]
    exact (hpq i hi').2.2.2.2

/-- C16 at A = low(0,0) high(1,1) and B = low(4,5) high(6,6): the squared distance is
3^2 + 4^2 = 25, the distance is 5, and p = (1,1), q = (4,5) attain it. -/
theorem getMinimumDistanceSq_is_min_witness :
    getMinimumDistanceSq ⟨2, [0, 0], [1, 1]⟩ ⟨2, [4, 5], [6, 6]⟩ = .ok 25 ∧
    getMinimumDistance ⟨2, [0, 0], [1, 1]⟩ ⟨2, [4, 5], [6, 6]⟩ = .ok 5 ∧
    containsPoint ⟨2, [0, 0], [1, 1]⟩ ⟨2, [1, 1]⟩ = .ok true ∧
    containsPoint ⟨2, [4, 5], [6, 6]⟩ ⟨2, [4, 5]⟩ = .ok true ∧
    (25 : ℚ) ≤ ((List.range 2).map (fun i =>
      ((⟨2, [1, 1]⟩ : Point).getCoordinate i - (⟨2, [4, 5]⟩ : Point).getCoordinate i) ^ 2)).sum := by
  obtain ⟨m, h1, h2, h3, -⟩ := getMinimumDistanceSq_is_min ⟨2, [0, 0], [1, 1]⟩
    ⟨2, [4, 5], [6, 6]⟩ rfl (by decide) (by decide)
  have hm : getMinimumDistanceSq ⟨2, [0, 0], [1, 1]⟩ ⟨2, [4, 5], [6, 6]⟩ = .ok 25 := by
    norm_num [getMinimumDistanceSq, gapRegion, rd, List.range, List.range.loop]
  have hm' : m = 25 := by rw [hm] at h1; exact (Except.ok.inj h1).symm
  have h5 : Real.sqrt 25 = 5 := by
    rw [show (25 : ℝ) = 5 ^ 2 by norm_num]; exact Real.sqrt_sq (by norm_num)
  refine ⟨hm, ?_, by rfl, by rfl, ?_⟩
  · rw [h2, hm']; push_cast; rw [h5]
  · have := h3 ⟨2, [1, 1]⟩ ⟨2, [4, 5]⟩ (by rfl) (by rfl)
    rw [hm'] at this
    exact this

/-- On one axis the difference of any two coordinates taken in the two ranges is at most
`diff`. -/
theorem sq_le_diff_sq (A B : Region) (i : Nat) (p q : ℚ) (hp1 : rd A.m_pLow i ≤ p)
    (hp2 : p ≤ rd A.m_pHigh i) (hq1 : rd B.m_pLow i ≤ q) (hq2 : q ≤ rd B.m_pHigh i) :
    (p - q) ^ 2 ≤ getMaximumDistanceSq.diff A B i * getMaximumDistanceSq.diff A B i := by
  have h1 : |p - q| ≤ getMaximumDistanceSq.diff A B i := by
    unfold getMaximumDistanceSq.diff
    rw [abs_le]
    constructor
    · have : rd A.m_pLow i - rd B.m_pHigh i ≤ p - q := by linarith
      have h2 := neg_abs_le (rd A.m_pLow i - rd B.m_pHigh i)
      have h3 := le_max_left |rd A.m_pLow i - rd B.m_pHigh i| |rd A.m_pHigh i - rd B.m_pLow i|
      linarith
    · have : p - q ≤ rd A.m_pHigh i - rd B.m_pLow i := by linarith
      have h2 := le_abs_self (rd A.m_pHigh i - rd B.m_pLow i)
      have h3 := le_max_right |rd A.m_pLow i - rd B.m_pHigh i| |rd A.m_pHigh i - rd B.m_pLow i|
      linarith
  have h0 := abs_nonneg (p - q)
  calc (p - q) ^ 2 = |p - q| * |p - q| := by rw [abs_mul_abs_self]; ring
    _ ≤ _ := mul_le_mul h1 h1 h0 (h0.trans h1)

/-- On one axis `diff` is the difference of a bound of `A` and a bound of `B`. -/
theorem diff_attained (A B : Region) (i : Nat) (hA : rd A.m_pLow i ≤ rd A.m_pHigh i)
    (hB : rd B.m_pLow i ≤ rd B.m_pHigh i) :
    ∃ p q : ℚ, (p = rd A.m_pLow i ∨ p = rd A.m_pHigh i) ∧
      (q = rd B.m_pLow i ∨ q = rd B.m_pHigh i) ∧
      rd A.m_pLow i ≤ p ∧ p ≤ rd A.m_pHigh i ∧ rd B.m_pLow i ≤ q ∧ q ≤ rd B.m_pHigh i ∧
      getMaximumDistanceSq.diff A B i * getMaximumDistanceSq.diff A B i = (p - q) ^ 2 := by
  unfold getMaximumDistanceSq.diff
  by_cases h : |rd A.m_pLow i - rd B.m_pHigh i| ≤ |rd A.m_pHigh i - rd B.m_pLow i|
  · refine ⟨rd A.m_pHigh i, rd B.m_pLow i, Or.inr rfl, Or.inl rfl, hA, le_rfl, le_rfl, hB, ?_⟩
    rw [max_eq_right h, abs_mul_abs_self]; ring
  · refine ⟨rd A.m_pLow i, rd B.m_pHigh i, Or.inl rfl, Or.inr rfl, le_rfl, hA, hB, le_rfl, ?_⟩
    rw [max_eq_left (le_of_lt (not_le.mp h)), abs_mul_abs_self]; ring

/-- C17: for all regions A and B of equal dimension with low[i] <= high[i] on every axis,
the sum over i of (p[i]-q[i])^2 is at most A.getMaximumDistanceSq(B) for every point p with
A.containsPoint(p) and every point q with B.containsPoint(q), and a corner p of A and a
corner q of B attain equality. -/
theorem getMaximumDistanceSq_is_max (A B : Region) (hdim : A.m_dimension = B.m_dimension)
    (hA : A.LowLeHigh) (hB : B.LowLeHigh) :
    ∃ m : ℚ, getMaximumDistanceSq A B = .ok m ∧
      (∀ p q : Point, containsPoint A p = .ok true → containsPoint B q = .ok true →
        ((List.range A.m_dimension).map
          (fun i => (p.getCoordinate i - q.getCoordinate i) ^ 2)).sum ≤ m) ∧
      (∃ p q : Point, containsPoint A p = .ok true ∧ containsPoint B q = .ok true ∧
        (∀ i, i < A.m_dimension →
          (p.getCoordinate i = rd A.m_pLow i ∨ p.getCoordinate i = rd A.m_pHigh i) ∧
          (q.getCoordinate i = rd B.m_pLow i ∨ q.getCoordinate i = rd B.m_pHigh i)) ∧
        ((List.range A.m_dimension).map
          (fun i => (p.getCoordinate i - q.getCoordinate i) ^ 2)).sum = m) := by
  refine ⟨(List.range A.m_dimension).foldl (fun ret i =>
      ret + getMaximumDistanceSq.diff A B i * getMaximumDistanceSq.diff A B i) 0,
    by simp only [getMaximumDistanceSq, hdim, ne_eq, not_true_eq_false, if_false], ?_, ?_⟩
  · intro p q hp hq
    obtain ⟨-, hp'⟩ := containsPoint_eq_true A p hp
    obtain ⟨-, hq'⟩ := containsPoint_eq_true B q hq
    rw [foldl_add_eq_sum, zero_add]
    apply List.sum_le_sum
    intro i hi
    have hi' := List.mem_range.mp hi
    exact sq_le_diff_sq A B i _ _ (hp' i hi').1 (hp' i hi').2 (hq' i (hdim ▸ hi')).1
      (hq' i (hdim ▸ hi')).2
  · have hex : ∀ i, ∃ p q : ℚ, i < A.m_dimension →
        ((p = rd A.m_pLow i ∨ p = rd A.m_pHigh i) ∧ (q = rd B.m_pLow i ∨ q = rd B.m_pHigh i) ∧
          rd A.m_pLow i ≤ p ∧ p ≤ rd A.m_pHigh i ∧ rd B.m_pLow i ≤ q ∧ q ≤ rd B.m_pHigh i ∧
          getMaximumDistanceSq.diff A B i * getMaximumDistanceSq.diff A B i = (p - q) ^ 2) := by
      intro i
      by_cases hi : i < A.m_dimension
      · obtain ⟨p, q, h⟩ := diff_attained A B i (hA i hi) (hB i (hdim ▸ hi))
        exact ⟨p, q, fun _ => h⟩
      · exact ⟨0, 0, fun h => absurd h hi⟩
    choose pf qf hpq using hex
    refine ⟨⟨A.m_dimension, (List.range A.m_dimension).map pf⟩,
      ⟨B.m_dimension, (List.range B.m_dimension).map qf⟩,
      containsPoint_map_range A pf (fun i hi => ⟨(hpq i hi).2.2.1, (hpq i hi).2.2.2.1⟩),
      containsPoint_map_range B qf
        (fun i hi => ⟨(hpq i (hdim ▸ hi)).2.2.2.2.1, (hpq i (hdim ▸ hi)).2.2.2.2.2.1⟩), ?_, ?_⟩
    · intro i hi
      simp only [Point.getCoordinate]
      rw [rd_map_range pf _ _ hi, rd_map_range qf _ _ (hdim ▸ hi)]
      exact ⟨(hpq i hi).1, (hpq i hi).2.1⟩
    · rw [foldl_add_eq_sum, zero_add]
      congr 1
      apply List.map_congr_left
      intro i hi
      have hi' := List.mem_range.mp hi
      simp only [Point.getCoordinate]
      rw [rd_map_range pf _ _ hi', rd_map_range qf _ _ (hdim ▸ hi')]
      exact ((hpq i hi').2.2.2.2.2.2).symm

/-- C17 at A = low(0,0) high(1,1) and B = low(4,5) high(6,6): the value is 6^2 + 6^2 = 72,
attained by the corners (0,0) of A and (6,6) of B. -/
theorem getMaximumDistanceSq_is_max_witness :
    getMaximumDistanceSq ⟨2, [0, 0], [1, 1]⟩ ⟨2, [4, 5], [6, 6]⟩ = .ok 72 ∧
    ((List.range 2).map (fun i =>
      ((⟨2, [0, 0]⟩ : Point).getCoordinate i - (⟨2, [6, 6]⟩ : Point).getCoordinate i) ^ 2)).sum
      ≤ (72 : ℚ) := by
  obtain ⟨m, h1, h2, -⟩ := getMaximumDistanceSq_is_max ⟨2, [0, 0], [1, 1]⟩
    ⟨2, [4, 5], [6, 6]⟩ rfl (by decide) (by decide)
  have hm : getMaximumDistanceSq ⟨2, [0, 0], [1, 1]⟩ ⟨2, [4, 5], [6, 6]⟩ = .ok 72 := by
    norm_num [getMaximumDistanceSq, getMaximumDistanceSq.diff, rd, List.range, List.range.loop]
  have hm' : m = 72 := by rw [hm] at h1; exact (Except.ok.inj h1).symm
  refine ⟨hm, ?_⟩
  have := h2 ⟨2, [0, 0]⟩ ⟨2, [6, 6]⟩ (by rfl) (by rfl)
  rw [hm'] at this
  exact this

theorem getIntersectingRegion_disjoint_eq (self r : Region) (l : List Nat) :
    getIntersectingRegion.disjoint self r l = !intersectsRegion.loop self r l := by
  induction l with
  | nil => rfl
  | cons i rest ih =>
    simp only [getIntersectingRegion.disjoint, intersectsRegion.loop]
    split_ifs with h
    · rfl
    · exact ih

/-- C18: for all regions A and B of equal dimension D, A.getIntersectingRegion(B) is the
infinite sentinel of dimension D if A.intersectsRegion(B) is false, and otherwise the
region with low[i] = max(A.low[i], B.low[i]) and high[i] = min(A.high[i], B.high[i]) for
every i, which A and B both contain. -/
theorem getIntersectingRegion_eq (A B : Region) (hdim : A.m_dimension = B.m_dimension) :
    (intersectsRegion A B = .ok false →
      ∃ I : Region, getIntersectingRegion A B = .ok I ∧ I.m_dimension = A.m_dimension ∧
        I.Allocated ∧
        ∀ i, i < A.m_dimension → rd I.m_pLow i = DBL_MAX ∧ rd I.m_pHigh i = -DBL_MAX) ∧
    (intersectsRegion A B = .ok true →
      ∃ I : Region, getIntersectingRegion A B = .ok I ∧ I.m_dimension = A.m_dimension ∧
        I.Allocated ∧
        (∀ i, i < A.m_dimension → rd I.m_pLow i = max (rd A.m_pLow i) (rd B.m_pLow i) ∧
          rd I.m_pHigh i = min (rd A.m_pHigh i) (rd B.m_pHigh i)) ∧
        containsRegion A I = .ok true ∧ containsRegion B I = .ok true) ∧
    (intersectsRegion A B = .ok false ∨ intersectsRegion A B = .ok true) := by
  obtain ⟨m1, m2, m3⟩ := makeInfinite_spec Region.default A.m_dimension ⟨rfl, rfl⟩
  simp only [intersectsRegion, hdim, ne_eq, not_true_eq_false, if_false, Except.ok.injEq]
  rw [← hdim]
  refine ⟨fun h => ?_, fun h => ?_, ?_⟩
  · refine ⟨Region.default.makeInfinite A.m_dimension, ?_, m1, m2, m3⟩
    simp only [getIntersectingRegion, hdim, ne_eq, not_true_eq_false, if_false]
    rw [← hdim, getIntersectingRegion_disjoint_eq, h]
    rfl
  · obtain ⟨f1, f2, f3, f4, f5⟩ :=
      foldl_set (fun c _ => max (rd A.m_pLow c) (rd B.m_pLow c))
        (fun c _ => min (rd A.m_pHigh c) (rd B.m_pHigh c))
        (Region.default.makeInfinite A.m_dimension) A.m_dimension
    have hlo : ∀ i, i < A.m_dimension → rd ((List.range A.m_dimension).foldl
        (fun (ret : Region) cDim =>
          { ret with
            m_pLow := ret.m_pLow.set cDim (max (rd A.m_pLow cDim) (rd B.m_pLow cDim))
            m_pHigh := ret.m_pHigh.set cDim (min (rd A.m_pHigh cDim) (rd B.m_pHigh cDim)) })
        (Region.default.makeInfinite A.m_dimension)).m_pLow i
          = max (rd A.m_pLow i) (rd B.m_pLow i) := by
      intro i hi
      rw [f4, if_pos ⟨hi, by rw [m2.1, m1]; exact hi⟩]
    have hhi : ∀ i, i < A.m_dimension → rd ((List.range A.m_dimension).foldl
        (fun (ret : Region) cDim =>
          { ret with
            m_pLow := ret.m_pLow.set cDim (max (rd A.m_pLow cDim) (rd B.m_pLow cDim))
            m_pHigh := ret.m_pHigh.set cDim (min (rd A.m_pHigh cDim) (rd B.m_pHigh cDim)) })
        (Region.default.makeInfinite A.m_dimension)).m_pHigh i
          = min (rd A.m_pHigh i) (rd B.m_pHigh i) := by
      intro i hi
      rw [f5, if_pos ⟨hi, by rw [m2.2, m1]; exact hi⟩]
    have hI : ∃ I : Region, I = (List.range A.m_dimension).foldl
        (fun (ret : Region) cDim =>
          { ret with
            m_pLow := ret.m_pLow.set cDim (max (rd A.m_pLow cDim) (rd B.m_pLow cDim))
            m_pHigh := ret.m_pHigh.set cDim (min (rd A.m_pHigh cDim) (rd B.m_pHigh cDim)) })
        (Region.default.makeInfinite A.m_dimension) := ⟨_, rfl⟩
    obtain ⟨I, hIeq⟩ := hI
    rw [← hIeq] at f1 f2 f3 hlo hhi
    have hd : I.m_dimension = A.m_dimension := f1.trans m1
    refine ⟨I, ?_, hd, ⟨?_, ?_⟩, fun i hi => ⟨hlo i hi, hhi i hi⟩, ?_, ?_⟩
    · simp only [getIntersectingRegion, hdim, ne_eq, not_true_eq_false, if_false]
      rw [← hdim, getIntersectingRegion_disjoint_eq, h, hIeq]
      rfl
    · rw [f2, hd]; exact m2.1.trans m1
    · rw [f3, hd]; exact m2.2.trans m1
    · simp only [containsRegion, hd, ne_eq, not_true_eq_false, if_false, Except.ok.injEq]
      rw [containsRegion_loop_eq_true]
      intro i hi
      have hi' := List.mem_range.mp hi
      rw [hlo i hi', hhi i hi']
      exact ⟨le_max_left _ _, min_le_left _ _⟩
    · simp only [containsRegion, hd, hdim, ne_eq, not_true_eq_false, if_false,
        Except.ok.injEq]
      rw [containsRegion_loop_eq_true]
      intro i hi
      have hi' : i < A.m_dimension := hdim ▸ List.mem_range.mp hi
      rw [hlo i hi', hhi i hi']
      exact ⟨le_max_right _ _, min_le_right _ _⟩
  · cases intersectsRegion.loop A B (List.range A.m_dimension) <;> simp

/-- C18 at A = low(0,0) high(10,10): with B = low(5,5) high(15,15) the intersecting region
is low(5,5) high(10,10), and with B = low(20,20) high(30,30) it is the infinite sentinel. -/
theorem getIntersectingRegion_eq_witness :
    getIntersectingRegion ⟨2, [0, 0], [10, 10]⟩ ⟨2, [5, 5], [15, 15]⟩
      = .ok ⟨2, [5, 5], [10, 10]⟩ ∧
    getIntersectingRegion ⟨2, [0, 0], [10, 10]⟩ ⟨2, [20, 20], [30, 30]⟩
      = .ok ⟨2, [DBL_MAX, DBL_MAX], [-DBL_MAX, -DBL_MAX]⟩ ∧
    (∃ I : Region, getIntersectingRegion ⟨2, [0, 0], [10, 10]⟩ ⟨2, [5, 5], [15, 15]⟩ = .ok I ∧
      containsRegion ⟨2, [0, 0], [10, 10]⟩ I = .ok true ∧
      containsRegion ⟨2, [5, 5], [15, 15]⟩ I = .ok true) := by
  refine ⟨by rfl, by rfl, ?_⟩
  obtain ⟨I, h1, -, -, -, h5, h6⟩ :=
    (getIntersectingRegion_eq ⟨2, [0, 0], [10, 10]⟩ ⟨2, [5, 5], [15, 15]⟩ rfl).2.1 (by rfl)
  exact ⟨I, h1, h5, h6⟩

/-- A list of two doubles. -/
theorem length_two (l : List ℚ) (h : l.length = 2) : l = [rd l 0, rd l 1] := by
  match l, h with
  | [a, b], _ => rfl

/-- The squared distance of a 2-dimensional point to the point `(x, y)`. -/
theorem getDistanceSq_two (s : Point) (hs : s.m_dimension = 2) (x y : ℚ) :
    s.getDistanceSq ⟨2, [x, y]⟩
      = .ok ((s.getCoordinate 0 - x) ^ 2 + (s.getCoordinate 1 - y) ^ 2) := by
  simp [Point.getDistanceSq, hs, List.range, List.range.loop, Point.getCoordinate, rd]

/-- C13: for every 2-dimensional region A and every 2-dimensional point p,
A.getHausDistUB(p) is the square root of the largest of the squared Euclidean distances from
p to the four corners (low0,low1), (high0,high1), (high0,low1), (low0,high1) of A. -/
theorem getHausDistUB_Point_eq (A : Region) (p : Point) (hA : A.Allocated)
    (hd : A.m_dimension = 2) (hp : p.m_dimension = 2) :
    getHausDistUB_Point A p = some (.ok (Real.sqrt ((max (max (max
      ((p.getCoordinate 0 - rd A.m_pLow 0) ^ 2 + (p.getCoordinate 1 - rd A.m_pLow 1) ^ 2)
      ((p.getCoordinate 0 - rd A.m_pHigh 0) ^ 2 + (p.getCoordinate 1 - rd A.m_pHigh 1) ^ 2))
      ((p.getCoordinate 0 - rd A.m_pHigh 0) ^ 2 + (p.getCoordinate 1 - rd A.m_pLow 1) ^ 2))
      ((p.getCoordinate 0 - rd A.m_pLow 0) ^ 2 + (p.getCoordinate 1 - rd A.m_pHigh 1) ^ 2)
        : ℚ) : ℝ))) := by
  have hl := length_two A.m_pLow (hA.1.trans hd)
  have hh := length_two A.m_pHigh (hA.2.trans hd)
  have e1 : Point.ofCoords A.m_pLow 2 = some ⟨2, [rd A.m_pLow 0, rd A.m_pLow 1]⟩ := by
    unfold Point.ofCoords
    rw [if_pos (le_of_eq (hA.1.trans hd).symm), List.take_of_length_le (le_of_eq (hA.1.trans hd)),
      ← hl]
  have e2 : Point.ofCoords A.m_pHigh 2 = some ⟨2, [rd A.m_pHigh 0, rd A.m_pHigh 1]⟩ := by
    unfold Point.ofCoords
    rw [if_pos (le_of_eq (hA.2.trans hd).symm), List.take_of_length_le (le_of_eq (hA.2.trans hd)),
      ← hh]
  unfold getHausDistUB_Point
  rw [e1, e2]
  simp only [getDistanceSq_two p hp]

/-- C13, the scenario of the specification: A = low(0,0) high(1,1) and the point (5,5) give
sqrt(50), the squared distance to the corner (0,0). -/
theorem getHausDistUB_Point_eq_witness :
    getHausDistUB_Point ⟨2, [0, 0], [1, 1]⟩ ⟨2, [5, 5]⟩ = some (.ok (Real.sqrt 50)) ∧
    (⟨2, [5, 5]⟩ : Point).getDistanceSq ⟨2, [0, 0]⟩ = .ok 50 := by
  constructor
  · rw [getHausDistUB_Point_eq ⟨2, [0, 0], [1, 1]⟩ ⟨2, [5, 5]⟩ ⟨rfl, rfl⟩ rfl rfl]
    norm_num [Point.getCoordinate, rd]
  · rw [getDistanceSq_two _ rfl]
    norm_num [Point.getCoordinate, rd]

/-- C12 fails on the code: `getHausDistUB(const Region& s)` reads no member of `s`.  For
A = low(0,0) high(1,1) and S = low(3,0) high(4,1) it returns 1, the value it returns for
every other argument, while the maximum over the edges e of A of the minimum over the
edges f of S of e.getMaximumDistanceSq(f) is 10, whose square root is not 1. -/
theorem getHausDistUB_ignores_argument :
    getHausDistUB ⟨2, [0, 0], [1, 1]⟩ ⟨2, [3, 0], [4, 1]⟩ = .ok 1 ∧
    getHausDistUB_spec.maxMin ⟨2, [0, 0], [1, 1]⟩ ⟨2, [3, 0], [4, 1]⟩ = .ok 10 ∧
    Real.sqrt ((10 : ℚ) : ℝ) ≠ 1 ∧
    ∀ A S S' : Region, getHausDistUB A S = getHausDistUB A S' := by
  refine ⟨?_, ?_, ?_, fun _ _ _ => rfl⟩
  · have h : getHausDistUB.outer ⟨2, [0, 0], [1, 1]⟩ [0, 1, 2, 3] (ofDimension 2) (ofDimension 2)
        DBL_MIN = .ok 1 := by
      norm_num [getHausDistUB.outer, getHausDistUB.inner, getEdge, getMaximumDistanceSq,
        getMaximumDistanceSq.diff, rd, ofDimension, newDoubles, DBL_MIN, DBL_MAX, List.range,
        List.range.loop]
    simp only [getHausDistUB, h]
    norm_num
  · norm_num [getHausDistUB_spec.maxMin, getHausDistUB_spec.minOver, edgeOf, getEdge,
      getMaximumDistanceSq, getMaximumDistanceSq.diff, rd, ofDimension, newDoubles, List.range,
      List.range.loop]
  · rw [Ne, Real.sqrt_eq_one]
    norm_num

/-! ## Lemmas on edges and copies -/

theorem getEdge_eq (R : Region) (i : Int) (h : R.m_dimension = 2) :
    getEdge R i (ofDimension 2) = (.ok (), edgeOf R i) := by
  unfold edgeOf getEdge
  rw [if_neg (not_not.mpr h)]
  split_ifs <;> rfl

theorem getEdge_not_2d (R : Region) (i : Int) (edge : Region) (h : R.m_dimension ≠ 2) :
    getEdge R i edge = (.error .NotSupportedException, edge) := by
  unfold getEdge
  rw [if_pos h]

theorem edgeOf_dimension (R : Region) (i : Int) : (edgeOf R i).m_dimension = 2 := by
  unfold edgeOf getEdge
  split_ifs <;> rfl

theorem pushEdges_2d (R : Region) (h : R.m_dimension = 2) :
    pushEdges R [0, 1, 2, 3] [] = (.ok (), [edgeOf R 0, edgeOf R 1, edgeOf R 2, edgeOf R 3]) := by
  simp only [pushEdges, getEdge_eq R _ h, List.nil_append, List.cons_append]

theorem pushEdges_not_2d (R : Region) (h : R.m_dimension ≠ 2) :
    pushEdges R [0, 1, 2, 3] [] = (.error .NotSupportedException, []) := by
  simp only [pushEdges, getEdge_not_2d R _ _ h]

/-- What `initialize` leaves when it does not throw. -/
theorem initialize_ok (NDEBUG : Bool) (R : Region) (hR : R.Allocated)
    (h : NDEBUG = true ∨ initialize_.throws R.m_pLow R.m_pHigh (List.range R.m_dimension) = false) :
    initialize_ NDEBUG R.m_pLow R.m_pHigh R.m_dimension = .ok R := by
  unfold initialize_
  rw [if_neg]
  · have hn : (newDoubles R.m_dimension).length = R.m_dimension := List.length_replicate _ _
    rw [memcpyDoubles_full _ _ _ hn hR.1, memcpyDoubles_full _ _ _ hn hR.2]
  · rintro ⟨h1, h2⟩
    rcases h with h | h
    · rw [h] at h1; exact Bool.noConfusion h1
    · rw [h] at h2; exact Bool.noConfusion h2

/-- The check of `initialize` passes when low <= high on every axis. -/
theorem initialize_throws_of_lowLeHigh (pLow pHigh : List ℚ) (l : List Nat)
    (h : ∀ i ∈ l, rd pLow i ≤ rd pHigh i) : initialize_.throws pLow pHigh l = false := by
  induction l with
  | nil => rfl
  | cons i rest ih =>
    rw [initialize_.throws, if_neg, ih (fun j hj => h j (List.mem_cons_of_mem _ hj))]
    rintro ⟨h1, -⟩
    exact absurd (h i (List.mem_cons_self _ _)) (not_le.mpr h1)

/-- The copy of an allocated 2-dimensional region that `initialize` accepts: the same
coordinates, and the four edges of those coordinates in `m_vec_pEdge`. -/
theorem copy_2d (NDEBUG : Bool) (R : Region) (hR : R.Allocated) (hd : R.m_dimension = 2)
    (h : NDEBUG = true ∨ initialize_.throws R.m_pLow R.m_pHigh (List.range R.m_dimension) = false) :
    RegionObject.copy NDEBUG R
      = .ok ⟨R, [edgeOf R 0, edgeOf R 1, edgeOf R 2, edgeOf R 3]⟩ := by
  unfold RegionObject.copy
  rw [initialize_ok NDEBUG R hR h]
  simp only [List.isEmpty_nil, if_true, pushEdges_2d R hd]

/-- The copy of an allocated region of another dimension than 2 that `initialize` accepts
throws NotSupportedException. -/
theorem copy_not_2d (NDEBUG : Bool) (R : Region) (hR : R.Allocated) (hd : R.m_dimension ≠ 2)
    (h : NDEBUG = true ∨ initialize_.throws R.m_pLow R.m_pHigh (List.range R.m_dimension) = false) :
    RegionObject.copy NDEBUG R = .error .NotSupportedException := by
  unfold RegionObject.copy
  rw [initialize_ok NDEBUG R hR h]
  simp only [List.isEmpty_nil, if_true, pushEdges_not_2d R hd]

/-- C15 fails on the code: the copy constructor calls `getEdge` whatever the dimension, and
`getEdge` throws NotSupportedException when the dimension is not 2.  Copying (or cloning)
the region low(0,0,0) high(1,1,1) of dimension 3, or low(0) high(1) of dimension 1, throws
in every build, while the same construction succeeds for low(0,0) high(1,1). -/
theorem copy_throws_unless_2d :
    (∀ NDEBUG : Bool,
      RegionObject.copy NDEBUG ⟨3, [0, 0, 0], [1, 1, 1]⟩ = .error .NotSupportedException ∧
      RegionObject.clone NDEBUG ⟨⟨3, [0, 0, 0], [1, 1, 1]⟩, []⟩
        = .error .NotSupportedException ∧
      RegionObject.copy NDEBUG ⟨1, [0], [1]⟩ = .error .NotSupportedException ∧
      RegionObject.copy NDEBUG ⟨2, [0, 0], [1, 1]⟩
        = .ok ⟨⟨2, [0, 0], [1, 1]⟩,
            [⟨2, [0, 0], [1, 0]⟩, ⟨2, [1, 0], [1, 1]⟩, ⟨2, [0, 1], [1, 1]⟩, ⟨2, [0, 0], [0, 1]⟩]⟩) ∧
    (∀ (NDEBUG : Bool) (R : Region), R.Allocated → R.LowLeHigh → R.m_dimension ≠ 2 →
      RegionObject.copy NDEBUG R = .error .NotSupportedException) := by
  refine ⟨fun NDEBUG => ?_, fun NDEBUG R hR hw hd => ?_⟩
  · cases NDEBUG <;> exact ⟨by rfl, by rfl, by rfl, by rfl⟩
  · exact copy_not_2d NDEBUG R hR hd
      (Or.inr (initialize_throws_of_lowLeHigh _ _ _ (fun i hi => hw i (List.mem_range.mp hi))))

theorem getMinimumDistanceSq_ne_notSupported (e c : Region) :
    getMinimumDistanceSq e c ≠ .error .NotSupportedException := by
  unfold getMinimumDistanceSq
  split_ifs <;> simp

theorem getHausDistLB_batch_inner_ne_notSupported (edge : Option Region) (M : ℚ)
    (C : List Region) (s : ℚ) (k : Int) :
    (RegionObject.getHausDistLB_batch.inner edge M C s k).1 ≠ .error .NotSupportedException := by
  induction C generalizing s k with
  | nil => simp [RegionObject.getHausDistLB_batch.inner]
  | cons c rest ih =>
    cases edge with
    | none => simp [RegionObject.getHausDistLB_batch.inner]
    | some e =>
      simp only [RegionObject.getHausDistLB_batch.inner]
      cases hd : getMinimumDistanceSq e c with
      | error x =>
        simp only
        intro h
        exact getMinimumDistanceSq_ne_notSupported e c (by rw [hd]; exact h)
      | ok d =>
        simp only
        split_ifs
        · simp
        · exact ih _ _

theorem getHausDistLB_batch_outer_ne_notSupported (self : RegionObject) (C : List Region)
    (l : List Nat) (M : ℚ) (k : Int) :
    (RegionObject.getHausDistLB_batch.outer self C l M k).1
      ≠ .error .NotSupportedException := by
  induction l generalizing M k with
  | nil => simp [RegionObject.getHausDistLB_batch.outer]
  | cons i rest ih =>
    simp only [RegionObject.getHausDistLB_batch.outer]
    have hin := getHausDistLB_batch_inner_ne_notSupported self.m_vec_pEdge[i]? M C DBL_MAX k
    cases hres : RegionObject.getHausDistLB_batch.inner self.m_vec_pEdge[i]? M C DBL_MAX k with
    | mk o k' =>
      rw [hres] at hin
      cases o with
      | error x => simpa using hin
      | ok m => exact ih _ _

/-- C11, as stated, fails: on the receiver low(0,0,0) high(1,1,1) of dimension 3 the batch
`getHausDistLB`, whose dimension check is commented out, returns a number for an empty list
of candidates and throws `std::out_of_range` for a list of one; and `getHausDistUB` with the
point (5,5) returns sqrt(50).  Neither fails with NotSupportedException. -/
theorem hausdorff_unchecked_dimension :
    (RegionObject.getHausDistLB_batch ⟨⟨3, [0, 0, 0], [1, 1, 1]⟩, []⟩ [] 0 0).1
      = .ok (Real.sqrt ((DBL_MAX : ℚ) : ℝ)) ∧
    (RegionObject.getHausDistLB_batch ⟨⟨3, [0, 0, 0], [1, 1, 1]⟩, []⟩ [⟨2, [5, 5], [6, 6]⟩] 0 0).1
      = .error .out_of_range ∧
    getHausDistUB_Point ⟨3, [0, 0, 0], [1, 1, 1]⟩ ⟨2, [5, 5]⟩ = some (.ok (Real.sqrt 50)) := by
  refine ⟨?_, ?_, ?_⟩
  · have h : RegionObject.getHausDistLB_batch.outer ⟨⟨3, [0, 0, 0], [1, 1, 1]⟩, []⟩ []
        [0, 1, 2, 3] (0 * 0) 0 = (.ok DBL_MAX, 0) := by
      norm_num [RegionObject.getHausDistLB_batch.outer, RegionObject.getHausDistLB_batch.inner,
        DBL_MAX]
    simp only [RegionObject.getHausDistLB_batch, h]
  · have h : RegionObject.getHausDistLB_batch.outer ⟨⟨3, [0, 0, 0], [1, 1, 1]⟩, []⟩
        [⟨2, [5, 5], [6, 6]⟩] [0, 1, 2, 3] (0 * 0) 0 = (.error .out_of_range, 0) := by
      simp [RegionObject.getHausDistLB_batch.outer, RegionObject.getHausDistLB_batch.inner]
    simp only [RegionObject.getHausDistLB_batch, h]
  · have e1 : Point.ofCoords [0, 0, 0] 2 = some ⟨2, [0, 0]⟩ := by rfl
    have e2 : Point.ofCoords [1, 1, 1] 2 = some ⟨2, [1, 1]⟩ := by rfl
    simp only [getHausDistUB_Point, e1, e2, getDistanceSq_two ⟨2, [5, 5]⟩ rfl]
    norm_num [Point.getCoordinate, rd]

/-- C11 (amended): each of getHausDistLB(region) (for an argument that `initialize`
accepts when the by-value parameter is copied), getMHausDistLB (single and batch),
getHausDistUB(region), getHausDistUB(collection) and getEdge fails with
NotSupportedException whenever the receiver's dimension is not 2; the batch
getHausDistLB(candidates, currentMax, counter), whose dimension check is commented out,
never fails with NotSupportedException. -/
theorem notSupported_unless_2d (NDEBUG : Bool) (self : RegionObject) (r edge : Region)
    (s : IShape) (vec_pMBR : List Region) (vec_pShape : List IShape) (max : ℚ) (i : Int)
    (counter : Int) (hdim : self.m_dimension ≠ 2) (hr : r.Allocated)
    (hcopy : NDEBUG = true ∨
      initialize_.throws r.m_pLow r.m_pHigh (List.range r.m_dimension) = false) :
    RegionObject.getHausDistLB NDEBUG self r = some (.error .NotSupportedException) ∧
    getMHausDistLB self.toRegion s = .error .NotSupportedException ∧
    getMHausDistLB_batch self.toRegion vec_pMBR max = .error .NotSupportedException ∧
    getHausDistUB self.toRegion r = .error .NotSupportedException ∧
    getHausDistUB_batch self.toRegion vec_pShape = .error .NotSupportedException ∧
    getEdge self.toRegion i edge = (.error .NotSupportedException, edge) ∧
    (RegionObject.getHausDistLB_batch self vec_pMBR max counter).1
      ≠ .error .NotSupportedException := by
  refine ⟨?_, ?_, ?_, ?_, ?_, getEdge_not_2d _ _ _ hdim, ?_⟩
  · unfold RegionObject.getHausDistLB
    by_cases h2 : r.m_dimension = 2
    · rw [copy_2d NDEBUG r hr h2 hcopy]
      simp only [hdim, ne_eq, not_false_eq_true, if_true]
    · rw [copy_not_2d NDEBUG r hr h2 hcopy]
  · unfold getMHausDistLB
    rw [if_pos hdim]
  · unfold getMHausDistLB_batch
    rw [if_pos hdim]
  · simp only [getHausDistUB, getHausDistUB.outer, getEdge_not_2d _ _ _ hdim]
  · unfold getHausDistUB_batch
    rw [if_pos hdim]
  · unfold RegionObject.getHausDistLB_batch
    have h := getHausDistLB_batch_outer_ne_notSupported self vec_pMBR [0, 1, 2, 3] (max * max)
      counter
    cases hres : RegionObject.getHausDistLB_batch.outer self vec_pMBR [0, 1, 2, 3] (max * max)
        counter with
    | mk o k' =>
      rw [hres] at h
      cases o with
      | error x => simpa using h
      | ok m => simp

/-- C11 at the receiver low(0,0,0) high(1,1,1) of dimension 3, in a build without NDEBUG:
getHausDistLB with low(0,0) high(1,1) and getEdge(0) fail with NotSupportedException. -/
theorem notSupported_unless_2d_witness :
    RegionObject.getHausDistLB false ⟨⟨3, [0, 0, 0], [1, 1, 1]⟩, []⟩ ⟨2, [0, 0], [1, 1]⟩
      = some (.error .NotSupportedException) ∧
    getEdge ⟨3, [0, 0, 0], [1, 1, 1]⟩ 0 (ofDimension 2)
      = (.error .NotSupportedException, ofDimension 2) :=
  have h := notSupported_unless_2d false ⟨⟨3, [0, 0, 0], [1, 1, 1]⟩, []⟩ ⟨2, [0, 0], [1, 1]⟩
    (ofDimension 2) (.point ⟨2, [5, 5]⟩) [] [] 0 0 0 (by decide) ⟨rfl, rfl⟩ (Or.inr (by rfl))
  ⟨h.1, h.2.2.2.2.2.1⟩

/-- The value of `getHausDistLB(Region r)` on a 2-dimensional receiver whose `m_vec_pEdge`
holds four edges, for a 2-dimensional argument that `initialize` accepts: the running `max`
starts at `DBL_MIN`. -/
theorem getHausDistLB_eq (NDEBUG : Bool) (A : RegionObject) (R e0 e1 e2 e3 : Region)
    (d0 d1 d2 d3 : ℚ) (hA : A.m_dimension = 2) (hcache : A.m_vec_pEdge = [e0, e1, e2, e3])
    (hR : R.Allocated) (hRd : R.m_dimension = 2)
    (hcopy : NDEBUG = true ∨
      initialize_.throws R.m_pLow R.m_pHigh (List.range R.m_dimension) = false)
    (h0 : getMinimumDistanceSq e0 R = .ok d0) (h1 : getMinimumDistanceSq e1 R = .ok d1)
    (h2 : getMinimumDistanceSq e2 R = .ok d2) (h3 : getMinimumDistanceSq e3 R = .ok d3) :
    RegionObject.getHausDistLB NDEBUG A R
      = some (.ok (Real.sqrt ((max (max (max (max DBL_MIN d0) d1) d2) d3 : ℚ) : ℝ))) := by
  unfold RegionObject.getHausDistLB
  rw [copy_2d NDEBUG R hR hRd hcopy]
  simp only [hA, ne_eq, not_true_eq_false, if_false, hcache, RegionObject.getHausDistLB.loop,
    List.getElem?_cons_zero, List.getElem?_cons_succ, h0, h1, h2, h3]

/-- C14 fails on the code: the running maximum of `getHausDistLB(Region r)` starts at
`std::numeric_limits<double>::min()`, the smallest positive double, so the result is never
0.  For A the copy of low(0,0) high(1,1) and R = low(0,0) high(1,1) all four cached edges are
at squared distance 0 from R and the result is sqrt(DBL_MIN) > 0. -/
theorem getHausDistLB_never_zero (NDEBUG : Bool) :
    RegionObject.copy NDEBUG ⟨2, [0, 0], [1, 1]⟩
      = .ok ⟨⟨2, [0, 0], [1, 1]⟩,
          [⟨2, [0, 0], [1, 0]⟩, ⟨2, [1, 0], [1, 1]⟩, ⟨2, [0, 1], [1, 1]⟩, ⟨2, [0, 0], [0, 1]⟩]⟩ ∧
    getMinimumDistanceSq ⟨2, [0, 0], [1, 0]⟩ ⟨2, [0, 0], [1, 1]⟩ = .ok 0 ∧
    getMinimumDistanceSq ⟨2, [1, 0], [1, 1]⟩ ⟨2, [0, 0], [1, 1]⟩ = .ok 0 ∧
    getMinimumDistanceSq ⟨2, [0, 1], [1, 1]⟩ ⟨2, [0, 0], [1, 1]⟩ = .ok 0 ∧
    getMinimumDistanceSq ⟨2, [0, 0], [0, 1]⟩ ⟨2, [0, 0], [1, 1]⟩ = .ok 0 ∧
    RegionObject.getHausDistLB NDEBUG
        ⟨⟨2, [0, 0], [1, 1]⟩,
          [⟨2, [0, 0], [1, 0]⟩, ⟨2, [1, 0], [1, 1]⟩, ⟨2, [0, 1], [1, 1]⟩, ⟨2, [0, 0], [0, 1]⟩]⟩
        ⟨2, [0, 0], [1, 1]⟩
      = some (.ok (Real.sqrt ((DBL_MIN : ℚ) : ℝ))) ∧
    Real.sqrt ((DBL_MIN : ℚ) : ℝ) ≠ 0 := by
  have g0 : getMinimumDistanceSq ⟨2, [0, 0], [1, 0]⟩ ⟨2, [0, 0], [1, 1]⟩ = .ok 0 := by
    norm_num [getMinimumDistanceSq, gapRegion, rd, List.range, List.range.loop]
  have g1 : getMinimumDistanceSq ⟨2, [1, 0], [1, 1]⟩ ⟨2, [0, 0], [1, 1]⟩ = .ok 0 := by
    norm_num [getMinimumDistanceSq, gapRegion, rd, List.range, List.range.loop]
  have g2 : getMinimumDistanceSq ⟨2, [0, 1], [1, 1]⟩ ⟨2, [0, 0], [1, 1]⟩ = .ok 0 := by
    norm_num [getMinimumDistanceSq, gapRegion, rd, List.range, List.range.loop]
  have g3 : getMinimumDistanceSq ⟨2, [0, 0], [0, 1]⟩ ⟨2, [0, 0], [1, 1]⟩ = .ok 0 := by
    norm_num [getMinimumDistanceSq, gapRegion, rd, List.range, List.range.loop]
  have hpos : (0 : ℚ) < DBL_MIN := by norm_num [DBL_MIN]
  refine ⟨by cases NDEBUG <;> rfl, g0, g1, g2, g3, ?_, ?_⟩
  · rw [getHausDistLB_eq NDEBUG _ ⟨2, [0, 0], [1, 1]⟩ _ _ _ _ 0 0 0 0 rfl rfl ⟨rfl, rfl⟩ rfl
      (Or.inr (by rfl)) g0 g1 g2 g3]
    simp only [max_eq_left (le_of_lt hpos)]
  · rw [Ne, Real.sqrt_eq_zero']
    push_neg
    exact_mod_cast hpos

theorem operator_assign_eq (out A : Region) (hout : out.Allocated) (hA : A.Allocated) :
    operator_assign out A = A := by
  obtain ⟨hd, hal⟩ := makeDimension_spec out A.m_dimension hout
  unfold operator_assign
  simp only [hd]
  rw [memcpyDoubles_full _ _ _ (hal.1.trans hd) hA.1,
    memcpyDoubles_full _ _ _ (hal.2.trans hd) hA.2]

/-- A copy of an allocated 2-dimensional region that is constructed has the coordinates of
the original and the four edges of those coordinates. -/
theorem copy_ok_2d (NDEBUG : Bool) (A : Region) (A' : RegionObject) (hA : A.Allocated)
    (hd : A.m_dimension = 2) (h : RegionObject.copy NDEBUG A = .ok A') :
    A' = ⟨A, [edgeOf A 0, edgeOf A 1, edgeOf A 2, edgeOf A 3]⟩ := by
  by_cases hc : NDEBUG = true ∨
      initialize_.throws A.m_pLow A.m_pHigh (List.range A.m_dimension) = false
  · rw [copy_2d NDEBUG A hA hd hc] at h
    exact (Except.ok.inj h).symm
  · exfalso
    have hc' := not_or.mp hc
    have h1 : NDEBUG = false := by
      cases NDEBUG
      · rfl
      · exact absurd rfl hc'.1
    have h2 : initialize_.throws A.m_pLow A.m_pHigh (List.range A.m_dimension) = true := by
      cases hx : initialize_.throws A.m_pLow A.m_pHigh (List.range A.m_dimension)
      · exact absurd hx hc'.2
      · rfl
    unfold RegionObject.copy initialize_ at h
    rw [if_pos ⟨h1, h2⟩] at h
    exact Except.noConfusion h

/-- C20: a 2-dimensional region A produced by copy construction or by `getMBR` holds in
`m_vec_pEdge` the four edges `getEdge(0..3)` of its coordinates at that moment;
combineRegion, combinePoint, makeInfinite and assignment leave `m_vec_pEdge` as it is; and
for A the copy of low(0,0) high(1,1), after A.combineRegion(B) with B = low(5,5) high(6,6)
the cached edges differ from `getEdge(0..3)` of the new coordinates low(0,0) high(6,6), and
A.getHausDistLB(R) for R = low(-11,0) high(-10,1) is 11, the bound of the box before the
call, while a fresh copy of the new coordinates gives 16. -/
theorem edge_cache_stale :
    (∀ (NDEBUG : Bool) (A : Region) (A' : RegionObject), A.Allocated → A.m_dimension = 2 →
      RegionObject.copy NDEBUG A = .ok A' →
      A'.toRegion = A ∧ A'.m_vec_pEdge = [edgeOf A 0, edgeOf A 1, edgeOf A 2, edgeOf A 3]) ∧
    (∀ (A : Region) (out : RegionObject), A.Allocated → A.m_dimension = 2 →
      out.toRegion.Allocated →
      (RegionObject.getMBR A out).1 = .ok () ∧ (RegionObject.getMBR A out).2.toRegion = A ∧
      (RegionObject.getMBR A out).2.m_vec_pEdge
        = [edgeOf A 0, edgeOf A 1, edgeOf A 2, edgeOf A 3]) ∧
    (∀ (self : RegionObject) (B r : Region) (p : Point) (d : Nat),
      (self.combineRegion B).2.m_vec_pEdge = self.m_vec_pEdge ∧
      (self.combinePoint p).2.m_vec_pEdge = self.m_vec_pEdge ∧
      (self.makeInfinite d).m_vec_pEdge = self.m_vec_pEdge ∧
      (self.operator_assign r).m_vec_pEdge = self.m_vec_pEdge) ∧
    (∀ NDEBUG : Bool, ∃ A A1 A2 : RegionObject,
      RegionObject.copy NDEBUG ⟨2, [0, 0], [1, 1]⟩ = .ok A ∧
      A.combineRegion ⟨2, [5, 5], [6, 6]⟩ = (.ok (), A1) ∧
      A1.toRegion = ⟨2, [0, 0], [6, 6]⟩ ∧
      A1.m_vec_pEdge ≠ [edgeOf A1.toRegion 0, edgeOf A1.toRegion 1, edgeOf A1.toRegion 2,
        edgeOf A1.toRegion 3] ∧
      RegionObject.getHausDistLB NDEBUG A ⟨2, [-11, 0], [-10, 1]⟩ = some (.ok 11) ∧
      RegionObject.getHausDistLB NDEBUG A1 ⟨2, [-11, 0], [-10, 1]⟩ = some (.ok 11) ∧
      RegionObject.copy NDEBUG A1.toRegion = .ok A2 ∧
      RegionObject.getHausDistLB NDEBUG A2 ⟨2, [-11, 0], [-10, 1]⟩ = some (.ok 16)) := by
  refine ⟨fun NDEBUG A A' hA hd h => ?_, fun A out hA hd hout => ?_,
    fun _ _ _ _ _ => ⟨rfl, rfl, rfl, rfl⟩, fun NDEBUG => ?_⟩
  · rw [copy_ok_2d NDEBUG A A' hA hd h]
    exact ⟨rfl, rfl⟩
  · simp only [RegionObject.getMBR, operator_assign_eq _ _ hout hA, pushEdges_2d A hd,
      and_self]
  · have h11 : Real.sqrt 121 = 11 := by
      rw [show (121 : ℝ) = 11 ^ 2 by norm_num]; exact Real.sqrt_sq (by norm_num)
    have h16 : Real.sqrt 256 = 16 := by
      rw [show (256 : ℝ) = 16 ^ 2 by norm_num]; exact Real.sqrt_sq (by norm_num)
    have hmin : DBL_MIN ≤ 100 := by norm_num [DBL_MIN]
    have d0 : getMinimumDistanceSq ⟨2, [0, 0], [1, 0]⟩ ⟨2, [-11, 0], [-10, 1]⟩ = .ok 100 := by
      norm_num [getMinimumDistanceSq, gapRegion, rd, List.range, List.range.loop]
    have d1 : getMinimumDistanceSq ⟨2, [1, 0], [1, 1]⟩ ⟨2, [-11, 0], [-10, 1]⟩ = .ok 121 := by
      norm_num [getMinimumDistanceSq, gapRegion, rd, List.range, List.range.loop]
    have d2 : getMinimumDistanceSq ⟨2, [0, 1], [1, 1]⟩ ⟨2, [-11, 0], [-10, 1]⟩ = .ok 100 := by
      norm_num [getMinimumDistanceSq, gapRegion, rd, List.range, List.range.loop]
    have d3 : getMinimumDistanceSq ⟨2, [0, 0], [0, 1]⟩ ⟨2, [-11, 0], [-10, 1]⟩ = .ok 100 := by
      norm_num [getMinimumDistanceSq, gapRegion, rd, List.range, List.range.loop]
    have f0 : getMinimumDistanceSq ⟨2, [0, 0], [6, 0]⟩ ⟨2, [-11, 0], [-10, 1]⟩ = .ok 100 := by
      norm_num [getMinimumDistanceSq, gapRegion, rd, List.range, List.range.loop]
    have f1 : getMinimumDistanceSq ⟨2, [6, 0], [6, 6]⟩ ⟨2, [-11, 0], [-10, 1]⟩ = .ok 256 := by
      norm_num [getMinimumDistanceSq, gapRegion, rd, List.range, List.range.loop]
    have f2 : getMinimumDistanceSq ⟨2, [0, 6], [6, 6]⟩ ⟨2, [-11, 0], [-10, 1]⟩ = .ok 125 := by
      norm_num [getMinimumDistanceSq, gapRegion, rd, List.range, List.range.loop]
    have f3 : getMinimumDistanceSq ⟨2, [0, 0], [0, 6]⟩ ⟨2, [-11, 0], [-10, 1]⟩ = .ok 100 := by
      norm_num [getMinimumDistanceSq, gapRegion, rd, List.range, List.range.loop]
    have hR : NDEBUG = true ∨ initialize_.throws [-11, 0] [-10, 1] (List.range 2) = false :=
      Or.inr (by rfl)
    refine ⟨⟨⟨2, [0, 0], [1, 1]⟩,
        [⟨2, [0, 0], [1, 0]⟩, ⟨2, [1, 0], [1, 1]⟩, ⟨2, [0, 1], [1, 1]⟩, ⟨2, [0, 0], [0, 1]⟩]⟩,
      ⟨⟨2, [0, 0], [6, 6]⟩,
        [⟨2, [0, 0], [1, 0]⟩, ⟨2, [1, 0], [1, 1]⟩, ⟨2, [0, 1], [1, 1]⟩, ⟨2, [0, 0], [0, 1]⟩]⟩,
      ⟨⟨2, [0, 0], [6, 6]⟩,
        [⟨2, [0, 0], [6, 0]⟩, ⟨2, [6, 0], [6, 6]⟩, ⟨2, [0, 6], [6, 6]⟩, ⟨2, [0, 0], [0, 6]⟩]⟩,
      by cases NDEBUG <;> rfl, by rfl, rfl, by decide, ?_, ?_, by cases NDEBUG <;> rfl, ?_⟩
    · rw [getHausDistLB_eq NDEBUG _ ⟨2, [-11, 0], [-10, 1]⟩ _ _ _ _ 100 121 100 100 rfl rfl
        ⟨rfl, rfl⟩ rfl hR d0 d1 d2 d3]
      norm_num [max_eq_right hmin, h11]
    · rw [getHausDistLB_eq NDEBUG _ ⟨2, [-11, 0], [-10, 1]⟩ _ _ _ _ 100 121 100 100 rfl rfl
        ⟨rfl, rfl⟩ rfl hR d0 d1 d2 d3]
      norm_num [max_eq_right hmin, h11]
    · rw [getHausDistLB_eq NDEBUG _ ⟨2, [-11, 0], [-10, 1]⟩ _ _ _ _ 100 256 125 100 rfl rfl
        ⟨rfl, rfl⟩ rfl hR f0 f1 f2 f3]
      norm_num [max_eq_right hmin, h16]

/-- C20 at the copy of low(0,0) high(1,1) in a build without NDEBUG: it holds the four
edges of the unit square. -/
theorem edge_cache_stale_witness :
    ∃ A' : RegionObject, RegionObject.copy false ⟨2, [0, 0], [1, 1]⟩ = .ok A' ∧
      A'.m_vec_pEdge
        = [⟨2, [0, 0], [1, 0]⟩, ⟨2, [1, 0], [1, 1]⟩, ⟨2, [0, 1], [1, 1]⟩, ⟨2, [0, 0], [0, 1]⟩] :=
  ⟨⟨⟨2, [0, 0], [1, 1]⟩,
      [⟨2, [0, 0], [1, 0]⟩, ⟨2, [1, 0], [1, 1]⟩, ⟨2, [0, 1], [1, 1]⟩, ⟨2, [0, 0], [0, 1]⟩]⟩,
    by rfl,
    (edge_cache_stale.1 false ⟨2, [0, 0], [1, 1]⟩ _ ⟨rfl, rfl⟩ rfl (by rfl)).2⟩

/-! ## Lemmas on the batch lower bound -/

theorem noBreak_inner_le_seed (e : Region) (C : List Region) (s m : ℚ)
    (h : RegionObject.getHausDistLB_noBreak.inner e C s = .ok m) : m ≤ s := by
  induction C generalizing s with
  | nil =>
    simp only [RegionObject.getHausDistLB_noBreak.inner, Except.ok.injEq] at h
    exact le_of_eq h.symm
  | cons c rest ih =>
    simp only [RegionObject.getHausDistLB_noBreak.inner] at h
    cases hd : getMinimumDistanceSq e c with
    | error x => rw [hd] at h; exact Except.noConfusion h
    | ok d =>
      rw [hd] at h
      exact (ih _ h).trans (min_le_left _ _)

/-- The scan without the break ends with the least of the seed and the squared distances to
the candidates. -/
theorem noBreak_inner_char (e : Region) (C : List Region) (s m : ℚ)
    (h : RegionObject.getHausDistLB_noBreak.inner e C s = .ok m) :
    (∀ c ∈ C, ∀ d, getMinimumDistanceSq e c = .ok d → m ≤ d) ∧
      (m = s ∨ ∃ c ∈ C, getMinimumDistanceSq e c = .ok m) := by
  induction C generalizing s with
  | nil =>
    simp only [RegionObject.getHausDistLB_noBreak.inner, Except.ok.injEq] at h
    exact ⟨fun c hc => absurd hc (List.not_mem_nil _), Or.inl h.symm⟩
  | cons c rest ih =>
    simp only [RegionObject.getHausDistLB_noBreak.inner] at h
    cases hd : getMinimumDistanceSq e c with
    | error x => rw [hd] at h; exact Except.noConfusion h
    | ok d =>
      rw [hd] at h
      obtain ⟨i1, i2⟩ := ih _ h
      have hle := noBreak_inner_le_seed e rest _ m h
      refine ⟨fun c' hc' d' hd' => ?_, ?_⟩
      · rcases List.mem_cons.mp hc' with rfl | hin
        · rw [hd] at hd'
          rw [← Except.ok.inj hd']
          exact hle.trans (min_le_right _ _)
        · exact i1 c' hin d' hd'
      · rcases i2 with i2 | ⟨c', hc', hc''⟩
        · rcases min_choice s d with hm | hm
          · exact Or.inl (i2.trans hm)
          · exact Or.inr ⟨c, List.mem_cons_self _ _, by rw [hd, i2, hm]⟩
        · exact Or.inr ⟨c', List.mem_cons_of_mem _ hc', hc''⟩

theorem noBreak_inner_ok (e : Region) (C : List Region) (s : ℚ)
    (hC : ∀ c ∈ C, c.m_dimension = e.m_dimension) :
    ∃ m, RegionObject.getHausDistLB_noBreak.inner e C s = .ok m := by
  induction C generalizing s with
  | nil => exact ⟨s, rfl⟩
  | cons c rest ih =>
    simp only [RegionObject.getHausDistLB_noBreak.inner, getMinimumDistanceSq,
      (hC c (List.mem_cons_self _ _)).symm, ne_eq, not_true_eq_false, if_false]
    exact ih _ (fun c' hc' => hC c' (List.mem_cons_of_mem _ hc'))

/-- The scan without the break over the first `j + 1` candidates of `c :: rest`. -/
theorem noBreak_inner_take_succ (e c : Region) (rest : List Region) (j : Nat) (s d : ℚ)
    (hd : getMinimumDistanceSq e c = .ok d) :
    RegionObject.getHausDistLB_noBreak.inner e ((c :: rest).take (j + 1)) s
      = RegionObject.getHausDistLB_noBreak.inner e (rest.take j) (min s d) := by
  simp only [List.take_succ_cons, RegionObject.getHausDistLB_noBreak.inner, hd]

/-- The number of comparisons of one scan is determined by the running minima. -/
theorem isComparisonCount_unique (e : Region) (M s : ℚ) (C : List Region) (n n' : Nat)
    (h : RegionObject.IsComparisonCount_spec e M s C n)
    (h' : RegionObject.IsComparisonCount_spec e M s C n') : n = n' := by
  obtain ⟨hle, hall, hlast⟩ := h
  obtain ⟨hle', hall', hlast'⟩ := h'
  rcases lt_trichotomy n n' with hlt | heq | hgt
  · rcases hlast with hl | ⟨h1, v, hv, hvM⟩
    · omega
    · exact absurd hvM (hall' n v h1 hlt hv)
  · exact heq
  · rcases hlast' with hl | ⟨h1, v, hv, hvM⟩
    · omega
    · exact absurd hvM (hall n' v h1 hgt hv)

/-- The inner loop with its `break` against the scan without it: the `min` it ends with
gives the same `std::max(max, min)`, and `counter` grows by the number of comparisons: one
for each candidate up to the first at which the running minimum is below `max`. -/
theorem inner_vs_noBreak (e : Region) (M : ℚ) (C : List Region) (s m : ℚ) (k : Int)
    (h : RegionObject.getHausDistLB_noBreak.inner e C s = .ok m) :
    ∃ (m' : ℚ) (n : Nat),
      RegionObject.getHausDistLB_batch.inner (some e) M C s k = (.ok m', k + (n : Int)) ∧
      max M m' = max M m ∧ RegionObject.IsComparisonCount_spec e M s C n := by
  induction C generalizing s k with
  | nil =>
    simp only [RegionObject.getHausDistLB_noBreak.inner, Except.ok.injEq] at h
    refine ⟨s, 0, by simp [RegionObject.getHausDistLB_batch.inner], by rw [h], le_rfl, ?_,
      Or.inl rfl⟩
    intro j v h1 h2
    omega
  | cons c rest ih =>
    simp only [RegionObject.getHausDistLB_noBreak.inner] at h
    cases hd : getMinimumDistanceSq e c with
    | error x => rw [hd] at h; exact Except.noConfusion h
    | ok d =>
      rw [hd] at h
      simp only [RegionObject.getHausDistLB_batch.inner, hd]
      by_cases hlt : min s d < M
      · rw [if_pos hlt]
        have hle := noBreak_inner_le_seed e rest _ m h
        refine ⟨min s d, 1, by simp, ?_, ?_, ?_, Or.inr ⟨le_rfl, min s d, ?_, hlt⟩⟩
        · rw [max_eq_left (le_of_lt hlt), max_eq_left (le_of_lt (lt_of_le_of_lt hle hlt))]
        · simp only [List.length_cons]; omega
        · intro j v h1 h2
          omega
        · rw [noBreak_inner_take_succ e c rest 0 s d hd]
          simp only [List.take_zero, RegionObject.getHausDistLB_noBreak.inner]
      · rw [if_neg hlt]
        obtain ⟨m', n', h1, h2, h3, h4, h5⟩ := ih (min s d) (k + 1) h
        refine ⟨m', n' + 1, ?_, h2, ?_, ?_, ?_⟩
        · rw [h1]
          push_cast
          rw [add_assoc, add_comm (1 : Int)]
        · simp only [List.length_cons]; omega
        · intro j v hj1 hj2 hv
          obtain ⟨j', rfl⟩ : ∃ j', j = j' + 1 := ⟨j - 1, by omega⟩
          rw [noBreak_inner_take_succ e c rest j' s d hd] at hv
          rcases Nat.eq_zero_or_pos j' with rfl | hpos
          · simp only [List.take_zero, RegionObject.getHausDistLB_noBreak.inner,
              Except.ok.injEq] at hv
            rw [← hv]
            exact hlt
          · exact h4 j' v hpos (by omega) hv
        · rcases h5 with h5 | ⟨h5, v, hv, hvl⟩
          · left
            simp only [List.length_cons, h5]
          · right
            exact ⟨by omega, v, by rw [noBreak_inner_take_succ e c rest n' s d hd]; exact hv,
              hvl⟩

/-- The batch `getHausDistLB` on a receiver whose `m_vec_pEdge` holds four edges, against
the scan without the break: the value, and `counter` increased by the number of comparisons
of the four scans, each against the running `max` the edges before it leave. -/
theorem getHausDistLB_batch_spec (A : RegionObject) (e0 e1 e2 e3 : Region) (C : List Region)
    (cm : ℚ) (counter : Int) (m0 m1 m2 m3 : ℚ) (hcache : A.m_vec_pEdge = [e0, e1, e2, e3])
    (h0 : RegionObject.getHausDistLB_noBreak.inner e0 C DBL_MAX = .ok m0)
    (h1 : RegionObject.getHausDistLB_noBreak.inner e1 C DBL_MAX = .ok m1)
    (h2 : RegionObject.getHausDistLB_noBreak.inner e2 C DBL_MAX = .ok m2)
    (h3 : RegionObject.getHausDistLB_noBreak.inner e3 C DBL_MAX = .ok m3) :
    ∃ n0 n1 n2 n3 : Nat,
      RegionObject.IsComparisonCount_spec e0 (cm * cm) DBL_MAX C n0 ∧
      RegionObject.IsComparisonCount_spec e1 (max (cm * cm) m0) DBL_MAX C n1 ∧
      RegionObject.IsComparisonCount_spec e2 (max (max (cm * cm) m0) m1) DBL_MAX C n2 ∧
      RegionObject.IsComparisonCount_spec e3 (max (max (max (cm * cm) m0) m1) m2) DBL_MAX C
        n3 ∧
      RegionObject.getHausDistLB_batch A C cm counter
        = (.ok (Real.sqrt ((max (max (max (max (cm * cm) m0) m1) m2) m3 : ℚ) : ℝ)),
            counter + ((n0 + n1 + n2 + n3 : Nat) : Int)) := by
  obtain ⟨a0, n0, i0, j0, c0⟩ := inner_vs_noBreak e0 (cm * cm) C DBL_MAX m0 counter h0
  obtain ⟨a1, n1, i1, j1, c1⟩ :=
    inner_vs_noBreak e1 (max (cm * cm) m0) C DBL_MAX m1 (counter + n0) h1
  obtain ⟨a2, n2, i2, j2, c2⟩ :=
    inner_vs_noBreak e2 (max (max (cm * cm) m0) m1) C DBL_MAX m2 (counter + n0 + n1) h2
  obtain ⟨a3, n3, i3, j3, c3⟩ :=
    inner_vs_noBreak e3 (max (max (max (cm * cm) m0) m1) m2) C DBL_MAX m3
      (counter + n0 + n1 + n2) h3
  refine ⟨n0, n1, n2, n3, c0, c1, c2, c3, ?_⟩
  simp only [RegionObject.getHausDistLB_batch, RegionObject.getHausDistLB_batch.outer, hcache,
    List.getElem?_cons_zero, List.getElem?_cons_succ, i0, j0, i1, j1, i2, j2, i3, j3]
  push_cast
  simp only [add_assoc]

/-- C19 (amended): for every region A whose four cached edges are current, every list C of
2-dimensional candidates, every currentMax >= 0 and every counter, the batch getHausDistLB
returns sqrt(max(currentMax^2, max over the four edges e of A of m(e))), where m(e) is the
least of DBL_MAX and the e.getMinimumDistanceSq(c) for c in C -- the result of the same scan
without the break -- which is >= currentMax; and it leaves counter increased by
n(0) + n(1) + n(2) + n(3) <= 4 * |C|, where n(i) is the number of candidates the scan of
edge i compares: those up to and including the first after which the running minimum is
below the running max (all of C if there is none), the running max being currentMax^2
before edge 0 and the larger of itself and m(e) after each edge e. -/
theorem getHausDistLB_batch_eq (A : RegionObject) (C : List Region) (currentMax : ℚ)
    (counter : Int)
    (hcache : A.m_vec_pEdge
      = [edgeOf A.toRegion 0, edgeOf A.toRegion 1, edgeOf A.toRegion 2, edgeOf A.toRegion 3])
    (hC : ∀ c ∈ C, c.m_dimension = 2) (hcm : 0 ≤ currentMax) :
    ∃ (m : Nat → ℚ) (n : Nat → Nat),
      (∀ i : Nat, i < 4 →
        RegionObject.getHausDistLB_noBreak.inner (edgeOf A.toRegion (i : Int)) C DBL_MAX
          = .ok (m i) ∧
        m i ≤ DBL_MAX ∧
        (∀ c ∈ C, ∀ d, getMinimumDistanceSq (edgeOf A.toRegion (i : Int)) c = .ok d → m i ≤ d) ∧
        (m i = DBL_MAX ∨
          ∃ c ∈ C, getMinimumDistanceSq (edgeOf A.toRegion (i : Int)) c = .ok (m i))) ∧
      RegionObject.IsComparisonCount_spec (edgeOf A.toRegion 0)
        (currentMax * currentMax) DBL_MAX C (n 0) ∧
      RegionObject.IsComparisonCount_spec (edgeOf A.toRegion 1)
        (max (currentMax * currentMax) (m 0)) DBL_MAX C (n 1) ∧
      RegionObject.IsComparisonCount_spec (edgeOf A.toRegion 2)
        (max (max (currentMax * currentMax) (m 0)) (m 1)) DBL_MAX C (n 2) ∧
      RegionObject.IsComparisonCount_spec (edgeOf A.toRegion 3)
        (max (max (max (currentMax * currentMax) (m 0)) (m 1)) (m 2)) DBL_MAX C (n 3) ∧
      RegionObject.getHausDistLB_batch A C currentMax counter
        = (.ok (Real.sqrt ((max (max (max (max (currentMax * currentMax) (m 0)) (m 1)) (m 2))
            (m 3) : ℚ) : ℝ)), counter + ((n 0 + n 1 + n 2 + n 3 : Nat) : Int)) ∧
      (currentMax : ℝ) ≤ Real.sqrt ((max (max (max (max (currentMax * currentMax) (m 0)) (m 1))
        (m 2)) (m 3) : ℚ) : ℝ) ∧
      n 0 + n 1 + n 2 + n 3 ≤ 4 * C.length := by
  have hdim : ∀ i : Int, ∀ c ∈ C, c.m_dimension = (edgeOf A.toRegion i).m_dimension :=
    fun i c hc => (hC c hc).trans (edgeOf_dimension _ i).symm
  obtain ⟨m0, h0⟩ := noBreak_inner_ok (edgeOf A.toRegion 0) C DBL_MAX (hdim 0)
  obtain ⟨m1, h1⟩ := noBreak_inner_ok (edgeOf A.toRegion 1) C DBL_MAX (hdim 1)
  obtain ⟨m2, h2⟩ := noBreak_inner_ok (edgeOf A.toRegion 2) C DBL_MAX (hdim 2)
  obtain ⟨m3, h3⟩ := noBreak_inner_ok (edgeOf A.toRegion 3) C DBL_MAX (hdim 3)
  obtain ⟨n0, n1, n2, n3, c0, c1, c2, c3, hk⟩ :=
    getHausDistLB_batch_spec A _ _ _ _ C currentMax counter m0 m1 m2 m3 hcache h0 h1 h2 h3
  refine ⟨fun i => if i = 0 then m0 else if i = 1 then m1 else if i = 2 then m2 else m3,
    fun i => if i = 0 then n0 else if i = 1 then n1 else if i = 2 then n2 else n3,
    fun i hi => ?_, ?_, ?_, ?_, ?_, ?_, ?_, ?_⟩
  · interval_cases i
    · simp only [Nat.cast_zero, if_true]
      exact ⟨h0, noBreak_inner_le_seed _ _ _ _ h0, (noBreak_inner_char _ _ _ _ h0).1,
        (noBreak_inner_char _ _ _ _ h0).2⟩
    · simp only [Nat.cast_one, one_ne_zero, if_false, if_true]
      exact ⟨h1, noBreak_inner_le_seed _ _ _ _ h1, (noBreak_inner_char _ _ _ _ h1).1,
        (noBreak_inner_char _ _ _ _ h1).2⟩
    · simp only [Nat.cast_ofNat, OfNat.ofNat_ne_zero, OfNat.ofNat_ne_one, if_false, if_true]
      exact ⟨h2, noBreak_inner_le_seed _ _ _ _ h2, (noBreak_inner_char _ _ _ _ h2).1,
        (noBreak_inner_char _ _ _ _ h2).2⟩
    · simp only [Nat.cast_ofNat, OfNat.ofNat_ne_zero, OfNat.ofNat_ne_one, if_false,
        show ¬ (3 : Nat) = 2 by decide]
      exact ⟨h3, noBreak_inner_le_seed _ _ _ _ h3, (noBreak_inner_char _ _ _ _ h3).1,
        (noBreak_inner_char _ _ _ _ h3).2⟩
  · simpa using c0
  · simpa using c1
  · simpa using c2
  · simpa using c3
  · simpa using hk
  · simp only [if_true, one_ne_zero, if_false, OfNat.ofNat_ne_zero, OfNat.ofNat_ne_one,
      show ¬ (3 : Nat) = 2 by decide]
    have hle : currentMax * currentMax ≤ max (max (max (max (currentMax * currentMax) m0) m1) m2) m3 :=
      le_max_of_le_left (le_max_of_le_left (le_max_of_le_left (le_max_left _ _)))
    have hle' : ((currentMax * currentMax : ℚ) : ℝ)
        ≤ ((max (max (max (max (currentMax * currentMax) m0) m1) m2) m3 : ℚ) : ℝ) := by
      exact_mod_cast hle
    have hs : Real.sqrt ((currentMax * currentMax : ℚ) : ℝ) = (currentMax : ℝ) := by
      push_cast
      exact Real.sqrt_mul_self (by exact_mod_cast hcm)
    rw [← hs]
    exact Real.sqrt_le_sqrt hle'
  · simp only [if_true, one_ne_zero, if_false, OfNat.ofNat_ne_zero, OfNat.ofNat_ne_one,
      show ¬ (3 : Nat) = 2 by decide]
    have := c0.1
    have := c1.1
    have := c2.1
    have := c3.1
    omega

/-- C19, as stated, fails: the running minimum of every edge starts at DBL_MAX.  For A the
copy of low(0,0) high(1,1), the one candidate c = low(2^600,0) high(2^600,1), currentMax = 0
and counter = 0, the squared distance of every edge of A from c is above DBL_MAX, so the
square root of the largest of the per-edge minima over C is above sqrt(DBL_MAX), which is
what the code returns, after 4 comparisons.  For the empty list of candidates it returns
sqrt(DBL_MAX) as well. -/
theorem getHausDistLB_batch_capped :
    ∃ d0 d1 d2 d3 : ℚ,
      getMinimumDistanceSq ⟨2, [0, 0], [1, 0]⟩ ⟨2, [2 ^ 600, 0], [2 ^ 600, 1]⟩ = .ok d0 ∧
      getMinimumDistanceSq ⟨2, [1, 0], [1, 1]⟩ ⟨2, [2 ^ 600, 0], [2 ^ 600, 1]⟩ = .ok d1 ∧
      getMinimumDistanceSq ⟨2, [0, 1], [1, 1]⟩ ⟨2, [2 ^ 600, 0], [2 ^ 600, 1]⟩ = .ok d2 ∧
      getMinimumDistanceSq ⟨2, [0, 0], [0, 1]⟩ ⟨2, [2 ^ 600, 0], [2 ^ 600, 1]⟩ = .ok d3 ∧
      DBL_MAX < d0 ∧ DBL_MAX < d1 ∧ DBL_MAX < d2 ∧ DBL_MAX < d3 ∧
      Real.sqrt ((DBL_MAX : ℚ) : ℝ)
        < Real.sqrt ((max (0 * 0) (max (max (max d0 d1) d2) d3) : ℚ) : ℝ) ∧
      RegionObject.getHausDistLB_batch
          ⟨⟨2, [0, 0], [1, 1]⟩,
            [⟨2, [0, 0], [1, 0]⟩, ⟨2, [1, 0], [1, 1]⟩, ⟨2, [0, 1], [1, 1]⟩, ⟨2, [0, 0], [0, 1]⟩]⟩
          [⟨2, [2 ^ 600, 0], [2 ^ 600, 1]⟩] 0 0
        = (.ok (Real.sqrt ((DBL_MAX : ℚ) : ℝ)), 4) ∧
      RegionObject.getHausDistLB_batch
          ⟨⟨2, [0, 0], [1, 1]⟩,
            [⟨2, [0, 0], [1, 0]⟩, ⟨2, [1, 0], [1, 1]⟩, ⟨2, [0, 1], [1, 1]⟩, ⟨2, [0, 0], [0, 1]⟩]⟩
          [] 0 0
        = (.ok (Real.sqrt ((DBL_MAX : ℚ) : ℝ)), 0) := by
  have d0 : getMinimumDistanceSq ⟨2, [0, 0], [1, 0]⟩ ⟨2, [2 ^ 600, 0], [2 ^ 600, 1]⟩
      = .ok ((2 ^ 600 - 1) ^ 2) := by
    norm_num [getMinimumDistanceSq, gapRegion, rd, List.range, List.range.loop]
  have d1 : getMinimumDistanceSq ⟨2, [1, 0], [1, 1]⟩ ⟨2, [2 ^ 600, 0], [2 ^ 600, 1]⟩
      = .ok ((2 ^ 600 - 1) ^ 2) := by
    norm_num [getMinimumDistanceSq, gapRegion, rd, List.range, List.range.loop]
  have d2 : getMinimumDistanceSq ⟨2, [0, 1], [1, 1]⟩ ⟨2, [2 ^ 600, 0], [2 ^ 600, 1]⟩
      = .ok ((2 ^ 600 - 1) ^ 2) := by
    norm_num [getMinimumDistanceSq, gapRegion, rd, List.range, List.range.loop]
  have d3 : getMinimumDistanceSq ⟨2, [0, 0], [0, 1]⟩ ⟨2, [2 ^ 600, 0], [2 ^ 600, 1]⟩
      = .ok ((2 ^ 600) ^ 2) := by
    norm_num [getMinimumDistanceSq, gapRegion, rd, List.range, List.range.loop]
  have c0 : min DBL_MAX (((2 : ℚ) ^ 600 - 1) ^ 2) = DBL_MAX :=
    min_eq_left (by norm_num [DBL_MAX])
  have c3 : min DBL_MAX (((2 : ℚ) ^ 600) ^ 2) = DBL_MAX :=
    min_eq_left (by norm_num [DBL_MAX])
  have n0 : ¬ DBL_MAX < (0 : ℚ) * 0 := by norm_num [DBL_MAX]
  have x0 : max ((0 : ℚ) * 0) DBL_MAX = DBL_MAX := max_eq_right (by norm_num [DBL_MAX])
  refine ⟨_, _, _, _, d0, d1, d2, d3, by norm_num [DBL_MAX], by norm_num [DBL_MAX],
    by norm_num [DBL_MAX], by norm_num [DBL_MAX], ?_, ?_, ?_⟩
  · have e : max ((0 : ℚ) * 0) (max (max (max ((2 ^ 600 - 1) ^ 2) ((2 ^ 600 - 1) ^ 2))
        ((2 ^ 600 - 1) ^ 2)) ((2 ^ 600) ^ 2)) = (2 ^ 600) ^ 2 := by
      norm_num
    rw [e, Real.sqrt_lt_sqrt_iff (by norm_num [DBL_MAX])]
    norm_num [DBL_MAX]
  · simp only [RegionObject.getHausDistLB_batch, RegionObject.getHausDistLB_batch.outer,
      RegionObject.getHausDistLB_batch.inner, List.getElem?_cons_zero, List.getElem?_cons_succ,
      d0, d1, d2, d3, c0, c3, n0, x0, if_false, max_self, lt_irrefl]
    norm_num
  · simp only [RegionObject.getHausDistLB_batch, RegionObject.getHausDistLB_batch.outer,
      RegionObject.getHausDistLB_batch.inner, x0, max_self]

/-- C19 at A the copy of low(0,0) high(1,1), the candidates low(3,0) high(4,1) and
low(0,5) high(1,6), currentMax = 5 and counter = 0: every edge is at squared distance 4 or 9
from the first candidate, below 25, so each scan stops after one comparison; the code
returns 5 and leaves counter at 4, not at 8. -/
theorem getHausDistLB_batch_eq_witness :
    RegionObject.getHausDistLB_batch
        ⟨⟨2, [0, 0], [1, 1]⟩,
          [⟨2, [0, 0], [1, 0]⟩, ⟨2, [1, 0], [1, 1]⟩, ⟨2, [0, 1], [1, 1]⟩, ⟨2, [0, 0], [0, 1]⟩]⟩
        [⟨2, [3, 0], [4, 1]⟩, ⟨2, [0, 5], [1, 6]⟩] 5 0
      = (.ok 5, 4) := by
  obtain ⟨m, n, hm, hn0, hn1, hn2, hn3, hres, -, -⟩ := getHausDistLB_batch_eq
    ⟨⟨2, [0, 0], [1, 1]⟩,
      [⟨2, [0, 0], [1, 0]⟩, ⟨2, [1, 0], [1, 1]⟩, ⟨2, [0, 1], [1, 1]⟩, ⟨2, [0, 0], [0, 1]⟩]⟩
    [⟨2, [3, 0], [4, 1]⟩, ⟨2, [0, 5], [1, 6]⟩] 5 0 (by rfl)
    (by intro c hc; simp only [List.mem_cons, List.mem_singleton, List.not_mem_nil, or_false] at hc
        rcases hc with rfl | rfl <;> rfl)
    (by norm_num)
  have hM : (4 : ℚ) ≤ DBL_MAX ∧ (9 : ℚ) ≤ DBL_MAX := by norm_num [DBL_MAX]
  have a0 : getMinimumDistanceSq ⟨2, [0, 0], [1, 0]⟩ ⟨2, [3, 0], [4, 1]⟩ = .ok 4 := by
    norm_num [getMinimumDistanceSq, gapRegion, rd, List.range, List.range.loop]
  have a1 : getMinimumDistanceSq ⟨2, [1, 0], [1, 1]⟩ ⟨2, [3, 0], [4, 1]⟩ = .ok 4 := by
    norm_num [getMinimumDistanceSq, gapRegion, rd, List.range, List.range.loop]
  have a2 : getMinimumDistanceSq ⟨2, [0, 1], [1, 1]⟩ ⟨2, [3, 0], [4, 1]⟩ = .ok 4 := by
    norm_num [getMinimumDistanceSq, gapRegion, rd, List.range, List.range.loop]
  have a3 : getMinimumDistanceSq ⟨2, [0, 0], [0, 1]⟩ ⟨2, [3, 0], [4, 1]⟩ = .ok 9 := by
    norm_num [getMinimumDistanceSq, gapRegion, rd, List.range, List.range.loop]
  have b0 : getMinimumDistanceSq ⟨2, [0, 0], [1, 0]⟩ ⟨2, [0, 5], [1, 6]⟩ = .ok 25 := by
    norm_num [getMinimumDistanceSq, gapRegion, rd, List.range, List.range.loop]
  have b1 : getMinimumDistanceSq ⟨2, [1, 0], [1, 1]⟩ ⟨2, [0, 5], [1, 6]⟩ = .ok 16 := by
    norm_num [getMinimumDistanceSq, gapRegion, rd, List.range, List.range.loop]
  have b2 : getMinimumDistanceSq ⟨2, [0, 1], [1, 1]⟩ ⟨2, [0, 5], [1, 6]⟩ = .ok 16 := by
    norm_num [getMinimumDistanceSq, gapRegion, rd, List.range, List.range.loop]
  have b3 : getMinimumDistanceSq ⟨2, [0, 0], [0, 1]⟩ ⟨2, [0, 5], [1, 6]⟩ = .ok 16 := by
    norm_num [getMinimumDistanceSq, gapRegion, rd, List.range, List.range.loop]
  have s4 : min DBL_MAX (4 : ℚ) = 4 := min_eq_right hM.1
  have s9 : min DBL_MAX (9 : ℚ) = 9 := min_eq_right hM.2
  have c0 : RegionObject.getHausDistLB_noBreak.inner ⟨2, [0, 0], [1, 0]⟩
      [⟨2, [3, 0], [4, 1]⟩, ⟨2, [0, 5], [1, 6]⟩] DBL_MAX = .ok 4 := by
    simp only [RegionObject.getHausDistLB_noBreak.inner, a0, b0, s4]; norm_num
  have c1 : RegionObject.getHausDistLB_noBreak.inner ⟨2, [1, 0], [1, 1]⟩
      [⟨2, [3, 0], [4, 1]⟩, ⟨2, [0, 5], [1, 6]⟩] DBL_MAX = .ok 4 := by
    simp only [RegionObject.getHausDistLB_noBreak.inner, a1, b1, s4]; norm_num
  have c2 : RegionObject.getHausDistLB_noBreak.inner ⟨2, [0, 1], [1, 1]⟩
      [⟨2, [3, 0], [4, 1]⟩, ⟨2, [0, 5], [1, 6]⟩] DBL_MAX = .ok 4 := by
    simp only [RegionObject.getHausDistLB_noBreak.inner, a2, b2, s4]; norm_num
  have c3 : RegionObject.getHausDistLB_noBreak.inner ⟨2, [0, 0], [0, 1]⟩
      [⟨2, [3, 0], [4, 1]⟩, ⟨2, [0, 5], [1, 6]⟩] DBL_MAX = .ok 9 := by
    simp only [RegionObject.getHausDistLB_noBreak.inner, a3, b3, s9]; norm_num
  have v0 : m 0 = 4 := Except.ok.inj ((hm 0 (by decide)).1.symm.trans c0)
  have v1 : m 1 = 4 := Except.ok.inj ((hm 1 (by decide)).1.symm.trans c1)
  have v2 : m 2 = 4 := Except.ok.inj ((hm 2 (by decide)).1.symm.trans c2)
  have v3 : m 3 = 9 := Except.ok.inj ((hm 3 (by decide)).1.symm.trans c3)
  have M1 : max ((5 : ℚ) * 5) 4 = 5 * 5 := by norm_num
  rw [v0, M1] at hn1
  rw [v0, v1, M1, M1] at hn2
  rw [v0, v1, v2, M1, M1, M1] at hn3
  have k0 : RegionObject.IsComparisonCount_spec ⟨2, [0, 0], [1, 0]⟩ ((5 : ℚ) * 5) DBL_MAX
      [⟨2, [3, 0], [4, 1]⟩, ⟨2, [0, 5], [1, 6]⟩] 1 :=
    ⟨by decide, fun j v hj1 hj2 => by omega, Or.inr ⟨le_rfl, 4, by
      simp only [List.take, RegionObject.getHausDistLB_noBreak.inner, a0, s4], by norm_num⟩⟩
  have k1 : RegionObject.IsComparisonCount_spec ⟨2, [1, 0], [1, 1]⟩ ((5 : ℚ) * 5) DBL_MAX
      [⟨2, [3, 0], [4, 1]⟩, ⟨2, [0, 5], [1, 6]⟩] 1 :=
    ⟨by decide, fun j v hj1 hj2 => by omega, Or.inr ⟨le_rfl, 4, by
      simp only [List.take, RegionObject.getHausDistLB_noBreak.inner, a1, s4], by norm_num⟩⟩
  have k2 : RegionObject.IsComparisonCount_spec ⟨2, [0, 1], [1, 1]⟩ ((5 : ℚ) * 5) DBL_MAX
      [⟨2, [3, 0], [4, 1]⟩, ⟨2, [0, 5], [1, 6]⟩] 1 :=
    ⟨by decide, fun j v hj1 hj2 => by omega, Or.inr ⟨le_rfl, 4, by
      simp only [List.take, RegionObject.getHausDistLB_noBreak.inner, a2, s4], by norm_num⟩⟩
  have k3 : RegionObject.IsComparisonCount_spec ⟨2, [0, 0], [0, 1]⟩ ((5 : ℚ) * 5) DBL_MAX
      [⟨2, [3, 0], [4, 1]⟩, ⟨2, [0, 5], [1, 6]⟩] 1 :=
    ⟨by decide, fun j v hj1 hj2 => by omega, Or.inr ⟨le_rfl, 9, by
      simp only [List.take, RegionObject.getHausDistLB_noBreak.inner, a3, s9], by norm_num⟩⟩
  have N0 : n 0 = 1 := isComparisonCount_unique _ _ _ _ _ _ hn0 k0
  have N1 : n 1 = 1 := isComparisonCount_unique _ _ _ _ _ _ hn1 k1
  have N2 : n 2 = 1 := isComparisonCount_unique _ _ _ _ _ _ hn2 k2
  have N3 : n 3 = 1 := isComparisonCount_unique _ _ _ _ _ _ hn3 k3
  have emax : max (max (max (max ((5 : ℚ) * 5) 4) 4) 4) 9 = 25 := by norm_num
  have s5 : Real.sqrt ((25 : ℚ) : ℝ) = 5 := by
    push_cast
    rw [show (25 : ℝ) = 5 ^ 2 by norm_num]
    exact Real.sqrt_sq (by norm_num)
  rw [v0, v1, v2, v3, N0, N1, N2, N3, emax, s5] at hres
  rw [hres]
  rfl

/-! ## Lemmas and claims on touchesRegion and on the two lower bounds -/

theorem roundHalfEven_intCast (n : ℤ) : roundHalfEven (n : ℚ) = n := by
  simp [roundHalfEven]

theorem roundHalfEven_mono {p q : ℚ} (h : p ≤ q) : roundHalfEven p ≤ roundHalfEven q := by
  have hf : ⌊p⌋ ≤ ⌊q⌋ := Int.floor_mono h
  have hp0 := Int.floor_le p
  have hp1 := Int.lt_floor_add_one p
  have hq0 := Int.floor_le q
  have hq1 := Int.lt_floor_add_one q
  rcases lt_or_eq_of_le hf with hlt | heq
  · have h1 : roundHalfEven p ≤ ⌊p⌋ + 1 := by
      unfold roundHalfEven; split_ifs <;> omega
    have h2 : ⌊q⌋ ≤ roundHalfEven q := by
      unfold roundHalfEven; split_ifs <;> omega
    omega
  · unfold roundHalfEven
    rw [heq] at *
    split_ifs <;> first | omega | (exfalso; linarith)

/-- A rational number within less than one half of an integer rounds to it. -/
theorem roundHalfEven_of_abs_lt (q : ℚ) (n : ℤ) (h : |q - n| < 1 / 2) :
    roundHalfEven q = n := by
  rw [abs_lt] at h
  obtain ⟨h1, h2⟩ := h
  by_cases hn : (n : ℚ) ≤ q
  · have hf : ⌊q⌋ = n := by
      rw [Int.floor_eq_iff]; constructor <;> linarith
    unfold roundHalfEven
    rw [hf, if_pos (by linarith)]
  · have hf : ⌊q⌋ = n - 1 := by
      rw [Int.floor_eq_iff]; push_cast; constructor <;> linarith
    unfold roundHalfEven
    rw [hf, if_neg (by push_cast; linarith), if_pos (by push_cast; linarith)]
    omega

/-- The unit in the last place at a number of the binade `[2^e, 2^(e+1))`, for a normal
exponent `e`. -/
theorem ulpExponent_eq (x : ℚ) (e : ℤ) (h1 : (2 : ℚ) ^ e ≤ |x|) (h2 : |x| < (2 : ℚ) ^ (e + 1))
    (he : -1022 ≤ e) : ulpExponent x = e - 52 := by
  have hpos : 0 < |x| := lt_of_lt_of_le (by positivity) h1
  have hl : Int.log 2 |x| = e := by
    apply le_antisymm
    · have := (Int.lt_zpow_iff_log_lt (b := 2) (by norm_num) hpos).mp (by exact_mod_cast h2)
      omega
    · exact (Int.zpow_le_iff_le_log (b := 2) (by norm_num) hpos).mp (by exact_mod_cast h1)
  rw [ulpExponent, hl, max_eq_left he]

/-- A number of the binade `[2^e, 2^(e+1))` that is within less than half a unit in the
last place of the multiple `n` of that unit rounds to it. -/
theorem roundToDouble_of_near (x : ℚ) (e n : ℤ) (h1 : (2 : ℚ) ^ e ≤ |x|)
    (h2 : |x| < (2 : ℚ) ^ (e + 1)) (he : -1022 ≤ e)
    (h : |x / 2 ^ (e - 52) - n| < 1 / 2) : roundToDouble x = n * 2 ^ (e - 52) := by
  rw [roundToDouble, ulpExponent_eq x e h1 h2 he, roundHalfEven_of_abs_lt _ n h]

/-- The double nearest to `5 + epsilon` is 5: the doubles around 5 are `2^-50` apart. -/
theorem roundToDouble_five_add : roundToDouble (5 + DBL_EPSILON) = 5 := by
  rw [roundToDouble_of_near (5 + DBL_EPSILON) 2 (5 * 2 ^ 50)
    (by norm_num [DBL_EPSILON, abs_of_pos]) (by norm_num [DBL_EPSILON, abs_of_pos]) (by norm_num)
    (by norm_num [DBL_EPSILON, abs_of_pos])]
  norm_num

theorem roundToDouble_five_sub : roundToDouble (5 - DBL_EPSILON) = 5 := by
  rw [roundToDouble_of_near (5 - DBL_EPSILON) 2 (5 * 2 ^ 50)
    (by norm_num [DBL_EPSILON, abs_of_pos]) (by norm_num [DBL_EPSILON, abs_of_pos]) (by norm_num)
    (by norm_num [DBL_EPSILON, abs_of_pos])]
  norm_num

theorem roundToDouble_six_add : roundToDouble (6 + DBL_EPSILON) = 6 := by
  rw [roundToDouble_of_near (6 + DBL_EPSILON) 2 (6 * 2 ^ 50)
    (by norm_num [DBL_EPSILON, abs_of_pos]) (by norm_num [DBL_EPSILON, abs_of_pos]) (by norm_num)
    (by norm_num [DBL_EPSILON, abs_of_pos])]
  norm_num

theorem roundToDouble_six_sub : roundToDouble (6 - DBL_EPSILON) = 6 := by
  rw [roundToDouble_of_near (6 - DBL_EPSILON) 2 (6 * 2 ^ 50)
    (by norm_num [DBL_EPSILON, abs_of_pos]) (by norm_num [DBL_EPSILON, abs_of_pos]) (by norm_num)
    (by norm_num [DBL_EPSILON, abs_of_pos])]
  norm_num

/-- Rounding does not cross a multiple of the unit in the last place. -/
theorem roundToDouble_le_grid (x : ℚ) (n : ℤ) (h : x ≤ n * 2 ^ ulpExponent x) :
    roundToDouble x ≤ n * 2 ^ ulpExponent x := by
  have hpos : (0 : ℚ) < 2 ^ ulpExponent x := by positivity
  unfold roundToDouble
  apply mul_le_mul_of_nonneg_right _ hpos.le
  have : x / 2 ^ ulpExponent x ≤ (n : ℚ) := by rwa [div_le_iff₀ hpos]
  have := roundHalfEven_mono this
  rw [roundHalfEven_intCast] at this
  exact_mod_cast this

theorem grid_le_roundToDouble (x : ℚ) (n : ℤ) (h : n * 2 ^ ulpExponent x ≤ x) :
    n * 2 ^ ulpExponent x ≤ roundToDouble x := by
  have hpos : (0 : ℚ) < 2 ^ ulpExponent x := by positivity
  unfold roundToDouble
  apply mul_le_mul_of_nonneg_right _ hpos.le
  have : (n : ℚ) ≤ x / 2 ^ ulpExponent x := by rwa [le_div_iff₀ hpos]
  have := roundHalfEven_mono this
  rw [roundHalfEven_intCast] at this
  exact_mod_cast this

/-- A power of two at or above the unit in the last place `2^k` is a multiple of it. -/
theorem zpow_eq_grid (k E : ℤ) (h : k ≤ E) :
    (2 : ℚ) ^ E = ((2 ^ (E - k).toNat : ℤ) : ℚ) * 2 ^ k := by
  push_cast
  rw [← zpow_natCast, Int.toNat_of_nonneg (by omega), ← zpow_add₀ (by norm_num)]
  congr 1; omega

/-- Rounding is monotone on the positive numbers: within a binade it is the rounding to
an integer, and the results of two binades are separated by the power of two between
them. -/
theorem roundToDouble_mono_pos {x y : ℚ} (hx : 0 < x) (h : x ≤ y) :
    roundToDouble x ≤ roundToDouble y := by
  have hy : 0 < y := lt_of_lt_of_le hx h
  have hlog : Int.log 2 x ≤ Int.log 2 y := Int.log_mono_right hx h
  have hk : ulpExponent x ≤ ulpExponent y := by
    unfold ulpExponent; rw [abs_of_pos hx, abs_of_pos hy]
    have := max_le_max hlog (le_refl (-1022 : ℤ)); omega
  rcases lt_or_eq_of_le hk with hlt | heq
  · have hE : ulpExponent y + 52 = Int.log 2 y ∧ Int.log 2 x < Int.log 2 y := by
      unfold ulpExponent at hlt ⊢
      rw [abs_of_pos hx] at hlt
      rw [abs_of_pos hy] at hlt ⊢
      rcases le_total (Int.log 2 y) (-1022) with h1 | h1
      · rw [max_eq_right h1, max_eq_right (hlog.trans h1)] at hlt; omega
      · rw [max_eq_left h1] at hlt ⊢
        have := le_max_left (Int.log 2 x) (-1022)
        constructor <;> omega
    obtain ⟨hE1, hE2⟩ := hE
    have hxlt : x < (2 : ℚ) ^ (Int.log 2 y) := by
      have := (Int.lt_zpow_iff_log_lt (b := 2) (by norm_num) hx).mpr hE2
      exact_mod_cast this
    have hyge : (2 : ℚ) ^ (Int.log 2 y) ≤ y := by
      have := Int.zpow_log_le_self (b := 2) (by norm_num) hy
      exact_mod_cast this
    have g1 := zpow_eq_grid (ulpExponent x) (Int.log 2 y) (by omega)
    have g2 := zpow_eq_grid (ulpExponent y) (Int.log 2 y) (by omega)
    have u := roundToDouble_le_grid x _ (by rw [← g1]; exact hxlt.le)
    have l := grid_le_roundToDouble y _ (by rw [← g2]; exact hyge)
    rw [← g1] at u
    rw [← g2] at l
    exact u.trans l
  · unfold roundToDouble
    rw [heq]
    have hpos : (0 : ℚ) < 2 ^ ulpExponent y := by positivity
    apply mul_le_mul_of_nonneg_right _ hpos.le
    exact_mod_cast roundHalfEven_mono (div_le_div_of_nonneg_right h hpos.le)

theorem roundToDouble_mono_neg {x y : ℚ} (hy : y < 0) (h : x ≤ y) :
    roundToDouble x ≤ roundToDouble y := by
  have hx : x < 0 := lt_of_le_of_lt h hy
  have hlog : Int.log 2 (-y) ≤ Int.log 2 (-x) := Int.log_mono_right (by linarith) (by linarith)
  have hk : ulpExponent y ≤ ulpExponent x := by
    unfold ulpExponent; rw [abs_of_neg hx, abs_of_neg hy]
    have := max_le_max hlog (le_refl (-1022 : ℤ)); omega
  rcases lt_or_eq_of_le hk with hlt | heq
  · have hE : ulpExponent x + 52 = Int.log 2 (-x) ∧ Int.log 2 (-y) < Int.log 2 (-x) := by
      unfold ulpExponent at hlt ⊢
      rw [abs_of_neg hy] at hlt
      rw [abs_of_neg hx] at hlt ⊢
      rcases le_total (Int.log 2 (-x)) (-1022) with h1 | h1
      · rw [max_eq_right h1, max_eq_right (hlog.trans h1)] at hlt; omega
      · rw [max_eq_left h1] at hlt ⊢
        have := le_max_left (Int.log 2 (-y)) (-1022)
        constructor <;> omega
    obtain ⟨hE1, hE2⟩ := hE
    have hylt : -y < (2 : ℚ) ^ (Int.log 2 (-x)) := by
      have := (Int.lt_zpow_iff_log_lt (b := 2) (by norm_num) (show 0 < -y by linarith)).mpr hE2
      exact_mod_cast this
    have hxge : (2 : ℚ) ^ (Int.log 2 (-x)) ≤ -x := by
      have := Int.zpow_log_le_self (b := 2) (by norm_num) (show 0 < -x by linarith)
      exact_mod_cast this
    have g1 := zpow_eq_grid (ulpExponent x) (Int.log 2 (-x)) (by omega)
    have g2 := zpow_eq_grid (ulpExponent y) (Int.log 2 (-x)) (by omega)
    have u := roundToDouble_le_grid x (-(2 ^ (Int.log 2 (-x) - ulpExponent x).toNat : ℤ))
      (by rw [Int.cast_neg, neg_mul, ← g1]; linarith)
    have l := grid_le_roundToDouble y (-(2 ^ (Int.log 2 (-x) - ulpExponent y).toNat : ℤ))
      (by rw [Int.cast_neg, neg_mul, ← g2]; linarith)
    rw [Int.cast_neg, neg_mul, ← g1] at u
    rw [Int.cast_neg, neg_mul, ← g2] at l
    exact u.trans l
  · unfold roundToDouble
    rw [heq]
    have hpos : (0 : ℚ) < 2 ^ ulpExponent x := by positivity
    apply mul_le_mul_of_nonneg_right _ hpos.le
    exact_mod_cast roundHalfEven_mono (div_le_div_of_nonneg_right h hpos.le)

/-- Rounding to the nearest double is monotone. -/
theorem roundToDouble_mono {x y : ℚ} (h : x ≤ y) : roundToDouble x ≤ roundToDouble y := by
  rcases lt_or_le 0 x with hx | hx
  · exact roundToDouble_mono_pos hx h
  · rcases lt_or_le y 0 with hy | hy
    · exact roundToDouble_mono_neg hy h
    · have u := roundToDouble_le_grid x 0 (by simpa using hx)
      have l := grid_le_roundToDouble y 0 (by simpa using hy)
      simp only [Int.cast_zero, zero_mul] at u l
      exact u.trans l

/-- Where a bound `a` passes the test `a >= b + epsilon && a <= b - epsilon` of
`touchesRegion`, both rounded sums are `a`; and `a` is `b` when `b` is a double. -/
theorem touches_test_absorbed (a b : ℚ) (h1 : a ≥ roundToDouble (b + DBL_EPSILON))
    (h2 : a ≤ roundToDouble (b - DBL_EPSILON)) :
    a = roundToDouble (b + DBL_EPSILON) ∧ a = roundToDouble (b - DBL_EPSILON) ∧
      (roundToDouble b = b → a = b) := by
  have he : (0 : ℚ) < DBL_EPSILON := by norm_num [DBL_EPSILON]
  have m1 : roundToDouble (b - DBL_EPSILON) ≤ roundToDouble b :=
    roundToDouble_mono (by linarith)
  have m2 : roundToDouble b ≤ roundToDouble (b + DBL_EPSILON) :=
    roundToDouble_mono (by linarith)
  refine ⟨by linarith, by linarith, fun hb => ?_⟩
  rw [hb] at m1 m2
  linarith

/-- The loop of `touchesRegion` returns false only at an axis where the low bounds or the
high bounds pass its test. -/
theorem touchesRegion_loop_false (self r : Region) (l : List Nat)
    (h : touchesRegion.loop self r l = false) :
    ∃ i ∈ l,
      (rd self.m_pLow i ≥ roundToDouble (rd r.m_pLow i + DBL_EPSILON) ∧
          rd self.m_pLow i ≤ roundToDouble (rd r.m_pLow i - DBL_EPSILON)) ∨
        (rd self.m_pHigh i ≥ roundToDouble (rd r.m_pHigh i + DBL_EPSILON) ∧
          rd self.m_pHigh i ≤ roundToDouble (rd r.m_pHigh i - DBL_EPSILON)) := by
  induction l with
  | nil => simp [touchesRegion.loop] at h
  | cons i rest ih =>
    rw [touchesRegion.loop] at h
    split_ifs at h with hc
    · exact ⟨i, List.mem_cons_self _ _, hc⟩
    · obtain ⟨j, hj, hj'⟩ := ih h
      exact ⟨j, List.mem_cons_of_mem _ hj, hj'⟩

/-- C21 fails on the code: for A = low(0,0) high(1,1) and B = low(5,5) high(6,6), which
must not touch, `touchesRegion` returns true.  Its loop returns false on an axis where
`low >= r.low + epsilon && low <= r.low - epsilon`, or the same for the highs, the sums
being doubles: whenever it returns false, some bound of A equals both rounded sums of the
same bound of B, and equals that bound of B when it is a double -- the two regions share a
bound, and epsilon is absorbed by the rounding.  So it is for B against itself, where
`touchesRegion` returns false.  The sibling `touchesPoint` returns false for A and the
point (5,5). -/
theorem touchesRegion_true_far_apart :
    touchesRegion ⟨2, [0, 0], [1, 1]⟩ ⟨2, [5, 5], [6, 6]⟩ = .ok true ∧
    (∀ A B : Region, touchesRegion A B = .ok false →
      ∃ i, i < A.m_dimension ∧
        ((rd A.m_pLow i = roundToDouble (rd B.m_pLow i + DBL_EPSILON) ∧
            rd A.m_pLow i = roundToDouble (rd B.m_pLow i - DBL_EPSILON) ∧
            (roundToDouble (rd B.m_pLow i) = rd B.m_pLow i → rd A.m_pLow i = rd B.m_pLow i)) ∨
          (rd A.m_pHigh i = roundToDouble (rd B.m_pHigh i + DBL_EPSILON) ∧
            rd A.m_pHigh i = roundToDouble (rd B.m_pHigh i - DBL_EPSILON) ∧
            (roundToDouble (rd B.m_pHigh i) = rd B.m_pHigh i →
              rd A.m_pHigh i = rd B.m_pHigh i)))) ∧
    touchesRegion ⟨2, [5, 5], [6, 6]⟩ ⟨2, [5, 5], [6, 6]⟩ = .ok false ∧
    touchesPoint ⟨2, [0, 0], [1, 1]⟩ ⟨2, [5, 5]⟩ = .ok false := by
  have r0 : rd [5, 5] 0 = 5 := rfl
  have r1 : rd [5, 5] 1 = 5 := rfl
  have r2 : rd [6, 6] 0 = 6 := rfl
  have r3 : rd [6, 6] 1 = 6 := rfl
  refine ⟨?_, ?_, ?_, ?_⟩
  · simp only [touchesRegion, touchesRegion.loop, List.range, List.range.loop, r0, r1, r2, r3,
      roundToDouble_five_add, roundToDouble_five_sub, roundToDouble_six_add,
      roundToDouble_six_sub]
    norm_num [rd]
  · intro A B h
    unfold touchesRegion at h
    split_ifs at h with hd
    obtain ⟨i, hi, hc⟩ := touchesRegion_loop_false A B _ (by simpa using h)
    refine ⟨i, List.mem_range.mp hi, ?_⟩
    rcases hc with ⟨h1, h2⟩ | ⟨h1, h2⟩
    · exact Or.inl (touches_test_absorbed _ _ h1 h2)
    · exact Or.inr (touches_test_absorbed _ _ h1 h2)
  · simp only [touchesRegion, touchesRegion.loop, List.range, List.range.loop, r0, r1, r2, r3,
      roundToDouble_five_add, roundToDouble_five_sub, roundToDouble_six_add,
      roundToDouble_six_sub]
    norm_num
  · norm_num [touchesPoint, touchesPoint.loop, Point.getCoordinate, rd, DBL_EPSILON, List.range,
      List.range.loop]

theorem gapRegion_nonneg (A R : Region) (i : Nat) : 0 ≤ gapRegion A R i := by
  unfold gapRegion
  split_ifs
  · exact abs_nonneg _
  · exact abs_nonneg _
  · exact le_rfl

/-- On an axis where `e` starts where `A` starts and ends no later than `A`, `e` is at
least as far from `R` as `A` is. -/
theorem gapRegion_mono (A e R : Region) (i : Nat) (hl : rd e.m_pLow i = rd A.m_pLow i)
    (hh : rd e.m_pHigh i ≤ rd A.m_pHigh i) : gapRegion A R i ≤ gapRegion e R i := by
  unfold gapRegion
  rw [hl]
  by_cases h1 : rd R.m_pHigh i < rd A.m_pLow i
  · rw [if_pos h1, if_pos h1]
  · rw [if_neg h1, if_neg h1]
    by_cases h2 : rd A.m_pHigh i < rd R.m_pLow i
    · rw [if_pos h2, if_pos (lt_of_le_of_lt hh h2), abs_of_pos (by linarith),
        abs_of_pos (by linarith)]
      linarith
    · rw [if_neg h2]
      split_ifs
      · exact abs_nonneg _
      · exact le_rfl

/-- The squared distance of two 2-dimensional regions, axis by axis. -/
theorem getMinimumDistanceSq_two (A R : Region) (hA : A.m_dimension = 2)
    (hR : R.m_dimension = 2) :
    getMinimumDistanceSq A R
      = .ok (gapRegion A R 0 * gapRegion A R 0 + gapRegion A R 1 * gapRegion A R 1) := by
  simp [getMinimumDistanceSq, hA, hR, List.range, List.range.loop]

/-- The coordinates of the South edge `getEdge(0)` of a 2-dimensional region. -/
theorem edgeOf_zero (A : Region) (hA : A.m_dimension = 2) :
    edgeOf A 0 = ⟨2, [rd A.m_pLow 0, rd A.m_pLow 1], [rd A.m_pHigh 0, rd A.m_pLow 1]⟩ := by
  simp [edgeOf, getEdge, hA, ofDimension, newDoubles]

/-- The South edge of a 2-dimensional region with low <= high on both axes is at least as
far from any 2-dimensional region as the region itself. -/
theorem box_le_south (A R : Region) (hA : A.m_dimension = 2) (hAw : A.LowLeHigh)
    (hR : R.m_dimension = 2) :
    ∃ dA d0 : ℚ, getMinimumDistanceSq A R = .ok dA ∧
      getMinimumDistanceSq (edgeOf A 0) R = .ok d0 ∧ 0 ≤ dA ∧ dA ≤ d0 := by
  have h0 : gapRegion A R 0 ≤ gapRegion (edgeOf A 0) R 0 := by
    apply gapRegion_mono
    · rw [edgeOf_zero A hA]; rfl
    · rw [edgeOf_zero A hA]; exact le_rfl
  have h1 : gapRegion A R 1 ≤ gapRegion (edgeOf A 0) R 1 := by
    apply gapRegion_mono
    · rw [edgeOf_zero A hA]; rfl
    · rw [edgeOf_zero A hA]; exact hAw 1 (by rw [hA]; decide)
  refine ⟨_, _, getMinimumDistanceSq_two A R hA hR,
    getMinimumDistanceSq_two (edgeOf A 0) R (edgeOf_dimension A 0) hR, ?_, ?_⟩
  · exact add_nonneg (mul_self_nonneg _) (mul_self_nonneg _)
  · have n0 := gapRegion_nonneg A R 0
    have n1 := gapRegion_nonneg A R 1
    exact add_le_add (mul_le_mul h0 h0 n0 (n0.trans h0)) (mul_le_mul h1 h1 n1 (n1.trans h1))

/-- C22, as stated, fails in a build without NDEBUG: `getHausDistLB(Region r)` takes its
argument by value, and the copy constructor's `initialize` rejects R = low(5,0) high(1,1),
whose low exceeds its high on the first axis.  For A the copy of low(0,0) high(1,1),
A.getMHausDistLB(R) returns 4 and A.getHausDistLB(R) throws IllegalArgumentException, so
there is no value to compare. -/
theorem getHausDistLB_rejects_argument :
    RegionObject.copy false ⟨2, [0, 0], [1, 1]⟩
      = .ok ⟨⟨2, [0, 0], [1, 1]⟩,
          [⟨2, [0, 0], [1, 0]⟩, ⟨2, [1, 0], [1, 1]⟩, ⟨2, [0, 1], [1, 1]⟩, ⟨2, [0, 0], [0, 1]⟩]⟩ ∧
    (⟨2, [5, 0], [1, 1]⟩ : Region).Allocated ∧
    getMHausDistLB ⟨2, [0, 0], [1, 1]⟩ (.region ⟨2, [5, 0], [1, 1]⟩) = .ok 4 ∧
    RegionObject.getHausDistLB false
        ⟨⟨2, [0, 0], [1, 1]⟩,
          [⟨2, [0, 0], [1, 0]⟩, ⟨2, [1, 0], [1, 1]⟩, ⟨2, [0, 1], [1, 1]⟩, ⟨2, [0, 0], [0, 1]⟩]⟩
        ⟨2, [5, 0], [1, 1]⟩
      = some (.error .IllegalArgumentException) := by
  have h4 : Real.sqrt 16 = 4 := by
    rw [show (16 : ℝ) = 4 ^ 2 by norm_num]; exact Real.sqrt_sq (by norm_num)
  have hc : RegionObject.copy false ⟨2, [5, 0], [1, 1]⟩ = .error .IllegalArgumentException := by
    norm_num [RegionObject.copy, initialize_, initialize_.throws, rd, DBL_MAX, List.range,
      List.range.loop]
  refine ⟨by rfl, ⟨rfl, rfl⟩, ?_, by simp only [RegionObject.getHausDistLB, hc]⟩
  have hd : getMinimumDistanceSq ⟨2, [0, 0], [1, 1]⟩ ⟨2, [5, 0], [1, 1]⟩ = .ok 16 := by
    norm_num [getMinimumDistanceSq, gapRegion, rd, List.range, List.range.loop]
  simp only [getMHausDistLB, getMinimumDistanceSq_Shape, hd, ne_eq, not_true_eq_false, if_false]
  norm_num [h4]

/-- C22 (amended): for every 2-dimensional region A with low[i] <= high[i] on both axes and
current cached edges, and every 2-dimensional region R that `initialize` accepts when the
by-value parameter of getHausDistLB is copied (every R when NDEBUG is defined),
A.getMHausDistLB(R) <= A.getHausDistLB(R): sqrt(A.getMinimumDistanceSq(R)) is at most the
square root of the largest edge-to-R minimum squared distance, which is at most the value
getHausDistLB returns. -/
theorem getMHausDistLB_le_getHausDistLB (NDEBUG : Bool) (A : RegionObject) (R : Region)
    (hA : A.m_dimension = 2) (hAw : A.toRegion.LowLeHigh)
    (hcache : A.m_vec_pEdge
      = [edgeOf A.toRegion 0, edgeOf A.toRegion 1, edgeOf A.toRegion 2, edgeOf A.toRegion 3])
    (hR : R.Allocated) (hRd : R.m_dimension = 2)
    (hcopy : NDEBUG = true ∨
      initialize_.throws R.m_pLow R.m_pHigh (List.range R.m_dimension) = false) :
    ∃ dA d0 d1 d2 d3 : ℚ,
      getMinimumDistanceSq A.toRegion R = .ok dA ∧
      getMinimumDistanceSq (edgeOf A.toRegion 0) R = .ok d0 ∧
      getMinimumDistanceSq (edgeOf A.toRegion 1) R = .ok d1 ∧
      getMinimumDistanceSq (edgeOf A.toRegion 2) R = .ok d2 ∧
      getMinimumDistanceSq (edgeOf A.toRegion 3) R = .ok d3 ∧
      getMHausDistLB A.toRegion (.region R) = .ok (Real.sqrt (dA : ℝ)) ∧
      RegionObject.getHausDistLB NDEBUG A R
        = some (.ok (Real.sqrt ((max (max (max (max DBL_MIN d0) d1) d2) d3 : ℚ) : ℝ))) ∧
      Real.sqrt (dA : ℝ) ≤ Real.sqrt ((max (max (max d0 d1) d2) d3 : ℚ) : ℝ) ∧
      Real.sqrt (dA : ℝ) ≤ Real.sqrt ((max (max (max (max DBL_MIN d0) d1) d2) d3 : ℚ) : ℝ) := by
  obtain ⟨dA, d0, hdA, hd0, -, hle⟩ := box_le_south A.toRegion R hA hAw hRd
  obtain ⟨d1, hd1⟩ : ∃ d, getMinimumDistanceSq (edgeOf A.toRegion 1) R = .ok d :=
    ⟨_, getMinimumDistanceSq_two (edgeOf A.toRegion 1) R (edgeOf_dimension _ 1) hRd⟩
  obtain ⟨d2, hd2⟩ : ∃ d, getMinimumDistanceSq (edgeOf A.toRegion 2) R = .ok d :=
    ⟨_, getMinimumDistanceSq_two (edgeOf A.toRegion 2) R (edgeOf_dimension _ 2) hRd⟩
  obtain ⟨d3, hd3⟩ : ∃ d, getMinimumDistanceSq (edgeOf A.toRegion 3) R = .ok d :=
    ⟨_, getMinimumDistanceSq_two (edgeOf A.toRegion 3) R (edgeOf_dimension _ 3) hRd⟩
  refine ⟨dA, d0, d1, d2, d3, hdA, hd0, hd1, hd2, hd3, ?_,
    getHausDistLB_eq NDEBUG A R _ _ _ _ d0 d1 d2 d3 hA hcache hR hRd hcopy hd0 hd1 hd2 hd3,
    ?_, ?_⟩
  · simp only [getMHausDistLB, getMinimumDistanceSq_Shape, hdA, hA, ne_eq, not_true_eq_false,
      if_false]
  · apply Real.sqrt_le_sqrt
    have : dA ≤ max (max (max d0 d1) d2) d3 :=
      hle.trans (le_max_of_le_left (le_max_of_le_left (le_max_left _ _)))
    exact_mod_cast this
  · apply Real.sqrt_le_sqrt
    have : dA ≤ max (max (max (max DBL_MIN d0) d1) d2) d3 :=
      hle.trans (le_max_of_le_left (le_max_of_le_left (le_max_of_le_left (le_max_right _ _))))
    exact_mod_cast this

/-- C22 at A the copy of low(0,0) high(1,1) and R = low(3,0) high(4,1) in a build without
NDEBUG: getMHausDistLB returns 2, getHausDistLB returns 3. -/
theorem getMHausDistLB_le_getHausDistLB_witness :
    getMHausDistLB ⟨2, [0, 0], [1, 1]⟩ (.region ⟨2, [3, 0], [4, 1]⟩) = .ok 2 ∧
    RegionObject.getHausDistLB false
        ⟨⟨2, [0, 0], [1, 1]⟩,
          [⟨2, [0, 0], [1, 0]⟩, ⟨2, [1, 0], [1, 1]⟩, ⟨2, [0, 1], [1, 1]⟩, ⟨2, [0, 0], [0, 1]⟩]⟩
        ⟨2, [3, 0], [4, 1]⟩ = some (.ok 3) ∧
    (2 : ℝ) ≤ 3 := by
  obtain ⟨dA, d0, d1, d2, d3, hA, h0, h1, h2, h3, hM, hL, -, hle⟩ :=
    getMHausDistLB_le_getHausDistLB false
      ⟨⟨2, [0, 0], [1, 1]⟩,
        [⟨2, [0, 0], [1, 0]⟩, ⟨2, [1, 0], [1, 1]⟩, ⟨2, [0, 1], [1, 1]⟩, ⟨2, [0, 0], [0, 1]⟩]⟩
      ⟨2, [3, 0], [4, 1]⟩ rfl (by decide) (by rfl) ⟨rfl, rfl⟩ rfl (Or.inr (by rfl))
  have eA : getMinimumDistanceSq ⟨2, [0, 0], [1, 1]⟩ ⟨2, [3, 0], [4, 1]⟩ = .ok 4 := by
    norm_num [getMinimumDistanceSq, gapRegion, rd, List.range, List.range.loop]
  have e0 : getMinimumDistanceSq (edgeOf ⟨2, [0, 0], [1, 1]⟩ 0) ⟨2, [3, 0], [4, 1]⟩ = .ok 4 := by
    norm_num [edgeOf, getEdge, ofDimension, newDoubles, getMinimumDistanceSq, gapRegion, rd,
      List.range, List.range.loop]
  have e1 : getMinimumDistanceSq (edgeOf ⟨2, [0, 0], [1, 1]⟩ 1) ⟨2, [3, 0], [4, 1]⟩ = .ok 4 := by
    norm_num [edgeOf, getEdge, ofDimension, newDoubles, getMinimumDistanceSq, gapRegion, rd,
      List.range, List.range.loop]
  have e2 : getMinimumDistanceSq (edgeOf ⟨2, [0, 0], [1, 1]⟩ 2) ⟨2, [3, 0], [4, 1]⟩ = .ok 4 := by
    norm_num [edgeOf, getEdge, ofDimension, newDoubles, getMinimumDistanceSq, gapRegion, rd,
      List.range, List.range.loop]
  have e3 : getMinimumDistanceSq (edgeOf ⟨2, [0, 0], [1, 1]⟩ 3) ⟨2, [3, 0], [4, 1]⟩ = .ok 9 := by
    norm_num [edgeOf, getEdge, ofDimension, newDoubles, getMinimumDistanceSq, gapRegion, rd,
      List.range, List.range.loop]
  have vA : dA = 4 := (Except.ok.inj (hA.symm.trans eA))
  have v0 : d0 = 4 := (Except.ok.inj (h0.symm.trans e0))
  have v1 : d1 = 4 := (Except.ok.inj (h1.symm.trans e1))
  have v2 : d2 = 4 := (Except.ok.inj (h2.symm.trans e2))
  have v3 : d3 = 9 := (Except.ok.inj (h3.symm.trans e3))
  have s2 : Real.sqrt 4 = 2 := by
    rw [show (4 : ℝ) = 2 ^ 2 by norm_num]; exact Real.sqrt_sq (by norm_num)
  have s3 : Real.sqrt 9 = 3 := by
    rw [show (9 : ℝ) = 3 ^ 2 by norm_num]; exact Real.sqrt_sq (by norm_num)
  have hmin : DBL_MIN ≤ 4 := by norm_num [DBL_MIN]
  rw [vA] at hM hle
  rw [v0, v1, v2, v3] at hL hle
  have emax : max (max (max (max DBL_MIN 4) 4) 4) (9 : ℚ) = 9 := by
    rw [max_eq_right hmin]; norm_num
  rw [emax] at hL hle
  push_cast at hM hL hle
  rw [s2] at hM hle
  rw [s3] at hL hle
  exact ⟨hM, hL, hle⟩

end Region

end SpatialIndex
